import Mathlib

/-!
# simpler_wc: the AICPU scheduler and the AICore worker loop

A shallow embedding of `src/runtime/aicpu/aicpu_executor.cpp` and
`src/runtime/aicore/aicore_executor.cpp`.

* `int` values are `Int`; array indices and task ids are `Nat`.
* C arrays are total functions from the index, written with `Function.update`.
* `std::atomic` fields are plain fields; one step of a thread performs at most
  one access to memory that another thread writes while the dispatch loop runs.
-/

namespace SimplerWc

/-! ## Constants (aicpu_executor.cpp:9-12) -/

def MAX_AICPU_THREADS : Int := 4
def MAX_AIC_PER_THREAD : Int := 24
def MAX_AIV_PER_THREAD : Int := 48
def MAX_CORES_PER_THREAD : Int := MAX_AIC_PER_THREAD + MAX_AIV_PER_THREAD

/-- Two's complement reduction of an `int` result to 32 bits. -/
def wrapInt32 (x : Int) : Int := (x + 2147483648) % 4294967296 - 2147483648

/-! ## Data model -/

/-- Modelled from the spec: the `Task` record of `runtime.h` (section 3), of which the
sources use `task_id`, `core_type`, `fanout[0 .. fanout_count)`, the atomic `fanin`,
`functionBinAddr` and `args`. -/
structure Task where
  task_id : Int
  core_type : Int
  fanout : List Nat
  fanin : Int
  functionBinAddr : Nat
  args : Nat

/-- Modelled from the spec: the `Handshake` cell of `runtime.h` (section 3). -/
structure Handshake where
  aicpu_ready : Nat
  aicore_done : Nat
  task : Nat
  task_status : Int
  core_type : Int
  control : Nat

/-- Modelled from the spec: the `Runtime` aggregate of `runtime.h` (section 3).
`tasks` is the fixed-capacity task array (`get_task id` is `tasks id`),
`task_count` is `get_task_count()`, `initial_ready` is the list written by
`get_initial_ready_tasks`, `workers` the handshake array and `regs` the array of
register base addresses. -/
structure Runtime where
  scheCpuNum : Int
  block_dim : Int
  task_count : Nat
  tasks : Nat → Task
  initial_ready : List Nat
  workers : Nat → Handshake
  regs : Nat → Nat

/-- The address of `tasks[id]` as stored in `Handshake::task`; `0` is the null pointer. -/
def taskAddr (id : Nat) : Nat := id + 1

/-- The fields of `struct AicpuExecutor` (aicpu_executor.cpp:14-41). -/
structure AicpuExecutor where
  thread_idx_ : Int
  initialized_ : Bool
  init_done_ : Bool
  init_failed_ : Bool
  finished_ : Bool
  thread_num_ : Int
  cores_total_num_ : Int
  blockdim_cores_num_ : Int
  thread_cores_num_ : Int
  core_assignments_ : Nat → Nat → Int
  physical_core_ids_ : Nat → Nat → Int
  ready_queue_aic_ : Nat → Nat
  ready_count_aic_ : Int
  ready_queue_aiv_ : Nat → Nat
  ready_count_aiv_ : Int
  completed_tasks_ : Int
  total_tasks_ : Int
  finished_count_ : Int

/-- A freshly constructed executor: the default member initialisers; the arrays have
no initialiser, so their contents are parameters. -/
def AicpuExecutor.fresh (ca pc : Nat → Nat → Int) (qa qv : Nat → Nat) : AicpuExecutor :=
  { thread_idx_ := 0, initialized_ := false, init_done_ := false, init_failed_ := false,
    finished_ := false, thread_num_ := 0, cores_total_num_ := 0, blockdim_cores_num_ := 3,
    thread_cores_num_ := 0, core_assignments_ := ca, physical_core_ids_ := pc,
    ready_queue_aic_ := qa, ready_count_aic_ := 0, ready_queue_aiv_ := qv,
    ready_count_aiv_ := 0, completed_tasks_ := 0, total_tasks_ := 0, finished_count_ := 0 }

/-! ## `AicpuExecutor::Init` (aicpu_executor.cpp:61-168) -/

/-- Lines 118-120: `for (b = start_block; b < end_block; b++) row[core_idx++] = b;`
The first argument is the number of iterations left, `end_block - b`. -/
def assignAicLoop : Nat → Int → (Nat → Int) × Nat → (Nat → Int) × Nat
  | 0, _, s => s
  | k + 1, b, (row, core_idx) =>
      assignAicLoop k (b + 1) (Function.update row core_idx b, core_idx + 1)

/-- Lines 123-127: two vector cores per block, `aiv_base + b * 2` and `aiv_base + b * 2 + 1`. -/
def assignAivLoop (aiv_base : Int) : Nat → Int → (Nat → Int) × Nat → (Nat → Int) × Nat
  | 0, _, s => s
  | k + 1, b, (row, core_idx) =>
      assignAivLoop aiv_base k (b + 1)
        (Function.update (Function.update row core_idx (aiv_base + b * 2))
            (core_idx + 1) (aiv_base + b * 2 + 1),
          core_idx + 2)

/-- Lines 113-127: the row `core_assignments_[t]` after the two inner loops. -/
def assignRow (num_aic blocks_per_thread : Int) (t : Nat) (row : Nat → Int) : Nat → Int :=
  let start_block := (t : Int) * blocks_per_thread
  let end_block := ((t : Int) + 1) * blocks_per_thread
  let s1 := assignAicLoop (end_block - start_block).toNat start_block (row, 0)
  (assignAivLoop num_aic (end_block - start_block).toNat start_block s1).1

/-- Lines 112-137, the body of the loop over `t`. -/
def assignThread (num_aic blocks_per_thread : Int) (ca : Nat → Nat → Int) (t : Nat) :
    Nat → Nat → Int :=
  Function.update ca t (assignRow num_aic blocks_per_thread t (ca t))

/-- Lines 112-137: `for (int t = 0; t < thread_num_; t++)`. -/
def assignCores (num_aic blocks_per_thread thread_num : Int) (ca : Nat → Nat → Int) :
    Nat → Nat → Int :=
  (List.range thread_num.toNat).foldl (assignThread num_aic blocks_per_thread) ca

/-- The two ready queues while `Init` seeds them (lines 148-157). -/
structure Seed where
  queue_aic : Nat → Nat
  aic_count : Nat
  queue_aiv : Nat → Nat
  aiv_count : Nat

/-- Lines 150-157, one iteration: the id goes to the queue of its task's `core_type`. -/
def seedOne (tasks : Nat → Task) (s : Seed) (id : Nat) : Seed :=
  if (tasks id).core_type = 0 then
    { s with queue_aic := Function.update s.queue_aic s.aic_count id,
             aic_count := s.aic_count + 1 }
  else
    { s with queue_aiv := Function.update s.queue_aiv s.aiv_count id,
             aiv_count := s.aiv_count + 1 }

/-- Lines 148-157: `for (int i = 0; i < initial_count; i++)`. -/
def seedQueues (tasks : Nat → Task) (initial_ready : List Nat) (qa qv : Nat → Nat) : Seed :=
  initial_ready.foldl (seedOne tasks) ⟨qa, 0, qv, 0⟩

/-- Lines 76-77: `thread_num_ = runtime->scheCpuNum; if (thread_num_ == 0) thread_num_ = 1;` -/
def threadNumOf (r : Runtime) : Int := if r.scheCpuNum = 0 then 1 else r.scheCpuNum

/-- `AicpuExecutor::Init` from line 67 on, run by the caller that won the
`compare_exchange_strong` of line 63: the return value and the executor afterwards.
`none` is the null `Runtime*`. -/
def AicpuExecutor.InitBody (e : AicpuExecutor) (runtime : Option Runtime) :
    Int × AicpuExecutor :=
  match runtime with
  | none => (-1, { e with init_failed_ := true })
  | some r =>
    let thread_num := threadNumOf r
    let e := { e with thread_num_ := thread_num }
    if thread_num < 1 ∨ thread_num > MAX_AICPU_THREADS then
      (-1, { e with init_failed_ := true })
    else
    let cores_total := wrapInt32 (r.block_dim * e.blockdim_cores_num_)
    let e := { e with cores_total_num_ := cores_total,
                      thread_cores_num_ := Int.tdiv cores_total thread_num }
    if cores_total > MAX_CORES_PER_THREAD then
      (-1, { e with init_failed_ := true })
    else
    let num_aic := r.block_dim
    let blocks_per_thread := Int.tdiv r.block_dim thread_num
    if Int.tmod r.block_dim thread_num ≠ 0 then
      (-1, { e with init_failed_ := true })
    else
    let seed := seedQueues r.tasks r.initial_ready e.ready_queue_aic_ e.ready_queue_aiv_
    (0, { e with
            core_assignments_ :=
              assignCores num_aic blocks_per_thread thread_num e.core_assignments_,
            total_tasks_ := (r.task_count : Int),
            completed_tasks_ := 0,
            ready_queue_aic_ := seed.queue_aic,
            ready_queue_aiv_ := seed.queue_aiv,
            ready_count_aic_ := (seed.aic_count : Int),
            ready_count_aiv_ := (seed.aiv_count : Int),
            finished_count_ := 0,
            init_done_ := true })

/-- Line 63: the executor after the `compare_exchange_strong` that found `initialized_`
false and stored `true`. -/
def AicpuExecutor.claim (e : AicpuExecutor) : AicpuExecutor := { e with initialized_ := true }

/-- `AicpuExecutor::Init`: lines 62-65, `initialized_.compare_exchange_strong(false, true)`
lets one caller through; every other caller returns `0` at once. -/
def AicpuExecutor.Init (e : AicpuExecutor) (runtime : Option Runtime) : Int × AicpuExecutor :=
  if e.initialized_ then (0, e) else e.claim.InitBody runtime

/-! ## The dispatch loop, shared-memory transport

`AicpuExecutor::resolve_and_dispatch` (aicpu_executor.cpp:219-382, the `#else`
branches) run by `thread_num_` scheduler threads, interleaved with
`AicoreExecute` (aicore_executor.cpp:65-99, the `#else` branch) run by the workers.
-/

/-- Instrumentation: what the scheduler threads and the workers have done so far,
oldest event first. -/
inductive Event
  /-- the id was written into a ready queue (by `Init` or by a reclaim) -/
  | push (task_id : Nat)
  /-- the id was popped for the worker `core` by the dispatch phase -/
  | assign (task_id core : Nat)
  /-- Phase A found the task completed on the worker `core` -/
  | reclaim (task_id core : Nat)
  /-- the worker `core` called the kernel of the task at address `task_id + 1` -/
  | kernel (task_id core : Nat)
  deriving DecidableEq

/-- Where a scheduler thread stands in `resolve_and_dispatch`. -/
inductive Pc
  /-- line 236, the test of the `while` -/
  | loopHead
  /-- line 238, at the head of the Phase 1 loop with index `i` -/
  | phaseA (i : Nat)
  /-- line 270, at the head of the fanout loop with index `j`, `task` completed -/
  | fanout (i task j : Nat)
  /-- lines 276-288, `prev_fanin == 1` was observed for `dep_id` -/
  | push (i task j dep_id : Nat)
  /-- lines 296-298, `h->task = 0; cur_thread_tasks_in_flight--` -/
  | clear (i task : Nat)
  /-- lines 299-300, `completed_tasks_.fetch_add(1); cur_thread_completed++` -/
  | count (i task : Nat)
  /-- line 306, the back-pressure test -/
  | backPressure
  /-- line 312, at the head of the Phase 2 loop with index `i` -/
  | phaseB (i : Nat)
  /-- lines 331-338 and 353-360, the core `i` was found idle -/
  | pop (i : Nat)
  /-- lines 347, 369: `h->task = task` -/
  | publish (i task_id : Nat)
  /-- lines 348-350, 370-372: `h->task_status = 1; cur_thread_tasks_in_flight++` -/
  | busy (i : Nat)
  /-- line 381, returned `cur_thread_completed` -/
  | done
  deriving DecidableEq

/-- The locals of one call of `resolve_and_dispatch`. -/
structure ThreadLocal where
  pc : Pc
  cur_thread_completed : Int
  cur_thread_tasks_in_flight : Int
  task_count : Int

/-- Where a worker stands in the main loop of `AicoreExecute`. -/
inductive WorkerPc
  /-- lines 87-92, reading `control` and `task` -/
  | poll
  /-- line 94, `execute_task(task_ptr)` -/
  | exec (task_ptr : Nat)
  /-- line 96, `my_hank->task_status = 0` -/
  | post
  /-- left the loop at the `break` of line 88 -/
  | exited
  deriving DecidableEq

/-- The executor, the runtime, the locals of every thread and worker, and the log. -/
structure Sys where
  ex : AicpuExecutor
  rt : Runtime
  thr : Nat → ThreadLocal
  wrk : Nat → WorkerPc
  log : List Event

/-- Who takes the next step. -/
inductive Action
  | sched (thread_idx : Nat)
  | worker (core : Nat)
  deriving DecidableEq

def Sys.setPc (s : Sys) (t : Nat) (pc : Pc) : Sys :=
  let l := s.thr t
  { s with thr := Function.update s.thr t { l with pc := pc } }

def Sys.setHank (s : Sys) (core_id : Nat) (h : Handshake) : Sys :=
  { s with rt := { s.rt with workers := Function.update s.rt.workers core_id h } }

/-- `cur_thread_cores[i]` of thread `t`, that is `core_assignments_[t][i]`. -/
def Sys.coreOf (s : Sys) (t i : Nat) : Nat := (s.ex.core_assignments_ t i).toNat

/-- `dep->fanin.fetch_sub(1)`: the new state; the value returned is the old `fanin`. -/
def Sys.fetchSubFanin (s : Sys) (dep_id : Nat) : Sys :=
  let dep := s.rt.tasks dep_id
  let tasks := Function.update s.rt.tasks dep_id { dep with fanin := dep.fanin - 1 }
  { s with rt := { s.rt with tasks := tasks } }

/-- Lines 276-288: the push of `dep_id` under the mutex of the queue of its `core_type`. -/
def Sys.pushReady (s : Sys) (dep_id : Nat) : Sys :=
  if (s.rt.tasks dep_id).core_type = 0 then
    { s with
        ex := { s.ex with
          ready_queue_aic_ :=
            Function.update s.ex.ready_queue_aic_ s.ex.ready_count_aic_.toNat dep_id,
          ready_count_aic_ := s.ex.ready_count_aic_ + 1 },
        log := s.log ++ [Event.push dep_id] }
  else
    { s with
        ex := { s.ex with
          ready_queue_aiv_ :=
            Function.update s.ex.ready_queue_aiv_ s.ex.ready_count_aiv_.toNat dep_id,
          ready_count_aiv_ := s.ex.ready_count_aiv_ + 1 },
        log := s.log ++ [Event.push dep_id] }

/-- Lines 331-338 and 353-360: the pop for the idle core `i` of thread `t`, by the
`core_type` of its handshake cell; the thread goes on to publish the id it got,
or to the next core when it got none. The test of the count outside the mutex only
skips a pop that the test under the mutex would refuse as well, so both are one step. -/
def Sys.popReady (s : Sys) (t i : Nat) : Sys :=
  let core_id := s.coreOf t i
  let h := s.rt.workers core_id
  if h.core_type = 0 then
    if s.ex.ready_count_aic_ > 0 then
      let count := s.ex.ready_count_aic_
      let task_id := s.ex.ready_queue_aic_ (count - 1).toNat
      ({ s with ex := { s.ex with ready_count_aic_ := count - 1 },
                log := s.log ++ [Event.assign task_id core_id] } : Sys).setPc t
        (.publish i task_id)
    else s.setPc t (.phaseB (i + 1))
  else if h.core_type = 1 then
    if s.ex.ready_count_aiv_ > 0 then
      let count := s.ex.ready_count_aiv_
      let task_id := s.ex.ready_queue_aiv_ (count - 1).toNat
      ({ s with ex := { s.ex with ready_count_aiv_ := count - 1 },
                log := s.log ++ [Event.assign task_id core_id] } : Sys).setPc t
        (.publish i task_id)
    else s.setPc t (.phaseB (i + 1))
  else s.setPc t (.phaseB (i + 1))

/-- One step of scheduler thread `t` in `resolve_and_dispatch`. -/
def Sys.schedStep (s : Sys) (t : Nat) : Sys :=
  let l := s.thr t
  let core_num := s.ex.thread_cores_num_
  match l.pc with
  | .loopHead =>
      if s.ex.completed_tasks_ < l.task_count then s.setPc t (.phaseA 0)
      else s.setPc t .done
  | .phaseA i =>
      if (i : Int) < core_num then
        let core_id := s.coreOf t i
        let h := s.rt.workers core_id
        if h.task_status = 0 ∧ h.task ≠ 0 then
          ({ s with log := s.log ++ [Event.reclaim (h.task - 1) core_id] } : Sys).setPc t
            (.fanout i (h.task - 1) 0)
        else s.setPc t (.phaseA (i + 1))
      else s.setPc t .backPressure
  | .fanout i task j =>
      match (s.rt.tasks task).fanout.get? j with
      | some dep_id =>
          if (s.rt.tasks dep_id).fanin = 1 then
            (s.fetchSubFanin dep_id).setPc t (.push i task j dep_id)
          else (s.fetchSubFanin dep_id).setPc t (.fanout i task (j + 1))
      | none => s.setPc t (.clear i task)
  | .push i task j dep_id => (s.pushReady dep_id).setPc t (.fanout i task (j + 1))
  | .clear i task =>
      let core_id := s.coreOf t i
      let h := s.rt.workers core_id
      let s1 := s.setHank core_id { h with task := 0 }
      let l1 := { l with pc := .count i task,
                         cur_thread_tasks_in_flight := l.cur_thread_tasks_in_flight - 1 }
      { s1 with thr := Function.update s1.thr t l1 }
  | .count i _ =>
      let l1 := { l with pc := .phaseA (i + 1),
                         cur_thread_completed := l.cur_thread_completed + 1 }
      { s with ex := { s.ex with completed_tasks_ := s.ex.completed_tasks_ + 1 },
               thr := Function.update s.thr t l1 }
  | .backPressure =>
      if l.cur_thread_tasks_in_flight ≥ core_num then s.setPc t .loopHead
      else s.setPc t (.phaseB 0)
  | .phaseB i =>
      if (i : Int) < core_num then
        let h := s.rt.workers (s.coreOf t i)
        if h.task_status = 0 ∧ h.task = 0 then s.setPc t (.pop i)
        else s.setPc t (.phaseB (i + 1))
      else s.setPc t .loopHead
  | .pop i => s.popReady t i
  | .publish i task_id =>
      let core_id := s.coreOf t i
      let h := s.rt.workers core_id
      (s.setHank core_id { h with task := taskAddr task_id }).setPc t
        (.busy i)
  | .busy i =>
      let core_id := s.coreOf t i
      let h := s.rt.workers core_id
      let s1 := s.setHank core_id { h with task_status := 1 }
      let l1 := { l with pc := .phaseB (i + 1),
                         cur_thread_tasks_in_flight := l.cur_thread_tasks_in_flight + 1 }
      { s1 with thr := Function.update s1.thr t l1 }
  | .done => s

/-- `execute_task` (aicore_executor.cpp:34-50): the kernel is called when the task
pointer is not null and `functionBinAddr` is not `0`. -/
def Sys.execute_task (s : Sys) (core task_ptr : Nat) : Sys :=
  if task_ptr = 0 then s
  else if (s.rt.tasks (task_ptr - 1)).functionBinAddr = 0 then s
  else { s with log := s.log ++ [Event.kernel (task_ptr - 1) core] }

/-- One step of the worker of handshake cell `core` in the loop of `AicoreExecute`. -/
def Sys.workerStep (s : Sys) (core : Nat) : Sys :=
  let h := s.rt.workers core
  match s.wrk core with
  | .poll =>
      if h.control = 1 then { s with wrk := Function.update s.wrk core .exited }
      else if h.task ≠ 0 then { s with wrk := Function.update s.wrk core (.exec h.task) }
      else s
  | .exec task_ptr =>
      let s1 := s.execute_task core task_ptr
      { s1 with wrk := Function.update s.wrk core .post }
  | .post =>
      let s1 := s.setHank core { h with task_status := 0 }
      { s1 with wrk := Function.update s.wrk core .poll }
  | .exited => s

/-- One step of the system: only the `thread_num_` scheduler threads and the
`cores_total_num_` workers exist. -/
def Sys.step (s : Sys) : Action → Sys
  | .sched t => if (t : Int) < s.ex.thread_num_ then s.schedStep t else s
  | .worker c => if (c : Int) < s.ex.cores_total_num_ then s.workerStep c else s

/-- The state after the steps of a schedule, taken in order. -/
def Sys.run (s : Sys) (schedule : List Action) : Sys := schedule.foldl Sys.step s

/-- The state in which the scheduler threads enter `resolve_and_dispatch` and the
workers their main loop: `Init` has run on a fresh executor, `task_count` holds
`total_tasks_`, the log holds the pushes of `Init`. -/
def Sys.init (e : AicpuExecutor) (r : Runtime) : Sys :=
  { ex := (e.Init (some r)).2,
    rt := r,
    thr := fun _ =>
      { pc := .loopHead, cur_thread_completed := 0, cur_thread_tasks_in_flight := 0,
        task_count := (e.Init (some r)).2.total_tasks_ },
    wrk := fun _ => .poll,
    log := r.initial_ready.map Event.push }

/-! ## Properties of the state `Init` leaves behind -/

/-- Every worker id `0 .. 3 * block_dim - 1` is owned by exactly one scheduler thread:
the first `thread_cores_num_` entries of the rows `0 .. thread_num_ - 1` of
`core_assignments_` are worker ids, are pairwise distinct within and across rows, and
every worker id is among them. -/
def CorePartition (e : AicpuExecutor) (block_dim : Int) : Prop :=
  (∀ t i : Nat, (t : Int) < e.thread_num_ → (i : Int) < e.thread_cores_num_ →
      0 ≤ e.core_assignments_ t i ∧ e.core_assignments_ t i < 3 * block_dim) ∧
  (∀ t i t' i' : Nat, (t : Int) < e.thread_num_ → (i : Int) < e.thread_cores_num_ →
      (t' : Int) < e.thread_num_ → (i' : Int) < e.thread_cores_num_ →
      e.core_assignments_ t i = e.core_assignments_ t' i' → t = t' ∧ i = i') ∧
  (∀ w : Int, 0 ≤ w → w < 3 * block_dim →
      ∃ t i : Nat, (t : Int) < e.thread_num_ ∧ (i : Int) < e.thread_cores_num_ ∧
        e.core_assignments_ t i = w)

/-! ## Concrete inputs -/

/-- A zero-initialised handshake cell of a worker of the given `core_type`. -/
def zeroHank (core_type : Int) : Handshake := ⟨0, 0, 0, 0, core_type, 0⟩

/-- A fresh executor whose arrays hold zeros. -/
def freshExecutor : AicpuExecutor :=
  AicpuExecutor.fresh (fun _ _ => 0) (fun _ _ => 0) (fun _ => 0) (fun _ => 0)

/-- A runtime with one compute task and no dependency, for the given `scheCpuNum` and
`block_dim`; worker `c` is a compute core when `c < block_dim` and a vector core
otherwise. -/
def oneTaskRuntime (scheCpuNum block_dim : Int) : Runtime :=
  { scheCpuNum := scheCpuNum, block_dim := block_dim, task_count := 1,
    tasks := fun _ => ⟨0, 0, [], 0, 4096, 0⟩,
    initial_ready := [0],
    workers := fun c => zeroHank (if (c : Int) < block_dim then 0 else 1),
    regs := fun _ => 0 }

/-! ## The register operations (platform/a2a3/aicpu/regs.cpp)

The register file is a map from address to value; `regs` is the array of per-core
base addresses. -/

def REG_SPR_FAST_PATH_ENABLE : Nat := 0x18
def REG_SPR_FAST_PATH_OPEN : Nat := 0xE
def REG_SPR_FAST_PATH_CLOSE : Nat := 0xF
def REG_SPR_DATA_MAIN_BASE : Nat := 0xA0
def REG_SPR_COND : Nat := 0x4C8

/-- Modelled from the spec: `AICORE_TASK_STOP` of section 4.6 (its declaration is not
among the sources). -/
def AICORE_TASK_STOP : Nat := 0x7FFFFFF0

/-- `WriteToAicore` (regs.cpp:5-14): writes only when the base address is not null. -/
def WriteToAicore (regs : Nat → Nat) (file : Nat → Nat) (coreid : Nat) (val : Nat) :
    Nat → Nat :=
  if regs coreid ≠ 0 then Function.update file (regs coreid + REG_SPR_DATA_MAIN_BASE) val
  else file

/-- `EnableToWritting` (regs.cpp:16-24). -/
def EnableToWritting (regs : Nat → Nat) (file : Nat → Nat) (coreid : Nat) : Nat → Nat :=
  Function.update
    (Function.update file (regs coreid + REG_SPR_FAST_PATH_ENABLE) REG_SPR_FAST_PATH_OPEN)
    (regs coreid + REG_SPR_DATA_MAIN_BASE) 0

/-- `CloseToWritting` (regs.cpp:26-31). -/
def CloseToWritting (regs : Nat → Nat) (file : Nat → Nat) (coreid : Nat) : Nat → Nat :=
  Function.update file (regs coreid + REG_SPR_FAST_PATH_ENABLE) REG_SPR_FAST_PATH_CLOSE

/-! ## `AicpuExecute` (aicpu_executor.cpp:457-488) called by the threads of one launch -/

/-- Where a caller of `AicpuExecute` stands. -/
inductive CallPc
  /-- line 458, before the null check and the `compare_exchange_strong` of `Init` -/
  | entry
  /-- line 67, inside `Init` after winning the `compare_exchange_strong` -/
  | initBody
  /-- line 467, about to load `init_done_` -/
  | waitDone
  /-- line 468, about to load `init_failed_` -/
  | waitFailed
  /-- line 385, entering `Run` -/
  | run
  /-- line 180, in the loop of `HankAiCore` at index `i`, as thread `thread_idx` -/
  | hank (thread_idx i : Nat)
  /-- line 397, bring-up done: `resolve_and_dispatch` and what follows it -/
  | dispatching (thread_idx : Nat)
  /-- returned `rc` -/
  | returned (rc : Int)
  deriving DecidableEq

/-- The process-wide executor, the handshake cells and register file of the runtime,
and the position of every caller. -/
structure Launch where
  ex : AicpuExecutor
  workers : Nat → Handshake
  regfile : Nat → Nat
  call : Nat → CallPc

def Launch.setCall (s : Launch) (k : Nat) (pc : CallPc) : Launch :=
  { s with call := Function.update s.call k pc }

/-- Lines 181-189, one iteration of the loop of `HankAiCore` for thread `t`: while
`aicore_done` is `0` the caller spins; then it records the physical core id, opens the
fast path of that core and writes `aicpu_ready = 1`. -/
def Launch.hankStep (s : Launch) (regs : Nat → Nat) (k t i : Nat) : Launch :=
  let core_id := (s.ex.core_assignments_ t i).toNat
  let h := s.workers core_id
  if h.aicore_done = 0 then s
  else
    let phys := h.aicore_done - 1
    let row := Function.update (s.ex.physical_core_ids_ t) i (phys : Int)
    { s with
        ex := { s.ex with physical_core_ids_ := Function.update s.ex.physical_core_ids_ t row },
        regfile := EnableToWritting regs s.regfile phys,
        workers := Function.update s.workers core_id { h with aicpu_ready := 1 },
        call := Function.update s.call k (.hank t (i + 1)) }

/-- One step of caller `k` of `AicpuExecute(runtime)`. -/
def Launch.step (runtime : Option Runtime) (s : Launch) (k : Nat) : Launch :=
  match s.call k with
  | .entry =>
      match runtime with
      | none => s.setCall k (.returned (-1))
      | some _ =>
          if s.ex.initialized_ then s.setCall k .waitDone
          else ({ s with ex := s.ex.claim } : Launch).setCall k .initBody
  | .initBody =>
      ({ s with ex := (s.ex.InitBody runtime).2 } : Launch).setCall k .waitDone
  | .waitDone =>
      if s.ex.init_done_ then s.setCall k .run else s.setCall k .waitFailed
  | .waitFailed =>
      if s.ex.init_failed_ then s.setCall k (.returned (-1)) else s.setCall k .waitDone
  | .run =>
      ({ s with ex := { s.ex with thread_idx_ := s.ex.thread_idx_ + 1 } } : Launch).setCall k
        (.hank s.ex.thread_idx_.toNat 0)
  | .hank t i =>
      match runtime with
      | none => s
      | some r =>
          if (i : Int) < s.ex.thread_cores_num_ then s.hankStep r.regs k t i
          else s.setCall k (.dispatching t)
  | .dispatching _ => s
  | .returned _ => s

/-- The state after the steps of a schedule of callers, taken in order. -/
def Launch.run (runtime : Option Runtime) (s : Launch) (schedule : List Nat) : Launch :=
  schedule.foldl (Launch.step runtime) s

/-- The launch begins: every caller is at the entry of `AicpuExecute`. -/
def Launch.start (e : AicpuExecutor) (workers : Nat → Handshake) (regfile : Nat → Nat) :
    Launch :=
  { ex := e, workers := workers, regfile := regfile, call := fun _ => .entry }

/-- The callers of a launch whose `Init` fails are in one of three stages: nobody has
won the `compare_exchange_strong` yet; caller `k0` has won it and is inside `Init`;
`Init` has stored `init_failed_`. No caller is ever in `Run`. -/
def Launch.FailedInv (e : AicpuExecutor) (runtime : Option Runtime) (s : Launch) : Prop :=
  (s.ex = e ∧ ∀ k, s.call k = .entry ∨ s.call k = .returned (-1)) ∨
  (s.ex = e.claim ∧
    ∃ k0, s.call k0 = .initBody ∧ ∀ k, k ≠ k0 →
      s.call k = .entry ∨ s.call k = .waitDone ∨ s.call k = .waitFailed ∨
        s.call k = .returned (-1)) ∨
  (s.ex = (e.claim.InitBody runtime).2 ∧
    ∀ k, s.call k = .entry ∨ s.call k = .waitDone ∨ s.call k = .waitFailed ∨
      s.call k = .returned (-1))

/-! ## The task graph and what the log says -/

/-- `f 0 + f 1 + ... + f (n - 1)`. -/
def sumUpTo (f : Nat → Nat) : Nat → Nat
  | 0 => 0
  | n + 1 => sumUpTo f n + f n

/-- The number of occurrences of `task_id` in the fanout lists of the tasks of the graph:
its number of predecessors. -/
def Runtime.predCount (r : Runtime) (task_id : Nat) : Nat :=
  sumUpTo (fun p => (r.tasks p).fanout.count task_id) r.task_count

/-- Modelled from the spec: the invariants of a runtime at launch (section 3). Fanout
ids reference tasks of the graph; `fanin` starts as the number of predecessors;
`get_initial_ready_tasks` lists, each once, the tasks whose `fanin` is `0`; the
`task` field of every handshake cell starts as `0`. -/
structure Runtime.WellFormed (r : Runtime) : Prop where
  fanout_valid : ∀ p, p < r.task_count → ∀ d ∈ (r.tasks p).fanout, d < r.task_count
  fanin_eq : ∀ T, T < r.task_count → (r.tasks T).fanin = (r.predCount T : Int)
  ready_nodup : r.initial_ready.Nodup
  ready_sound : ∀ T ∈ r.initial_ready, T < r.task_count ∧ (r.tasks T).fanin = 0
  ready_complete : ∀ T, T < r.task_count → (r.tasks T).fanin = 0 → T ∈ r.initial_ready
  slots_empty : ∀ c, (r.workers c).task = 0

/-- The ids pushed to a ready queue, in the order of the pushes. -/
def pushes : List Event → List Nat
  | [] => []
  | .push T :: l => T :: pushes l
  | _ :: l => pushes l

/-- The tasks Phase A found completed, in the order it found them. -/
def reclaims : List Event → List Nat
  | [] => []
  | .reclaim T _ :: l => T :: reclaims l
  | _ :: l => reclaims l

/-- The kernel calls of the log for one task, with the worker that made each. -/
def kernelCalls (task_id : Nat) : List Event → List Nat
  | [] => []
  | .kernel T c :: l => if T = task_id then c :: kernelCalls task_id l else kernelCalls task_id l
  | _ :: l => kernelCalls task_id l

/-- The ids held by a ready queue: the entries `0 .. count - 1` of its array. -/
def queueList (queue : Nat → Nat) (count : Int) : List Nat :=
  (List.range count.toNat).map queue

/-- The thread is between the completion test of Phase A (line 258) and the
`fetch_add` on `completed_tasks_` (line 299). -/
def Pc.inReclaim : Pc → Bool
  | .fanout _ _ _ => true
  | .push _ _ _ _ => true
  | .clear _ _ => true
  | .count _ _ => true
  | _ => false

/-- The number of scheduler threads that are between the completion test and the
`fetch_add` on `completed_tasks_`. -/
def Sys.reclaiming (s : Sys) : Nat :=
  ((List.range s.ex.thread_num_.toNat).filter (fun t => (s.thr t).pc.inReclaim)).length

/-! ## The invariant of the dispatch loop -/

/-- Where a task is on its way through the scheduler. -/
inductive Phase
  /-- never pushed: some predecessor has not been reclaimed -/
  | waiting
  /-- thread `t` took its `fanin` from `1` to `0` and is about to push it -/
  | pending (t : Nat)
  /-- in a ready queue -/
  | queued
  /-- popped by thread `t`, not yet written to the handshake cell -/
  | popped (t : Nat)
  /-- in the `task` field of the handshake cell `core`, not yet found completed -/
  | inSlot (core : Nat)
  /-- found completed by thread `t`, which has not yet counted it -/
  | reclaiming (t : Nat)
  /-- counted in `completed_tasks_` -/
  | done
  deriving DecidableEq

/-- The part of the state the invariant reads: the executor, the task array, the `task`
field of every handshake cell, the locals of the threads and the log. -/
structure View where
  ex : AicpuExecutor
  tasks : Nat → Task
  slot : Nat → Nat
  thr : Nat → ThreadLocal
  log : List Event

def Sys.view (s : Sys) : View :=
  { ex := s.ex, tasks := s.rt.tasks, slot := fun c => (s.rt.workers c).task,
    thr := s.thr, log := s.log }

/-- The handshake cell `core` holds no task, or a task known to be in that cell. -/
def View.regular (v : View) (ph : Nat → Phase) (core : Nat) : Prop :=
  v.slot core = 0 ∨ ∃ T, v.slot core = taskAddr T ∧ ph T = .inSlot core

/-- What thread `t` knows at `pc`: the cell of the core it is working on holds the task
it is reclaiming, or is empty while it pops and publishes; all its other cells are
regular. -/
def View.threadOk (v : View) (r : Runtime) (ph : Nat → Phase) (prog : Nat → Nat) (t : Nat) :
    Pc → Prop
  | .fanout i T j =>
      (i : Int) < v.ex.thread_cores_num_ ∧
      v.slot (v.ex.core_assignments_ t i).toNat = taskAddr T ∧ ph T = .reclaiming t ∧
      prog T = j ∧
      ∀ i' : Nat, i' ≠ i → (i' : Int) < v.ex.thread_cores_num_ →
        v.regular ph (v.ex.core_assignments_ t i').toNat
  | .push i T j d =>
      (i : Int) < v.ex.thread_cores_num_ ∧
      v.slot (v.ex.core_assignments_ t i).toNat = taskAddr T ∧ ph T = .reclaiming t ∧
      prog T = j + 1 ∧ ph d = .pending t ∧ 1 ≤ (r.tasks d).fanin ∧
      ∀ i' : Nat, i' ≠ i → (i' : Int) < v.ex.thread_cores_num_ →
        v.regular ph (v.ex.core_assignments_ t i').toNat
  | .clear i T =>
      (i : Int) < v.ex.thread_cores_num_ ∧
      v.slot (v.ex.core_assignments_ t i).toNat = taskAddr T ∧ ph T = .reclaiming t ∧
      ∀ i' : Nat, i' ≠ i → (i' : Int) < v.ex.thread_cores_num_ →
        v.regular ph (v.ex.core_assignments_ t i').toNat
  | .count i T =>
      (i : Int) < v.ex.thread_cores_num_ ∧ ph T = .reclaiming t ∧
      v.slot (v.ex.core_assignments_ t i).toNat = 0 ∧
      ∀ i' : Nat, i' ≠ i → (i' : Int) < v.ex.thread_cores_num_ →
        v.regular ph (v.ex.core_assignments_ t i').toNat
  | .pop i =>
      (i : Int) < v.ex.thread_cores_num_ ∧
      v.slot (v.ex.core_assignments_ t i).toNat = 0 ∧
      ∀ i' : Nat, i' ≠ i → (i' : Int) < v.ex.thread_cores_num_ →
        v.regular ph (v.ex.core_assignments_ t i').toNat
  | .publish i T =>
      (i : Int) < v.ex.thread_cores_num_ ∧ ph T = .popped t ∧
      v.slot (v.ex.core_assignments_ t i).toNat = 0 ∧
      ∀ i' : Nat, i' ≠ i → (i' : Int) < v.ex.thread_cores_num_ →
        v.regular ph (v.ex.core_assignments_ t i').toNat
  | _ =>
      ∀ i' : Nat, (i' : Int) < v.ex.thread_cores_num_ →
        v.regular ph (v.ex.core_assignments_ t i').toNat

/-- The invariant of the dispatch loop for the runtime `r` the launch started from,
with the phase `ph` of every task and the number `prog p` of fanout entries of the
task `p` that have been decremented. -/
structure View.Ghost (v : View) (r : Runtime) (ph : Nat → Phase) (prog : Nat → Nat) :
    Prop where
  task_frame : ∀ T, (v.tasks T).fanout = (r.tasks T).fanout ∧
    (v.tasks T).core_type = (r.tasks T).core_type
  cores_inj : ∀ t i t' i' : Nat, (t : Int) < v.ex.thread_num_ →
    (i : Int) < v.ex.thread_cores_num_ → (t' : Int) < v.ex.thread_num_ →
    (i' : Int) < v.ex.thread_cores_num_ →
    (v.ex.core_assignments_ t i).toNat = (v.ex.core_assignments_ t' i').toNat →
    t = t' ∧ i = i'
  count_aic : 0 ≤ v.ex.ready_count_aic_
  count_aiv : 0 ≤ v.ex.ready_count_aiv_
  queued : ∀ x ∈ queueList v.ex.ready_queue_aic_ v.ex.ready_count_aic_ ++
    queueList v.ex.ready_queue_aiv_ v.ex.ready_count_aiv_, ph x = .queued
  queue_nodup : (queueList v.ex.ready_queue_aic_ v.ex.ready_count_aic_ ++
    queueList v.ex.ready_queue_aiv_ v.ex.ready_count_aiv_).Nodup
  valid : ∀ T, ph T ≠ .waiting → T < r.task_count
  fanin_le : ∀ T, ph T ≠ .waiting → (v.tasks T).fanin ≤ 0
  fanin_sum : ∀ T, (v.tasks T).fanin +
    (sumUpTo (fun p => ((r.tasks p).fanout.take (prog p)).count T) r.task_count : Int) =
      (r.tasks T).fanin
  prog_pos : ∀ p, 0 < prog p → (∃ t, ph p = .reclaiming t) ∨ ph p = .done
  thread : ∀ t : Nat, (t : Int) < v.ex.thread_num_ → v.threadOk r ph prog t (v.thr t).pc
  pushes_nodup : (pushes v.log).Nodup
  pushes_ph : ∀ T ∈ pushes v.log, ph T ≠ .waiting ∧ ∀ t, ph T ≠ .pending t
  pushes_src : ∀ T ∈ pushes v.log, T ∈ r.initial_ready ∨ 1 ≤ (r.tasks T).fanin
  reclaims_nodup : (reclaims v.log).Nodup
  reclaims_ph : ∀ T, T ∈ reclaims v.log ↔ ((∃ t, ph T = .reclaiming t) ∨ ph T = .done)
  assigned_after : ∀ before after T c, v.log = before ++ Event.assign T c :: after →
    ∀ p, p < r.task_count → T ∈ (r.tasks p).fanout → p ∈ reclaims before
  queue_typed : (∀ x ∈ queueList v.ex.ready_queue_aic_ v.ex.ready_count_aic_,
      (r.tasks x).core_type = 0) ∧
    (∀ x ∈ queueList v.ex.ready_queue_aiv_ v.ex.ready_count_aiv_, (r.tasks x).core_type ≠ 0)

/-- The invariant of the dispatch loop, for some phases and decrement counts. -/
def Sys.Inv (r : Runtime) (s : Sys) : Prop := ∃ ph prog, s.view.Ghost r ph prog

/-- The assignments of the log: the task and the worker it was popped for. -/
def assigns : List Event → List (Nat × Nat)
  | [] => []
  | .assign T c :: l => (T, c) :: assigns l
  | _ :: l => assigns l

/-- The counters of the dispatch loop and the core types of its assignments, for the
runtime `r` the launch started from. -/
structure Sys.Book (r : Runtime) (s : Sys) : Prop where
  total : s.ex.total_tasks_ = (r.task_count : Int)
  task_count : ∀ t, (s.thr t).task_count = (r.task_count : Int)
  count_eq : s.ex.completed_tasks_ + (s.reclaiming : Int) = ((reclaims s.log).length : Int)
  done_le : ∀ t : Nat, (t : Int) < s.ex.thread_num_ → (s.thr t).pc = .done →
    (r.task_count : Int) ≤ s.ex.completed_tasks_
  single : s.ex.thread_num_ = 1 → (s.thr 0).cur_thread_completed = s.ex.completed_tasks_
  worker_type : ∀ c, (s.rt.workers c).core_type = (r.workers c).core_type
  assigned_typed : ∀ p ∈ assigns s.log, p.1 < r.task_count ∧
    (((r.tasks p.1).core_type = 0 ∧ (r.workers p.2).core_type = 0) ∨
      ((r.tasks p.1).core_type ≠ 0 ∧ (r.workers p.2).core_type = 1))

/-- The diamond of the spec (section 8, scenario 3) with one thread and one block: the
vector tasks `0` and `1` are independent, the compute task `2` follows both. Worker `0`
is the compute core, workers `1` and `2` are the vector cores. -/
def diamondRuntime : Runtime :=
  { scheCpuNum := 1, block_dim := 1, task_count := 3,
    tasks := fun id =>
      if id = 0 then ⟨0, 1, [2], 0, 4096, 0⟩
      else if id = 1 then ⟨1, 1, [2], 0, 4096, 0⟩
      else ⟨2, 0, [], 2, 8192, 0⟩,
    initial_ready := [0, 1],
    workers := fun c => zeroHank (if c = 0 then 0 else 1),
    regs := fun _ => 0 }

/-- The scheduler thread `0` takes `k` steps in a row. -/
def schedSteps (k : Nat) : List Action := List.replicate k (Action.sched 0)

/-- Each of the workers `0`, `1`, `2` takes one step, `k` times over. -/
def workerRounds (k : Nat) : List Action :=
  (List.replicate k [Action.worker 0, Action.worker 1, Action.worker 2]).flatten

/-- A schedule of the diamond that runs it to the end: the scheduler thread goes once
round its loop and dispatches the tasks `0` and `1`, the workers run them, the scheduler
thread goes round again, reclaims both and dispatches task `2`, the workers run it, and
the scheduler thread reclaims it and leaves the loop. -/
def diamondSchedule : List Action :=
  schedSteps 17 ++ workerRounds 3 ++ schedSteps 24 ++ workerRounds 3 ++ schedSteps 17

/-! ## The dispatch loop, register transport

`resolve_and_dispatch` and `AicoreExecute` as compiled with `ENABLE_REGISTER_FEATURE`
(the `#ifdef` branches). The scheduler writes the data register of a physical core
with `WriteToAicore` and reads its condition register; the worker reads its data
register and writes its condition register with `set_cond`. -/

/-- The locals of `resolve_and_dispatch`, with `core_current_task` (`0` is `nullptr`). -/
structure RegThreadLocal where
  pc : Pc
  cur_thread_completed : Int
  cur_thread_tasks_in_flight : Int
  task_count : Int
  core_current_task : Nat → Nat

/-- Where a worker stands in the main loop of `AicoreExecute` (register transport). -/
inductive RegWorkerPc
  /-- line 70, reading the data register into `task_id` -/
  | poll
  /-- line 77, `set_cond(1)` -/
  | setBusy (task_id : Nat)
  /-- lines 78-79, `execute_task(&runtime->tasks[task_id - 1])` -/
  | exec (task_id : Nat)
  /-- lines 81-82, `lastTaskId = task_id; set_cond(0)` -/
  | post (task_id : Nat)
  /-- left the loop at the `break` of line 73 -/
  | exited
  deriving DecidableEq

/-- The locals of `AicoreExecute`. -/
structure RegWorkerLocal where
  pc : RegWorkerPc
  lastTaskId : Nat

/-- The executor, the runtime, the register file, the locals and the log. -/
structure RegSys where
  ex : AicpuExecutor
  rt : Runtime
  regfile : Nat → Nat
  thr : Nat → RegThreadLocal
  wrk : Nat → RegWorkerLocal
  log : List Event

def RegSys.setPc (s : RegSys) (t : Nat) (pc : Pc) : RegSys :=
  let l := s.thr t
  { s with thr := Function.update s.thr t { l with pc := pc } }

/-- `regs[physical_core_ids[i]]` of thread `t`: the register base of its core `i`. -/
def RegSys.regBase (s : RegSys) (t i : Nat) : Nat :=
  s.rt.regs (s.ex.physical_core_ids_ t i).toNat

/-- Modelled from the spec: the register base of the worker of handshake cell `core`,
the base of the physical core whose id it advertised in `aicore_done` (section 4.1);
its data register and `set_cond` are the data and condition registers of section 4.6. -/
def RegSys.workerBase (s : RegSys) (core : Nat) : Nat :=
  s.rt.regs ((s.rt.workers core).aicore_done - 1)

/-- Lines 331-338 and 353-360, as in the shared-memory transport. -/
def RegSys.popReady (s : RegSys) (t i : Nat) : RegSys :=
  let core_id := (s.ex.core_assignments_ t i).toNat
  let h := s.rt.workers core_id
  if h.core_type = 0 then
    if s.ex.ready_count_aic_ > 0 then
      let count := s.ex.ready_count_aic_
      let task_id := s.ex.ready_queue_aic_ (count - 1).toNat
      ({ s with ex := { s.ex with ready_count_aic_ := count - 1 },
                log := s.log ++ [Event.assign task_id core_id] } : RegSys).setPc t
        (.publish i task_id)
    else s.setPc t (.phaseB (i + 1))
  else if h.core_type = 1 then
    if s.ex.ready_count_aiv_ > 0 then
      let count := s.ex.ready_count_aiv_
      let task_id := s.ex.ready_queue_aiv_ (count - 1).toNat
      ({ s with ex := { s.ex with ready_count_aiv_ := count - 1 },
                log := s.log ++ [Event.assign task_id core_id] } : RegSys).setPc t
        (.publish i task_id)
    else s.setPc t (.phaseB (i + 1))
  else s.setPc t (.phaseB (i + 1))

/-- Lines 276-288, as in the shared-memory transport. -/
def RegSys.pushReady (s : RegSys) (dep_id : Nat) : RegSys :=
  if (s.rt.tasks dep_id).core_type = 0 then
    { s with
        ex := { s.ex with
          ready_queue_aic_ :=
            Function.update s.ex.ready_queue_aic_ s.ex.ready_count_aic_.toNat dep_id,
          ready_count_aic_ := s.ex.ready_count_aic_ + 1 },
        log := s.log ++ [Event.push dep_id] }
  else
    { s with
        ex := { s.ex with
          ready_queue_aiv_ :=
            Function.update s.ex.ready_queue_aiv_ s.ex.ready_count_aiv_.toNat dep_id,
          ready_count_aiv_ := s.ex.ready_count_aiv_ + 1 },
        log := s.log ++ [Event.push dep_id] }

/-- Line 273, `dep->fanin.fetch_sub(1)`. -/
def RegSys.fetchSubFanin (s : RegSys) (dep_id : Nat) : RegSys :=
  let dep := s.rt.tasks dep_id
  let tasks := Function.update s.rt.tasks dep_id { dep with fanin := dep.fanin - 1 }
  { s with rt := { s.rt with tasks := tasks } }

/-- One step of scheduler thread `t` in `resolve_and_dispatch`, register transport. -/
def RegSys.schedStep (s : RegSys) (t : Nat) : RegSys :=
  let l := s.thr t
  let core_num := s.ex.thread_cores_num_
  match l.pc with
  | .loopHead =>
      if s.ex.completed_tasks_ < l.task_count then s.setPc t (.phaseA 0)
      else s.setPc t .done
  | .phaseA i =>
      if (i : Int) < core_num then
        let reg_base := s.regBase t i
        if reg_base = 0 then s.setPc t (.phaseA (i + 1))
        else
          let status := s.regfile (reg_base + REG_SPR_COND)
          if status = 0 ∧ l.core_current_task i ≠ 0 then
            ({ s with log := s.log ++ [Event.reclaim (l.core_current_task i - 1)
                (s.ex.core_assignments_ t i).toNat] } : RegSys).setPc t
              (.fanout i (l.core_current_task i - 1) 0)
          else s.setPc t (.phaseA (i + 1))
      else s.setPc t (.phaseB 0)
  | .fanout i task j =>
      match (s.rt.tasks task).fanout.get? j with
      | some dep_id =>
          if (s.rt.tasks dep_id).fanin = 1 then
            (s.fetchSubFanin dep_id).setPc t (.push i task j dep_id)
          else (s.fetchSubFanin dep_id).setPc t (.fanout i task (j + 1))
      | none => s.setPc t (.clear i task)
  | .push i task j dep_id => (s.pushReady dep_id).setPc t (.fanout i task (j + 1))
  | .clear i task =>
      -- lines 293-298
      let l1 := { l with pc := .count i task,
                         core_current_task := Function.update l.core_current_task i 0,
                         cur_thread_tasks_in_flight := l.cur_thread_tasks_in_flight - 1 }
      { s with regfile :=
                 WriteToAicore s.rt.regs s.regfile (s.ex.physical_core_ids_ t i).toNat 0,
               thr := Function.update s.thr t l1 }
  | .count i _ =>
      let l1 := { l with pc := .phaseA (i + 1),
                         cur_thread_completed := l.cur_thread_completed + 1 }
      { s with ex := { s.ex with completed_tasks_ := s.ex.completed_tasks_ + 1 },
               thr := Function.update s.thr t l1 }
  | .phaseB i =>
      if (i : Int) < core_num then
        let reg_base := s.regBase t i
        if reg_base = 0 then s.setPc t (.phaseB (i + 1))
        else
          let status := s.regfile (reg_base + REG_SPR_COND)
          if status = 0 ∧ l.core_current_task i = 0 then s.setPc t (.pop i)
          else s.setPc t (.phaseB (i + 1))
      else s.setPc t .loopHead
  | .pop i => s.popReady t i
  | .publish i task_id =>
      -- lines 343-344 and 350
      let l1 := { l with pc := .phaseB (i + 1),
                         core_current_task :=
                           Function.update l.core_current_task i (taskAddr task_id),
                         cur_thread_tasks_in_flight := l.cur_thread_tasks_in_flight + 1 }
      { s with regfile :=
                 WriteToAicore s.rt.regs s.regfile (s.ex.physical_core_ids_ t i).toNat
                   (task_id + 1),
               thr := Function.update s.thr t l1 }
  | .backPressure => s
  | .busy _ => s
  | .done => s

/-- One step of the worker of handshake cell `core`, register transport. -/
def RegSys.workerStep (s : RegSys) (core : Nat) : RegSys :=
  let w := s.wrk core
  let base := s.workerBase core
  match w.pc with
  | .poll =>
      let task_id := s.regfile (base + REG_SPR_DATA_MAIN_BASE)
      if task_id = AICORE_TASK_STOP then
        { s with wrk := Function.update s.wrk core { w with pc := .exited } }
      else if task_id ≠ 0 ∧ task_id ≠ w.lastTaskId then
        { s with wrk := Function.update s.wrk core { w with pc := .setBusy task_id } }
      else s
  | .setBusy task_id =>
      { s with regfile := Function.update s.regfile (base + REG_SPR_COND) 1,
               wrk := Function.update s.wrk core { w with pc := .exec task_id } }
  | .exec task_id =>
      -- `execute_task` on `&runtime->tasks[task_id - 1]`, which is not null
      let log := if (s.rt.tasks (task_id - 1)).functionBinAddr = 0 then s.log
                 else s.log ++ [Event.kernel (task_id - 1) core]
      { s with log := log,
               wrk := Function.update s.wrk core { w with pc := .post task_id } }
  | .post task_id =>
      { s with regfile := Function.update s.regfile (base + REG_SPR_COND) 0,
               wrk := Function.update s.wrk core { pc := .poll, lastTaskId := task_id } }
  | .exited => s

/-- One step of the system, register transport. -/
def RegSys.step (s : RegSys) : Action → RegSys
  | .sched t => if (t : Int) < s.ex.thread_num_ then s.schedStep t else s
  | .worker c => if (c : Int) < s.ex.cores_total_num_ then s.workerStep c else s

/-- The state after the steps of a schedule, taken in order. -/
def RegSys.run (s : RegSys) (schedule : List Action) : RegSys := schedule.foldl RegSys.step s

/-- The state in which the threads enter `resolve_and_dispatch` after `Init` and the
bring-up pass: worker `c` runs on physical core `c`, `HankAiCore` has recorded that and
has written `0` to every data register; every condition register reads `0`. The
fast-path registers, which the loop never reads, are left at `0`. -/
def RegSys.init (e : AicpuExecutor) (r : Runtime) : RegSys :=
  let e1 := (e.Init (some r)).2
  { ex := { e1 with physical_core_ids_ := fun t i => e1.core_assignments_ t i },
    rt := { r with workers := fun c =>
              let h := r.workers c
              { h with aicore_done := c + 1, aicpu_ready := 1 } },
    regfile := fun _ => 0,
    thr := fun _ =>
      { pc := .loopHead, cur_thread_completed := 0, cur_thread_tasks_in_flight := 0,
        task_count := e1.total_tasks_, core_current_task := fun _ => 0 },
    wrk := fun _ => { pc := .poll, lastTaskId := 0 },
    log := r.initial_ready.map Event.push }

/-- A runtime with one compute task and no dependency, one thread, one block, and the
register base `4096 * (p + 1)` for the physical core `p`. -/
def oneTaskRegRuntime : Runtime :=
  { oneTaskRuntime 1 1 with regs := fun p => 4096 * (p + 1) }

/-- The scheduler thread dispatches the task, then the worker `0` goes twice through
poll, `execute_task` and `task_status = 0` while the scheduler thread does not run. -/
def rerunSchedule : List Action := schedSteps 10 ++ List.replicate 6 (Action.worker 0)

/-! ## `AicpuExecutor::DeInit` (aicpu_executor.cpp:420-437) -/

/-- `AicpuExecutor::DeInit`: the ten stores of lines 421-433; no other field is written. -/
def AicpuExecutor.DeInit (e : AicpuExecutor) : AicpuExecutor :=
  { e with ready_count_aic_ := 0, ready_count_aiv_ := 0, completed_tasks_ := 0,
           total_tasks_ := 0, finished_count_ := 0, initialized_ := false,
           init_done_ := false, init_failed_ := false, thread_idx_ := 0,
           finished_ := false }

/-- Teardown after a launch: `DeInit` works on the executor; the runtime, the locals and
the log are not its to write. -/
def Sys.teardown (s : Sys) : Sys := { s with ex := s.ex.DeInit }

/-! ## The end of `Run` and the cleanup of `AicpuExecute`
(aicpu_executor.cpp:410-417 and 474-487) -/

/-- Where a scheduler thread stands between the return of `ShutdownAiCore` and the
return of `AicpuExecute`. `prev_finished` is the value its `fetch_add` returned. -/
inductive FinishPc
  /-- line 411, about to run `finished_count_.fetch_add(1)` -/
  | fetchAdd
  /-- line 413, `prev_finished + 1 == thread_num_` held: about to store `finished_` -/
  | store (prev_finished : Int)
  /-- line 481, `Run` returned `0`: about to load `finished_` -/
  | load (prev_finished : Int)
  /-- line 483, `finished_` was read as `true`: about to run `DeInit` -/
  | deinit (prev_finished : Int)
  /-- line 486, returned `0` -/
  | returned (prev_finished : Int)
  deriving DecidableEq

/-- The executor, the position of every thread, and, as instrumentation, the threads
that have run `DeInit`, oldest first. -/
structure Finish where
  ex : AicpuExecutor
  pc : Nat → FinishPc
  deinits : List Nat

/-- One step of thread `k`. -/
def Finish.step (s : Finish) (k : Nat) : Finish :=
  match s.pc k with
  | .fetchAdd =>
      let prev_finished := s.ex.finished_count_
      let ex := { s.ex with finished_count_ := prev_finished + 1 }
      if prev_finished + 1 = s.ex.thread_num_ then
        { s with ex := ex, pc := Function.update s.pc k (.store prev_finished) }
      else { s with ex := ex, pc := Function.update s.pc k (.load prev_finished) }
  | .store prev_finished =>
      { s with ex := { s.ex with finished_ := true },
               pc := Function.update s.pc k (.load prev_finished) }
  | .load prev_finished =>
      if s.ex.finished_ then { s with pc := Function.update s.pc k (.deinit prev_finished) }
      else { s with pc := Function.update s.pc k (.returned prev_finished) }
  | .deinit prev_finished =>
      { s with ex := s.ex.DeInit, deinits := s.deinits ++ [k],
               pc := Function.update s.pc k (.returned prev_finished) }
  | .returned _ => s

/-- The state after the steps of a schedule of threads, taken in order. -/
def Finish.run (s : Finish) (schedule : List Nat) : Finish := schedule.foldl Finish.step s

/-- Every thread has come back from `ShutdownAiCore`; nobody has counted itself yet. -/
def Finish.start (e : AicpuExecutor) : Finish :=
  { ex := e, pc := fun _ => .fetchAdd, deinits := [] }

/-! ## `execute_task` and the bring-up of `AicoreExecute` (aicore_executor.cpp:34-56) -/

/-- `execute_task` (aicore_executor.cpp:34-50) as the list of the kernel invocations it
makes, each the function address called and the argument passed; `none` is the null
`Task*`. -/
def execute_task (task : Option Task) : List (Nat × Nat) :=
  match task with
  | none => []
  | some t => if t.functionBinAddr = 0 then [] else [(t.functionBinAddr, t.args)]

/-- What `Handshake::task` points to: `0` is null, `id + 1` is `tasks[id]`. -/
def taskAt (tasks : Nat → Task) (task_ptr : Nat) : Option Task :=
  if task_ptr = 0 then none else some (tasks (task_ptr - 1))

def AICORE_COREID_MASK : Nat := 0x0FFF

/-- Line 55: `static_cast<uint32_t>(get_coreid()) & AICORE_COREID_MASK`. -/
def physicalCoreIdOf (coreid : Int) : Nat := (coreid % 4294967296).toNat &&& AICORE_COREID_MASK

/-- Line 56: `my_hank->aicore_done = physicalCoreId + 1`. -/
def aicoreBringUp (h : Handshake) (coreid : Int) : Handshake :=
  { h with aicore_done := physicalCoreIdOf coreid + 1 }

/-! ## `ShutdownAiCore` (aicpu_executor.cpp:197-214) -/

/-- The memory `ShutdownAiCore` writes: the handshake cells and the register file. -/
structure Device where
  workers : Nat → Handshake
  regfile : Nat → Nat

/-- Lines 204-210, the iteration `i` of the loop for thread `thread_idx`: the stop
sentinel, the close of the fast path, `hank->control = 1`. `WriteToAicore` tests the
register base and skips its store for a base of `0`; `CloseToWritting` has no such test,
and for a base of `0` its store goes through the null address plus `0x18` and faults:
the iteration does not come back (`none`) and `hank->control = 1` is not reached. -/
def shutdownCore (e : AicpuExecutor) (regs : Nat → Nat) (d : Device) (thread_idx i : Nat) :
    Option Device :=
  let phys := (e.physical_core_ids_ thread_idx i).toNat
  let file1 := WriteToAicore regs d.regfile phys AICORE_TASK_STOP
  if regs phys = 0 then none
  else
    let file2 := CloseToWritting regs file1 phys
    let core_id := (e.core_assignments_ thread_idx i).toNat
    let h := d.workers core_id
    some { workers := Function.update d.workers core_id { h with control := 1 },
           regfile := file2 }

/-- The iterations of the `ShutdownAiCore` loops of several threads, interleaved in the
order of `ops`; an entry is a thread and its loop index. `none` when an iteration does
not come back. -/
def shutdownOps (e : AicpuExecutor) (regs : Nat → Nat) (d : Device) :
    List (Nat × Nat) → Option Device
  | [] => some d
  | op :: ops =>
      match shutdownCore e regs d op.1 op.2 with
      | none => none
      | some d1 => shutdownOps e regs d1 ops

/-- `AicpuExecutor::ShutdownAiCore`: the loop over `i = 0 .. thread_cores_num_ - 1`, then
`return 0`; the return value and the memory afterwards, `none` when the call does not
come back. -/
def AicpuExecutor.ShutdownAiCore (e : AicpuExecutor) (regs : Nat → Nat) (thread_idx : Nat)
    (d : Device) : Option (Int × Device) :=
  match shutdownOps e regs d
      ((List.range e.thread_cores_num_.toNat).map (fun i => (thread_idx, i))) with
  | none => none
  | some d1 => some (0, d1)

/-- The executor once `HankAiCore` has filled `physical_core_ids_` with `pc`. -/
def AicpuExecutor.recorded (e : AicpuExecutor) (pc : Nat → Nat → Int) : AicpuExecutor :=
  { e with physical_core_ids_ := pc }

/-! ## The entry points of kernel.cpp (lines 28-152) -/

/-- The `KernelArgs` of kernel.cpp as this file reads it: `block_dim`, and the handshake
cells behind `graphArgs`, `none` when `graphArgs` is null. -/
structure KernelArgs where
  block_dim : Nat
  graphArgs : Option (Nat → Handshake)

/-- `StaticTileFwkBackendKernelServer` (kernel.cpp:70-77); `none` is the null `arg`. -/
def StaticTileFwkBackendKernelServer (arg : Option KernelArgs) : Int :=
  match arg with
  | none => -1
  | some _ => 0

/-- `DynTileFwkBackendKernelServerInit` (kernel.cpp:90-99). -/
def DynTileFwkBackendKernelServerInit (arg : Option KernelArgs) : Int :=
  match arg with
  | none => -1
  | some _ => 0

/-- `HankAiCore` of kernel.cpp (lines 28-49) run with no worker taking a step in
between: every cell gets `aicpu_ready = 1`; the call comes back when no `aicore_done`
is `0`, and spins for ever (`none`) otherwise. -/
def kernelHankAiCore (block_dim : Nat) (workers : Nat → Handshake) : Option (Nat → Handshake) :=
  let signalled : Nat → Handshake := fun i =>
    let h := workers i
    if i < block_dim * 3 then { h with aicpu_ready := 1 } else h
  if (List.range (block_dim * 3)).all (fun i => (workers i).aicore_done != 0) then
    some signalled
  else none

/-- `ShutdownAiCore` of kernel.cpp (lines 60-68). -/
def kernelShutdownAiCore (block_dim : Nat) (workers : Nat → Handshake) : Nat → Handshake :=
  fun i =>
    let h := workers i
    if i < block_dim * 3 then { h with control := 1 } else h

/-- `DynTileFwkBackendKernelServer` (kernel.cpp:118-152): the return value and the
handshake cells afterwards, `none` when the call does not come back. `execute`, defined
outside the sources, is a parameter: what it does to the handshake cells. A null
`graphArgs` is dereferenced by `HankAiCore` as soon as `block_dim` is not `0`. -/
def DynTileFwkBackendKernelServer (execute : (Nat → Handshake) → Nat → Handshake)
    (arg : Option KernelArgs) : Option (Int × Option (Nat → Handshake)) :=
  match arg with
  | none => some (-1, none)
  | some kargs =>
      match kargs.graphArgs with
      | none => if kargs.block_dim * 3 = 0 then some (0, none) else none
      | some workers =>
          match kernelHankAiCore kargs.block_dim workers with
          | none => none
          | some w1 => some (0, some (kernelShutdownAiCore kargs.block_dim (execute w1)))

/-! ## More concrete inputs -/

/-- A graph of one task that waits for itself: `fanin` is `1`, the initial ready set is
empty. -/
def selfLoopRuntime : Runtime :=
  { scheCpuNum := 1, block_dim := 1, task_count := 1,
    tasks := fun _ => ⟨0, 0, [0], 1, 4096, 0⟩,
    initial_ready := [],
    workers := fun c => zeroHank (if c < 1 then 0 else 1),
    regs := fun _ => 0 }


/-- The ten fields `DeInit` stores to (lines 421-433). -/
def AicpuExecutor.scalars (e : AicpuExecutor) :
    Int × Bool × Bool × Bool × Bool × Int × Int × Int × Int × Int :=
  (e.thread_idx_, e.initialized_, e.init_done_, e.init_failed_, e.finished_,
    e.ready_count_aic_, e.ready_count_aiv_, e.completed_tasks_, e.total_tasks_,
    e.finished_count_)


/-! ## A launch that has nothing to dispatch -/

/-- The positions of `resolve_and_dispatch` a thread passes through while it finds
neither a completed task nor a ready one. -/
def Pc.spinning : Pc → Bool
  | .loopHead => true
  | .phaseA _ => true
  | .backPressure => true
  | .phaseB _ => true
  | .pop _ => true
  | _ => false

/-- Nothing is ready, in flight or completed, and at least one task is outstanding:
both ready queues are empty, every handshake cell has `task = 0`, `completed_tasks_` is
`0`, the log is empty, and every thread is somewhere in its polling loop. -/
structure Sys.Starved (s : Sys) : Prop where
  count_aic : s.ex.ready_count_aic_ = 0
  count_aiv : s.ex.ready_count_aiv_ = 0
  completed : s.ex.completed_tasks_ = 0
  slots : ∀ c, (s.rt.workers c).task = 0
  log : s.log = []
  thread : ∀ t, 1 ≤ (s.thr t).task_count ∧ (s.thr t).pc.spinning = true
  worker : ∀ c, s.wrk c = .poll ∨ s.wrk c = .exited


/-- The task `T` can no longer become ready: its `fanin` is not positive, so no
`fetch_sub` on it returns `1`; no thread is about to push it; nobody has pushed it. -/
structure Sys.NeverReady (T : Nat) (s : Sys) : Prop where
  fanin_le : (s.rt.tasks T).fanin ≤ 0
  no_push : ∀ t i p j, (s.thr t).pc ≠ .push i p j T
  not_pushed : T ∉ pushes s.log

/-- A second launch of the runtime as a launch and its teardown have left it: `Init`
runs on the torn-down executor and the threads enter `resolve_and_dispatch` again. -/
def Sys.relaunch (s : Sys) : Sys := Sys.init s.teardown.ex s.teardown.rt


/-! ## A launch on an executor whose `Init` has failed -/

/-- The number of steps a caller of `AicpuExecute` still takes before it returns when
`initialized_` and `init_failed_` are set and `init_done_` is not. -/
def CallPc.stepsLeft : CallPc → Nat
  | .entry => 3
  | .waitDone => 2
  | .waitFailed => 1
  | _ => 0

/-- The executor is as a failed `Init` left it, and every caller is before the
`compare_exchange_strong`, in the wait loop of lines 467-471, or has returned `-1`. -/
def Launch.Poisoned (s : Launch) : Prop :=
  s.ex.initialized_ = true ∧ s.ex.init_done_ = false ∧ s.ex.init_failed_ = true ∧
  ∀ k, s.call k = .entry ∨ s.call k = .waitDone ∨ s.call k = .waitFailed ∨
    s.call k = .returned (-1)


/-! ## The in-flight counter of the shared-memory dispatch loop -/

/-- `1` between the store `h->task = task` (line 347, 369) and the increment of
`cur_thread_tasks_in_flight` (line 350, 372), `0` elsewhere. -/
def Pc.published : Pc → Int
  | .busy _ => 1
  | _ => 0

/-- The number of indices `i < core_num` whose cell `cur_thread_cores[i]` has a `task`
slot other than `0`. -/
def occupiedOf (core_assignments : Nat → Nat → Int) (core_num : Int) (slot : Nat → Nat)
    (t : Nat) : Nat :=
  (List.range core_num.toNat).countP (fun i => decide (slot (core_assignments t i).toNat ≠ 0))

/-- The number of workers of thread `t` whose `task` slot is not `0`. -/
def Sys.occupied (s : Sys) (t : Nat) : Nat :=
  occupiedOf s.ex.core_assignments_ s.ex.thread_cores_num_ (fun c => (s.rt.workers c).task) t

/-- The in-flight counter of every thread counts the occupied slots of its workers, the
slot it has just published not yet included. -/
def Sys.InFlight (s : Sys) : Prop :=
  ∀ t : Nat, (t : Int) < s.ex.thread_num_ →
    (s.thr t).cur_thread_tasks_in_flight + (s.thr t).pc.published = (s.occupied t : Int)

/-- Modelled from the spec: the loop that runs Phase B unconditionally (section 4.5),
that is `resolve_and_dispatch` without the test of lines 306-308; every other step is
the step of the code. -/
def Sys.schedStepNoSkip (s : Sys) (t : Nat) : Sys :=
  match (s.thr t).pc with
  | .backPressure => s.setPc t (.phaseB 0)
  | _ => s.schedStep t


/-- One block with a task for each of its workers: the compute task `0` and the vector
tasks `1` and `2`, all independent. -/
def threeTaskRuntime : Runtime :=
  { scheCpuNum := 1, block_dim := 1, task_count := 3,
    tasks := fun id => if id = 0 then ⟨0, 0, [], 0, 4096, 0⟩ else ⟨id, 1, [], 0, 4096, 0⟩,
    initial_ready := [0, 1, 2],
    workers := fun c => zeroHank (if c = 0 then 0 else 1),
    regs := fun _ => 0 }


/-! # Properties -/

theorem assignAicLoop_eq (k : Nat) (b : Int) (row : Nat → Int) (idx : Nat) :
    assignAicLoop k b (row, idx) =
      (fun j => if idx ≤ j ∧ j < idx + k then b + ((j - idx : Nat) : Int) else row j,
        idx + k) := by
  induction k generalizing b row idx with
  | zero =>
      simp only [assignAicLoop, Nat.add_zero]
      congr 1
      funext j
      have : ¬ (idx ≤ j ∧ j < idx) := by omega
      simp [this]
  | succ k ih =>
      simp only [assignAicLoop]
      rw [ih]
      congr 1
      · funext j
        by_cases h1 : j = idx
        · subst h1
          simp
        · rw [Function.update_noteq h1]
          by_cases h2 : idx + 1 ≤ j ∧ j < idx + 1 + k
          · have h3 : idx ≤ j ∧ j < idx + (k + 1) := by omega
            rw [if_pos h2, if_pos h3]
            have : ((j - (idx + 1) : Nat) : Int) + 1 = ((j - idx : Nat) : Int) := by omega
            omega
          · have h3 : ¬ (idx ≤ j ∧ j < idx + (k + 1)) := by omega
            rw [if_neg h2, if_neg h3]
      · omega

theorem assignAivLoop_eq (a : Int) (k : Nat) (b : Int) (row : Nat → Int) (idx : Nat) :
    assignAivLoop a k b (row, idx) =
      (fun j => if idx ≤ j ∧ j < idx + 2 * k then
          a + (b + (((j - idx) / 2 : Nat) : Int)) * 2 + (((j - idx) % 2 : Nat) : Int)
        else row j,
        idx + 2 * k) := by
  induction k generalizing b row idx with
  | zero =>
      simp only [assignAivLoop, Nat.mul_zero, Nat.add_zero]
      congr 1
      funext j
      have : ¬ (idx ≤ j ∧ j < idx) := by omega
      simp [this]
  | succ k ih =>
      simp only [assignAivLoop]
      rw [ih]
      congr 1
      · funext j
        by_cases h1 : j = idx
        · subst h1
          simp
        · by_cases h1' : j = idx + 1
          · subst h1'
            have h4 : 1 < 2 * (k + 1) := by omega
            simp [h4]
          · rw [Function.update_noteq h1', Function.update_noteq h1]
            by_cases h2 : idx + 2 ≤ j ∧ j < idx + 2 + 2 * k
            · have h3 : idx ≤ j ∧ j < idx + 2 * (k + 1) := by omega
              rw [if_pos h2, if_pos h3]
              have e1 : (j - idx) / 2 = (j - (idx + 2)) / 2 + 1 := by omega
              have e2 : (j - idx) % 2 = (j - (idx + 2)) % 2 := by omega
              rw [e1, e2]
              push_cast
              ring
            · have h3 : ¬ (idx ≤ j ∧ j < idx + 2 * (k + 1)) := by omega
              rw [if_neg h2, if_neg h3]
      · omega


theorem assignRow_eq (a : Int) (P t : Nat) (row : Nat → Int) (j : Nat) :
    assignRow a (P : Int) t row j =
      if j < P then (t : Int) * P + j
      else if j < 3 * P then a + ((t : Int) * P + (((j - P) / 2 : Nat) : Int)) * 2
        + (((j - P) % 2 : Nat) : Int)
      else row j := by
  have e : (((t : Int) + 1) * (P : Int) - (t : Int) * P).toNat = P := by
    have : ((t : Int) + 1) * (P : Int) - (t : Int) * P = (P : Int) := by ring
    rw [this]; exact Int.toNat_natCast P
  simp only [assignRow, e, assignAicLoop_eq, assignAivLoop_eq, Nat.zero_add, Nat.sub_zero]
  by_cases h1 : j < P
  · have h2 : ¬ (P ≤ j ∧ j < P + 2 * P) := by omega
    have h3 : (0 ≤ j ∧ j < P) := by omega
    simp only [if_neg h2, if_pos h3, if_pos h1]
  · by_cases h4 : j < 3 * P
    · have h2 : (P ≤ j ∧ j < P + 2 * P) := by omega
      simp only [if_pos h2, if_neg h1, if_pos h4]
    · have h2 : ¬ (P ≤ j ∧ j < P + 2 * P) := by omega
      have h3 : ¬ (0 ≤ j ∧ j < P) := by omega
      simp only [if_neg h2, if_neg h3, if_neg h1, if_neg h4]

theorem assignCores_foldl (a p : Int) (n : Nat) (ca : Nat → Nat → Int) (t : Nat) :
    (List.range n).foldl (assignThread a p) ca t =
      if t < n then assignRow a p t (ca t) else ca t := by
  induction n with
  | zero => simp
  | succ n ih =>
      rw [List.range_succ, List.foldl_append]
      simp only [List.foldl_cons, List.foldl_nil, assignThread]
      by_cases h : t = n
      · subst h
        simp [ih]
      · rw [Function.update_noteq h, ih]
        by_cases h2 : t < n
        · have : t < n + 1 := by omega
          simp [h2, this]
        · have : ¬ t < n + 1 := by omega
          simp [h2, this]

theorem Init_ok (e : AicpuExecutor) (r : Runtime) (hfirst : e.initialized_ = false)
    (hok : (e.Init (some r)).1 = 0) :
    (1 ≤ threadNumOf r ∧ threadNumOf r ≤ 4) ∧
    wrapInt32 (r.block_dim * e.blockdim_cores_num_) ≤ 72 ∧
    Int.tmod r.block_dim (threadNumOf r) = 0 ∧
    (e.Init (some r)).2 =
      { e with
        initialized_ := true
        thread_num_ := threadNumOf r
        cores_total_num_ := wrapInt32 (r.block_dim * e.blockdim_cores_num_)
        thread_cores_num_ :=
          Int.tdiv (wrapInt32 (r.block_dim * e.blockdim_cores_num_)) (threadNumOf r)
        core_assignments_ :=
          assignCores r.block_dim (Int.tdiv r.block_dim (threadNumOf r)) (threadNumOf r)
            e.core_assignments_
        total_tasks_ := (r.task_count : Int)
        completed_tasks_ := 0
        ready_queue_aic_ :=
          (seedQueues r.tasks r.initial_ready e.ready_queue_aic_ e.ready_queue_aiv_).queue_aic
        ready_queue_aiv_ :=
          (seedQueues r.tasks r.initial_ready e.ready_queue_aic_ e.ready_queue_aiv_).queue_aiv
        ready_count_aic_ :=
          ((seedQueues r.tasks r.initial_ready e.ready_queue_aic_ e.ready_queue_aiv_).aic_count : Int)
        ready_count_aiv_ :=
          ((seedQueues r.tasks r.initial_ready e.ready_queue_aic_ e.ready_queue_aiv_).aiv_count : Int)
        finished_count_ := 0
        init_done_ := true } := by
  unfold AicpuExecutor.Init AicpuExecutor.InitBody AicpuExecutor.claim at hok ⊢
  simp only [hfirst, Bool.false_eq_true, if_false] at hok ⊢
  simp only [threadNumOf, MAX_AICPU_THREADS, MAX_CORES_PER_THREAD, MAX_AIC_PER_THREAD,
    MAX_AIV_PER_THREAD] at hok ⊢
  split_ifs at hok ⊢ with h1 h2 h3 h4 h5 h6 h7 <;>
    first
    | (exfalso; simp at hok; done)
    | exact ⟨by omega, by omega, not_not.mp (by assumption), rfl⟩

theorem wrapInt32_of_range (x : Int) (h1 : -2147483648 ≤ x) (h2 : x ≤ 2147483647) :
    wrapInt32 x = x := by
  unfold wrapInt32
  omega

theorem Init_assignments (e : AicpuExecutor) (r : Runtime) (hfirst : e.initialized_ = false)
    (hk : e.blockdim_cores_num_ = 3)
    (hov : -2147483648 ≤ 3 * r.block_dim ∧ 3 * r.block_dim ≤ 2147483647)
    (hok : (e.Init (some r)).1 = 0) :
    ∃ n : Nat, ∃ q : Int, 1 ≤ n ∧ n ≤ 4 ∧ r.block_dim = n * q ∧ 3 * r.block_dim ≤ 72 ∧
      (e.Init (some r)).2.thread_num_ = n ∧
      (e.Init (some r)).2.thread_cores_num_ = 3 * q ∧
      (e.Init (some r)).2.cores_total_num_ = 3 * r.block_dim ∧
      ∀ P : Nat, q = P → ∀ t j : Nat, t < n → j < 3 * P →
        (e.Init (some r)).2.core_assignments_ t j =
          if j < P then (t : Int) * P + j
          else (n : Int) * P + ((t : Int) * P + (((j - P) / 2 : Nat) : Int)) * 2
            + (((j - P) % 2 : Nat) : Int) := by
  obtain ⟨⟨hn1, hn4⟩, hc, hm, heq⟩ := Init_ok e r hfirst hok
  have hw : wrapInt32 (r.block_dim * e.blockdim_cores_num_) = 3 * r.block_dim := by
    rw [hk, wrapInt32_of_range] <;> omega
  rw [hw] at hc heq
  have hb : r.block_dim = threadNumOf r * Int.tdiv r.block_dim (threadNumOf r) :=
    (Int.mul_tdiv_cancel_of_tmod_eq_zero hm).symm
  have hn0 : threadNumOf r ≠ 0 := by omega
  have h3 : Int.tdiv (3 * r.block_dim) (threadNumOf r)
      = 3 * Int.tdiv r.block_dim (threadNumOf r) := by
    have : 3 * r.block_dim = threadNumOf r * (3 * Int.tdiv r.block_dim (threadNumOf r)) := by
      rw [Int.mul_left_comm, ← hb]
    rw [this, Int.mul_tdiv_cancel_left _ hn0]
  refine ⟨(threadNumOf r).toNat, Int.tdiv r.block_dim (threadNumOf r), by omega, by omega, ?_,
    hc, ?_, ?_, ?_, ?_⟩
  · rw [Int.toNat_of_nonneg (by omega)]; exact hb
  · rw [heq, Int.toNat_of_nonneg (by omega)]
  · rw [heq]; exact h3
  · rw [heq]
  · intro P hP t j ht hj
    rw [heq]
    simp only [assignCores]
    rw [assignCores_foldl, if_pos ht, hP, assignRow_eq]
    have e1 : r.block_dim = ((threadNumOf r).toNat : Int) * P := by
      rw [Int.toNat_of_nonneg (by omega), ← hP]; exact hb
    by_cases h1 : j < P
    · simp only [if_pos h1]
    · simp only [if_neg h1, if_pos hj, e1]

theorem Init_partition (e : AicpuExecutor) (r : Runtime) (hfirst : e.initialized_ = false)
    (hk : e.blockdim_cores_num_ = 3)
    (hov : -2147483648 ≤ 3 * r.block_dim ∧ 3 * r.block_dim ≤ 2147483647)
    (hok : (e.Init (some r)).1 = 0) :
    (e.Init (some r)).2.thread_cores_num_ =
        Int.tdiv (3 * r.block_dim) (e.Init (some r)).2.thread_num_ ∧
    (∀ t i : Nat, (t : Int) < (e.Init (some r)).2.thread_num_ →
        (i : Int) < (e.Init (some r)).2.thread_cores_num_ →
        0 ≤ (e.Init (some r)).2.core_assignments_ t i ∧
        (e.Init (some r)).2.core_assignments_ t i < 3 * r.block_dim) ∧
    (∀ t i t' i' : Nat, (t : Int) < (e.Init (some r)).2.thread_num_ →
        (i : Int) < (e.Init (some r)).2.thread_cores_num_ →
        (t' : Int) < (e.Init (some r)).2.thread_num_ →
        (i' : Int) < (e.Init (some r)).2.thread_cores_num_ →
        (e.Init (some r)).2.core_assignments_ t i = (e.Init (some r)).2.core_assignments_ t' i' →
        t = t' ∧ i = i') ∧
    (∀ w : Int, 0 ≤ w → w < 3 * r.block_dim →
        ∃ t i : Nat, (t : Int) < (e.Init (some r)).2.thread_num_ ∧
          (i : Int) < (e.Init (some r)).2.thread_cores_num_ ∧
          (e.Init (some r)).2.core_assignments_ t i = w) := by
  obtain ⟨n, q, hn1, hn4, hb, hc, htn, htc, -, hrow⟩ := Init_assignments e r hfirst hk hov hok
  rw [htn, htc]
  have hn0 : (n : Int) ≠ 0 := by omega
  have hdiv : Int.tdiv (3 * r.block_dim) n = 3 * q := by
    have : 3 * r.block_dim = (n : Int) * (3 * q) := by rw [hb]; ring
    rw [this, Int.mul_tdiv_cancel_left _ hn0]
  refine ⟨hdiv.symm, ?_⟩
  rcases lt_or_le q 0 with hq | hq
  · -- a negative block_dim: no entry and no worker id
    have hneg : 3 * r.block_dim < 0 := by
      have : (n : Int) * q < 0 := Int.mul_neg_of_pos_of_neg (by omega) hq
      omega
    refine ⟨fun t i _ hi => by omega, fun t i t' i' _ hi => by omega, fun w h0 h1 => by omega⟩
  · obtain ⟨P, rfl⟩ := Int.eq_ofNat_of_zero_le hq
    have hrow' := hrow P rfl
    have hN : r.block_dim = ((n * P : Nat) : Int) := by rw [hb]; push_cast; ring
    have key : ∀ t : Nat, t < n → t * P + P ≤ n * P := by
      intro t ht
      have : (t + 1) * P ≤ n * P := Nat.mul_le_mul_right P ht
      simpa [Nat.succ_mul] using this
    have val : ∀ t j : Nat, t < n → j < 3 * P →
        (e.Init (some r)).2.core_assignments_ t j =
          (((if j < P then t * P + j else n * P + (t * P + (j - P) / 2) * 2 + (j - P) % 2) : Nat) : Int) := by
      intro t j ht hj
      rw [hrow' t j ht hj]
      split_ifs <;> push_cast <;> ring
    refine ⟨?_, ?_, ?_⟩
    · intro t i ht hi
      have ht' : t < n := by omega
      have hi' : i < 3 * P := by omega
      rw [val t i ht' hi', hN]
      have := key t ht'
      refine ⟨Int.natCast_nonneg _, ?_⟩
      have h3 : (3 : Int) * ((n * P : Nat) : Int) = ((3 * (n * P) : Nat) : Int) := by push_cast; ring
      rw [h3]
      apply Int.ofNat_lt.mpr
      split_ifs <;> omega
    · intro t i t' i' ht hi ht' hi' heq
      have ht1 : t < n := by omega
      have ht1' : t' < n := by omega
      have hi1 : i < 3 * P := by omega
      have hi1' : i' < 3 * P := by omega
      rw [val t i ht1 hi1, val t' i' ht1' hi1'] at heq
      have heq' := Int.ofNat_inj.mp heq
      have k1 := key t ht1
      have k2 := key t' ht1'
      rcases lt_trichotomy t t' with h | h | h
      · have : t * P + P ≤ t' * P := by
          have : (t + 1) * P ≤ t' * P := Nat.mul_le_mul_right P h
          simpa [Nat.succ_mul] using this
        exfalso
        split_ifs at heq' <;> omega
      · subst h
        refine ⟨rfl, ?_⟩
        split_ifs at heq' <;> omega
      · have : t' * P + P ≤ t * P := by
          have : (t' + 1) * P ≤ t * P := Nat.mul_le_mul_right P h
          simpa [Nat.succ_mul] using this
        exfalso
        split_ifs at heq' <;> omega
    · intro w h0 h1
      obtain ⟨W, rfl⟩ := Int.eq_ofNat_of_zero_le h0
      have hW : W < 3 * (n * P) := by rw [hN] at h1; omega
      have hP : 0 < P := by
        rcases Nat.eq_zero_or_pos P with h | h
        · subst h; simp at hW
        · exact h
      by_cases hlt : W < n * P
      · have h1 : W / P < n := Nat.div_lt_of_lt_mul (by rw [Nat.mul_comm P n]; exact hlt)
        have h2 : W % P < P := Nat.mod_lt _ hP
        refine ⟨W / P, W % P, by omega, by omega, ?_⟩
        rw [val _ _ h1 (by omega), if_pos h2, Nat.div_add_mod']
      · have hV : (W - n * P) / 2 < n * P := by omega
        have h1 : (W - n * P) / 2 / P < n := Nat.div_lt_of_lt_mul (by rw [Nat.mul_comm P n]; exact hV)
        have h2 : (W - n * P) / 2 % P < P := Nat.mod_lt _ hP
        have h3 := Nat.div_add_mod' ((W - n * P) / 2) P
        refine ⟨(W - n * P) / 2 / P, P + 2 * ((W - n * P) / 2 % P) + (W - n * P) % 2,
          by omega, by omega, ?_⟩
        rw [val _ _ h1 (by omega), if_neg (by omega)]
        congr 1
        generalize (W - n * P) / 2 / P * P = A at h3 ⊢
        omega

/-! ## C7: every worker is owned by exactly one scheduler thread -/

/-- C7: after a successful first `Init` (no overflow in `3 * block_dim`),
`thread_cores_num_` is `3 * block_dim / thread_num_`, and the first `thread_cores_num_`
entries of the rows `0 .. thread_num_ - 1` of `core_assignments_` are pairwise distinct
within and across rows and are exactly the worker ids `0 .. 3 * block_dim - 1`. -/
theorem Init_core_partition (e : AicpuExecutor) (r : Runtime)
    (hfirst : e.initialized_ = false) (hk : e.blockdim_cores_num_ = 3)
    (hov : -2147483648 ≤ 3 * r.block_dim ∧ 3 * r.block_dim ≤ 2147483647)
    (hok : (e.Init (some r)).1 = 0) :
    (e.Init (some r)).2.thread_cores_num_ =
        Int.tdiv (3 * r.block_dim) (e.Init (some r)).2.thread_num_ ∧
      CorePartition (e.Init (some r)).2 r.block_dim :=
  Init_partition e r hfirst hk hov hok

/-- C7 at two threads and four blocks. -/
theorem Init_core_partition_witness :
    (freshExecutor.initialized_ = false ∧ freshExecutor.blockdim_cores_num_ = 3 ∧
      (-2147483648 ≤ 3 * (oneTaskRuntime 2 4).block_dim ∧
        3 * (oneTaskRuntime 2 4).block_dim ≤ 2147483647) ∧
      (freshExecutor.Init (some (oneTaskRuntime 2 4))).1 = 0) ∧
    ((freshExecutor.Init (some (oneTaskRuntime 2 4))).2.thread_cores_num_ =
        Int.tdiv (3 * (oneTaskRuntime 2 4).block_dim)
          (freshExecutor.Init (some (oneTaskRuntime 2 4))).2.thread_num_ ∧
      CorePartition (freshExecutor.Init (some (oneTaskRuntime 2 4))).2
        (oneTaskRuntime 2 4).block_dim) :=
  ⟨⟨rfl, rfl, by decide, by decide⟩,
    Init_core_partition freshExecutor (oneTaskRuntime 2 4) rfl rfl (by decide) (by decide)⟩

/-! ## C8: which configurations `Init` accepts -/

/-- C8: on the first call of `Init` with a non-null runtime, `scheCpuNum` in
`[1, MAX_AICPU_THREADS]` and `0 <= block_dim` without overflow of `3 * block_dim`,
`Init` returns `0` with `init_done_` set and `init_failed_` clear if and only if
`block_dim % thread_num == 0` and `3 * block_dim <= MAX_CORES_PER_THREAD`; otherwise it
returns `-1` with `init_failed_` set and `init_done_` clear. -/
theorem Init_accepts_iff (e : AicpuExecutor) (r : Runtime)
    (hfirst : e.initialized_ = false) (hd : e.init_done_ = false)
    (hf : e.init_failed_ = false) (hk : e.blockdim_cores_num_ = 3)
    (hn : 1 ≤ r.scheCpuNum ∧ r.scheCpuNum ≤ MAX_AICPU_THREADS)
    (hb : 0 ≤ r.block_dim) (hov : 3 * r.block_dim ≤ 2147483647) :
    (((e.Init (some r)).1 = 0 ∧ (e.Init (some r)).2.init_done_ = true ∧
        (e.Init (some r)).2.init_failed_ = false) ↔
      (Int.tmod r.block_dim r.scheCpuNum = 0 ∧ 3 * r.block_dim ≤ MAX_CORES_PER_THREAD)) ∧
    (¬ (Int.tmod r.block_dim r.scheCpuNum = 0 ∧ 3 * r.block_dim ≤ MAX_CORES_PER_THREAD) →
      (e.Init (some r)).1 = -1 ∧ (e.Init (some r)).2.init_failed_ = true ∧
        (e.Init (some r)).2.init_done_ = false) := by
  have hw : wrapInt32 (r.block_dim * 3) = 3 * r.block_dim := by
    rw [wrapInt32_of_range] <;> omega
  have hn0 : r.scheCpuNum ≠ 0 := by omega
  simp only [MAX_AICPU_THREADS] at hn
  unfold AicpuExecutor.Init AicpuExecutor.InitBody AicpuExecutor.claim
  simp only [hfirst, Bool.false_eq_true, if_false, threadNumOf, hn0, hk, hw,
    MAX_AICPU_THREADS, MAX_CORES_PER_THREAD, MAX_AIC_PER_THREAD, MAX_AIV_PER_THREAD]
  have hn' : ¬ (r.scheCpuNum < 1 ∨ r.scheCpuNum > 4) := by omega
  simp only [hn', if_false]
  by_cases h1 : 3 * r.block_dim > 24 + 48
  · simp only [h1, if_true, hd]
    constructor
    · constructor
      · intro h; simp at h
      · intro h; omega
    · intro _; simp
  · simp only [h1, if_false]
    by_cases h2 : Int.tmod r.block_dim r.scheCpuNum = 0
    · simp only [h2, ne_eq, not_true_eq_false, if_false, hf]
      constructor
      · constructor
        · intro _; exact ⟨trivial, by omega⟩
        · intro _; simp
      · intro h; exfalso; apply h; exact ⟨trivial, by omega⟩
    · simp only [h2, ne_eq, not_false_eq_true, if_true, hd]
      constructor
      · constructor
        · intro h; simp at h
        · intro h; exact absurd h.1 (by simp)
      · intro _; simp

/-- C8 at the failing configuration `block_dim = 3`, `thread_num = 2`. -/
theorem Init_accepts_iff_witness :
    (freshExecutor.initialized_ = false ∧ freshExecutor.init_done_ = false ∧
      freshExecutor.init_failed_ = false ∧ freshExecutor.blockdim_cores_num_ = 3 ∧
      (1 ≤ (oneTaskRuntime 2 3).scheCpuNum ∧
        (oneTaskRuntime 2 3).scheCpuNum ≤ MAX_AICPU_THREADS) ∧
      0 ≤ (oneTaskRuntime 2 3).block_dim ∧ 3 * (oneTaskRuntime 2 3).block_dim ≤ 2147483647 ∧
      ¬ (Int.tmod (oneTaskRuntime 2 3).block_dim (oneTaskRuntime 2 3).scheCpuNum = 0 ∧
          3 * (oneTaskRuntime 2 3).block_dim ≤ MAX_CORES_PER_THREAD)) ∧
    ((freshExecutor.Init (some (oneTaskRuntime 2 3))).1 = -1 ∧
      (freshExecutor.Init (some (oneTaskRuntime 2 3))).2.init_failed_ = true ∧
      (freshExecutor.Init (some (oneTaskRuntime 2 3))).2.init_done_ = false) :=
  ⟨⟨rfl, rfl, rfl, rfl, by decide, by decide, by decide, by decide⟩,
    (Init_accepts_iff freshExecutor (oneTaskRuntime 2 3) rfl rfl rfl rfl (by decide)
      (by decide) (by decide)).2 (by decide)⟩

/-! ## C9: the thread count `Init` rejects -/

/-- C9, as stated, fails: with `scheCpuNum = 0`, which lies outside
`[1, MAX_AICPU_THREADS]`, `Init` returns `0` and leaves `init_failed_` clear. -/
theorem Init_zero_scheCpuNum_accepted :
    ¬ (∀ (e : AicpuExecutor) (r : Runtime), e.initialized_ = false →
        e.init_failed_ = false →
        (r.scheCpuNum < 1 ∨ r.scheCpuNum > MAX_AICPU_THREADS) →
        (e.Init (some r)).1 = -1 ∧ (e.Init (some r)).2.init_failed_ = true) := by
  intro h
  have h1 := (h freshExecutor (oneTaskRuntime 0 1) rfl rfl (by decide)).1
  revert h1
  decide

/-- C9, amended: `Init` returns `-1` and sets `init_failed_` for every runtime whose
`scheCpuNum` is negative or greater than `MAX_AICPU_THREADS`; `scheCpuNum = 0` is
replaced by one thread (line 77) and is not by itself an error. -/
theorem Init_rejects_thread_num (e : AicpuExecutor) (r : Runtime)
    (hfirst : e.initialized_ = false)
    (hn : r.scheCpuNum < 0 ∨ r.scheCpuNum > MAX_AICPU_THREADS) :
    ((e.Init (some r)).1 = -1 ∧ (e.Init (some r)).2.init_failed_ = true) ∧
    (∀ r0 : Runtime, r0.scheCpuNum = 0 →
      (e.Init (some r0)) = (e.Init (some { r0 with scheCpuNum := 1 }))) := by
  simp only [MAX_AICPU_THREADS] at hn
  constructor
  · have hn0 : r.scheCpuNum ≠ 0 := by omega
    have hn' : (r.scheCpuNum < 1 ∨ r.scheCpuNum > 4) := by omega
    unfold AicpuExecutor.Init AicpuExecutor.InitBody AicpuExecutor.claim
    simp [hfirst, threadNumOf, hn0, MAX_AICPU_THREADS, hn']
  · intro r0 h0
    unfold AicpuExecutor.Init AicpuExecutor.InitBody AicpuExecutor.claim
    simp [threadNumOf, h0]

/-- C9 (amended) at `scheCpuNum = 5`. -/
theorem Init_rejects_thread_num_witness :
    (freshExecutor.initialized_ = false ∧
      ((oneTaskRuntime 5 5).scheCpuNum < 0 ∨
        (oneTaskRuntime 5 5).scheCpuNum > MAX_AICPU_THREADS)) ∧
    ((freshExecutor.Init (some (oneTaskRuntime 5 5))).1 = -1 ∧
      (freshExecutor.Init (some (oneTaskRuntime 5 5))).2.init_failed_ = true) :=
  ⟨⟨rfl, by decide⟩,
    (Init_rejects_thread_num freshExecutor (oneTaskRuntime 5 5) rfl (by decide)).1⟩

/-! ## C10: a failed `Init` stops every caller before bring-up -/

theorem InitBody_failed (e : AicpuExecutor) (runtime : Option Runtime)
    (h : (e.InitBody runtime).1 ≠ 0) :
    (e.InitBody runtime).1 = -1 ∧ (e.InitBody runtime).2.init_failed_ = true ∧
      (e.InitBody runtime).2.init_done_ = e.init_done_ ∧
      (e.InitBody runtime).2.initialized_ = e.initialized_ := by
  unfold AicpuExecutor.InitBody at h ⊢
  cases runtime with
  | none => simp
  | some r =>
      simp only at h ⊢
      split_ifs at h ⊢ <;> first | (exfalso; simp at h; done) | simp

theorem Launch.setCall_call (s : Launch) (k : Nat) (pc : CallPc) (k' : Nat) :
    (s.setCall k pc).call k' = if k' = k then pc else s.call k' := by
  by_cases h : k' = k
  · subst h; simp [Launch.setCall]
  · simp [Launch.setCall, Function.update_noteq h, h]

theorem Launch.step_entry_none (s : Launch) (k : Nat) (h : s.call k = .entry) :
    Launch.step none s k = s.setCall k (.returned (-1)) := by
  simp [Launch.step, h]

theorem Launch.step_entry_claimed (r : Runtime) (s : Launch) (k : Nat) (h : s.call k = .entry)
    (hi : s.ex.initialized_ = true) :
    Launch.step (some r) s k = s.setCall k .waitDone := by
  simp [Launch.step, h, hi]

theorem Launch.step_entry_free (r : Runtime) (s : Launch) (k : Nat) (h : s.call k = .entry)
    (hi : s.ex.initialized_ = false) :
    Launch.step (some r) s k = ({ s with ex := s.ex.claim } : Launch).setCall k .initBody := by
  simp [Launch.step, h, hi]

theorem Launch.step_initBody (runtime : Option Runtime) (s : Launch) (k : Nat)
    (h : s.call k = .initBody) :
    Launch.step runtime s k =
      ({ s with ex := (s.ex.InitBody runtime).2 } : Launch).setCall k .waitDone := by
  simp [Launch.step, h]

theorem Launch.step_waitDone (runtime : Option Runtime) (s : Launch) (k : Nat)
    (h : s.call k = .waitDone) (hd : s.ex.init_done_ = false) :
    Launch.step runtime s k = s.setCall k .waitFailed := by
  simp [Launch.step, h, hd]

theorem Launch.step_waitFailed (runtime : Option Runtime) (s : Launch) (k : Nat)
    (h : s.call k = .waitFailed) :
    Launch.step runtime s k =
      if s.ex.init_failed_ then s.setCall k (.returned (-1)) else s.setCall k .waitDone := by
  simp [Launch.step, h]

theorem Launch.step_returned (runtime : Option Runtime) (s : Launch) (k : Nat) (rc : Int)
    (h : s.call k = .returned rc) : Launch.step runtime s k = s := by
  simp [Launch.step, h]

theorem claim_initialized (e : AicpuExecutor) : e.claim.initialized_ = true := rfl

theorem claim_init_done (e : AicpuExecutor) : e.claim.init_done_ = e.init_done_ := rfl

theorem Launch.failedInv_step (e : AicpuExecutor) (runtime : Option Runtime)
    (hfirst : e.initialized_ = false) (hd : e.init_done_ = false)
    (hfail : (e.Init runtime).1 ≠ 0) (s : Launch) (k : Nat)
    (hs : Launch.FailedInv e runtime s) :
    Launch.FailedInv e runtime (Launch.step runtime s k) ∧
      (Launch.step runtime s k).workers = s.workers ∧
      (Launch.step runtime s k).regfile = s.regfile := by
  have hfail' : (e.claim.InitBody runtime).1 ≠ 0 := by
    unfold AicpuExecutor.Init at hfail
    simpa [hfirst] using hfail
  obtain ⟨-, hF, hD, hI⟩ := InitBody_failed _ _ hfail'
  rw [claim_init_done, hd] at hD
  rw [claim_initialized] at hI
  rcases hs with ⟨hex, hc⟩ | ⟨hex, k0, hk0, hc⟩ | ⟨hex, hc⟩
  · -- nobody has claimed the initialisation
    rcases hc k with h | h
    · cases runtime with
      | none =>
          rw [Launch.step_entry_none s k h]
          refine ⟨Or.inl ⟨hex, fun k' => ?_⟩, rfl, rfl⟩
          rw [Launch.setCall_call]
          split_ifs
          · exact Or.inr rfl
          · exact hc k'
      | some r =>
          rw [Launch.step_entry_free r s k h (by rw [hex]; exact hfirst)]
          refine ⟨Or.inr (Or.inl ⟨by simp [Launch.setCall, hex], k, ?_, fun k' hk => ?_⟩), rfl, rfl⟩
          · simp [Launch.setCall]
          · rw [Launch.setCall_call, if_neg hk]
            rcases hc k' with h' | h'
            · exact Or.inl h'
            · exact Or.inr (Or.inr (Or.inr h'))
    · rw [Launch.step_returned runtime s k _ h]
      exact ⟨Or.inl ⟨hex, hc⟩, rfl, rfl⟩
  · -- caller `k0` is inside `Init`
    have hi : s.ex.initialized_ = true := by rw [hex]; rfl
    have hdn : s.ex.init_done_ = false := by rw [hex]; exact hd
    by_cases hkk : k = k0
    · subst hkk
      rw [Launch.step_initBody runtime s k hk0]
      refine ⟨Or.inr (Or.inr ⟨by simp [Launch.setCall, hex], fun k' => ?_⟩), rfl, rfl⟩
      rw [Launch.setCall_call]
      split_ifs with hk
      · exact Or.inr (Or.inl rfl)
      · exact hc k' hk
    · have keep : ∀ pc, (pc = .entry ∨ pc = .waitDone ∨ pc = .waitFailed ∨ pc = .returned (-1)) →
          Launch.FailedInv e runtime (s.setCall k pc) := by
        intro pc hpc
        refine Or.inr (Or.inl ⟨hex, k0, ?_, fun k' hk' => ?_⟩)
        · rw [Launch.setCall_call, if_neg (Ne.symm hkk)]; exact hk0
        · rw [Launch.setCall_call]
          split_ifs
          · exact hpc
          · exact hc k' hk'
      rcases hc k hkk with h | h | h | h
      · cases runtime with
        | none =>
            rw [Launch.step_entry_none s k h]
            exact ⟨keep _ (by simp), rfl, rfl⟩
        | some r =>
            rw [Launch.step_entry_claimed r s k h hi]
            exact ⟨keep _ (by simp), rfl, rfl⟩
      · rw [Launch.step_waitDone runtime s k h hdn]
        exact ⟨keep _ (by simp), rfl, rfl⟩
      · rw [Launch.step_waitFailed runtime s k h]
        split_ifs
        · exact ⟨keep _ (by simp), rfl, rfl⟩
        · exact ⟨keep _ (by simp), rfl, rfl⟩
      · rw [Launch.step_returned runtime s k _ h]
        exact ⟨Or.inr (Or.inl ⟨hex, k0, hk0, hc⟩), rfl, rfl⟩
  · -- `Init` has failed
    have hi : s.ex.initialized_ = true := by rw [hex, hI]
    have hdn : s.ex.init_done_ = false := by rw [hex, hD]
    have keep : ∀ pc, (pc = .entry ∨ pc = .waitDone ∨ pc = .waitFailed ∨ pc = .returned (-1)) →
        Launch.FailedInv e runtime (s.setCall k pc) := by
      intro pc hpc
      refine Or.inr (Or.inr ⟨hex, fun k' => ?_⟩)
      rw [Launch.setCall_call]
      split_ifs
      · exact hpc
      · exact hc k'
    rcases hc k with h | h | h | h
    · cases runtime with
      | none =>
          rw [Launch.step_entry_none s k h]
          exact ⟨keep _ (by simp), rfl, rfl⟩
      | some r =>
          rw [Launch.step_entry_claimed r s k h hi]
          exact ⟨keep _ (by simp), rfl, rfl⟩
    · rw [Launch.step_waitDone runtime s k h hdn]
      exact ⟨keep _ (by simp), rfl, rfl⟩
    · rw [Launch.step_waitFailed runtime s k h]
      split_ifs
      · exact ⟨keep _ (by simp), rfl, rfl⟩
      · exact ⟨keep _ (by simp), rfl, rfl⟩
    · rw [Launch.step_returned runtime s k _ h]
      exact ⟨Or.inr (Or.inr ⟨hex, hc⟩), rfl, rfl⟩

theorem Launch.failedInv_run (e : AicpuExecutor) (runtime : Option Runtime)
    (hfirst : e.initialized_ = false) (hd : e.init_done_ = false)
    (hfail : (e.Init runtime).1 ≠ 0) (schedule : List Nat) (s : Launch)
    (hs : Launch.FailedInv e runtime s) :
    Launch.FailedInv e runtime (Launch.run runtime s schedule) ∧
      (Launch.run runtime s schedule).workers = s.workers ∧
      (Launch.run runtime s schedule).regfile = s.regfile := by
  induction schedule generalizing s with
  | nil => exact ⟨hs, rfl, rfl⟩
  | cons k ks ih =>
      obtain ⟨h1, h2, h3⟩ := Launch.failedInv_step e runtime hfirst hd hfail s k hs
      obtain ⟨h4, h5, h6⟩ := ih (Launch.step runtime s k) h1
      exact ⟨h4, h5.trans h2, h6.trans h3⟩

theorem Launch.returns_after_failed (runtime : Option Runtime) (s : Launch) (k : Nat)
    (hi : s.ex.initialized_ = true) (hdn : s.ex.init_done_ = false)
    (hfl : s.ex.init_failed_ = true)
    (hc : s.call k = .entry ∨ s.call k = .waitDone ∨ s.call k = .waitFailed ∨
      s.call k = .returned (-1)) :
    (Launch.run runtime s [k, k, k]).call k = .returned (-1) := by
  rcases hc with h | h | h | h <;> cases runtime <;>
    simp [Launch.run, Launch.step, Launch.setCall, h, hi, hdn, hfl]

/-- C10: when `Init` fails for a launch, then in every interleaving of the callers of
`AicpuExecute`: a caller that has returned has returned a non-zero value; no caller is
in `Run` (not at its entry, not in the bring-up pass `HankAiCore`, not beyond it); no
handshake cell and no register has been written; `init_done_` is clear. Every caller
does return: the caller inside `Init` stores `init_failed_` with its next step, from
then on any caller returns `-1` within three steps of its own, and a caller running
alone from the start returns `-1` within four. -/
theorem AicpuExecute_failed_init (e : AicpuExecutor) (runtime : Option Runtime)
    (workers : Nat → Handshake) (regfile : Nat → Nat) (schedule : List Nat)
    (hfirst : e.initialized_ = false) (hd : e.init_done_ = false)
    (hf : e.init_failed_ = false) (hfail : (e.Init runtime).1 ≠ 0) :
    (∀ k rc, (Launch.run runtime (Launch.start e workers regfile) schedule).call k
        = .returned rc → rc ≠ 0) ∧
    (∀ k, (Launch.run runtime (Launch.start e workers regfile) schedule).call k ≠ .run ∧
      (∀ t i, (Launch.run runtime (Launch.start e workers regfile) schedule).call k
        ≠ .hank t i) ∧
      (∀ t, (Launch.run runtime (Launch.start e workers regfile) schedule).call k
        ≠ .dispatching t)) ∧
    (Launch.run runtime (Launch.start e workers regfile) schedule).workers = workers ∧
    (Launch.run runtime (Launch.start e workers regfile) schedule).regfile = regfile ∧
    (Launch.run runtime (Launch.start e workers regfile) schedule).ex.init_done_ = false ∧
    (∀ k, (Launch.run runtime (Launch.start e workers regfile) schedule).call k = .initBody →
      (Launch.step runtime (Launch.run runtime (Launch.start e workers regfile) schedule)
        k).ex.init_failed_ = true) ∧
    (∀ k, (Launch.run runtime (Launch.start e workers regfile) schedule).ex.init_failed_
        = true →
      (Launch.run runtime (Launch.run runtime (Launch.start e workers regfile) schedule)
        [k, k, k]).call k = .returned (-1)) ∧
    (∀ k, (Launch.run runtime (Launch.start e workers regfile) [k, k, k, k]).call k
      = .returned (-1)) := by
  have hfail' : (e.claim.InitBody runtime).1 ≠ 0 := by
    unfold AicpuExecutor.Init at hfail
    simpa [hfirst] using hfail
  obtain ⟨-, hF, hD, hI⟩ := InitBody_failed _ _ hfail'
  rw [claim_init_done, hd] at hD
  rw [claim_initialized] at hI
  have h0 : Launch.FailedInv e runtime (Launch.start e workers regfile) :=
    Or.inl ⟨rfl, fun _ => Or.inl rfl⟩
  obtain ⟨hinv, hw, hr⟩ :=
    Launch.failedInv_run e runtime hfirst hd hfail schedule _ h0
  generalize Launch.run runtime (Launch.start e workers regfile) schedule = s at hinv hw hr ⊢
  have hall : ∀ k, s.call k = .entry ∨ s.call k = .initBody ∨ s.call k = .waitDone ∨
      s.call k = .waitFailed ∨ s.call k = .returned (-1) := by
    intro k
    rcases hinv with ⟨-, hc⟩ | ⟨-, k0, hk0, hc⟩ | ⟨-, hc⟩
    · rcases hc k with h | h <;> simp [h]
    · by_cases hk : k = k0
      · subst hk; simp [hk0]
      · rcases hc k hk with h | h | h | h <;> simp [h]
    · rcases hc k with h | h | h | h <;> simp [h]
  refine ⟨?_, ?_, hw, hr, ?_, ?_, ?_, ?_⟩
  · intro k rc h
    rcases hall k with h' | h' | h' | h' | h' <;> rw [h'] at h <;> cases h
    decide
  · intro k
    rcases hall k with h' | h' | h' | h' | h' <;> rw [h'] <;> simp
  · rcases hinv with ⟨hex, -⟩ | ⟨hex, -⟩ | ⟨hex, -⟩
    · rw [hex]; exact hd
    · rw [hex]; exact hd
    · rw [hex]; exact hD
  · intro k hk
    rw [Launch.step_initBody runtime s k hk]
    rcases hinv with ⟨-, hc⟩ | ⟨hex, -⟩ | ⟨-, hc⟩
    · rcases hc k with h | h <;> rw [h] at hk <;> cases hk
    · show (s.ex.InitBody runtime).2.init_failed_ = true
      rw [hex]; exact hF
    · rcases hc k with h | h | h | h <;> rw [h] at hk <;> cases hk
  · intro k hfl
    rcases hinv with ⟨hex, -⟩ | ⟨hex, -⟩ | ⟨hex, hc⟩
    · rw [hex, hf] at hfl; cases hfl
    · rw [hex] at hfl
      have : e.claim.init_failed_ = e.init_failed_ := rfl
      rw [this, hf] at hfl; cases hfl
    · exact Launch.returns_after_failed runtime s k (by rw [hex, hI]) (by rw [hex, hD]) hfl
        (hc k)
  · intro k
    cases runtime with
    | none => simp [Launch.run, Launch.step, Launch.setCall, Launch.start]
    | some r =>
        simp [Launch.run, Launch.step, Launch.setCall, Launch.start, hfirst, hD, hF,
          claim_init_done, hd]

/-- C10 at `block_dim = 3`, `thread_num = 2`, with two callers that alternate. -/
theorem AicpuExecute_failed_init_witness :
    (freshExecutor.initialized_ = false ∧ freshExecutor.init_done_ = false ∧
      freshExecutor.init_failed_ = false ∧
      (freshExecutor.Init (some (oneTaskRuntime 2 3))).1 ≠ 0) ∧
    ((Launch.run (some (oneTaskRuntime 2 3))
        (Launch.start freshExecutor (oneTaskRuntime 2 3).workers (fun _ => 0))
        [0, 1, 0, 1, 0, 1, 0, 1]).workers = (oneTaskRuntime 2 3).workers ∧
      (Launch.run (some (oneTaskRuntime 2 3))
        (Launch.start freshExecutor (oneTaskRuntime 2 3).workers (fun _ => 0))
        [0, 1, 0, 1, 0, 1, 0, 1]).ex.init_done_ = false) :=
  ⟨⟨rfl, rfl, rfl, by decide⟩,
    (AicpuExecute_failed_init freshExecutor (some (oneTaskRuntime 2 3))
      (oneTaskRuntime 2 3).workers (fun _ => 0) [0, 1, 0, 1, 0, 1, 0, 1] rfl rfl rfl
      (by decide)).2.2.1,
    (AicpuExecute_failed_init freshExecutor (some (oneTaskRuntime 2 3))
      (oneTaskRuntime 2 3).workers (fun _ => 0) [0, 1, 0, 1, 0, 1, 0, 1] rfl rfl rfl
      (by decide)).2.2.2.2.1⟩

/-! ## Sums, queues and logs -/

theorem sumUpTo_le (f g : Nat → Nat) (n : Nat) (h : ∀ p, p < n → f p ≤ g p) :
    sumUpTo f n ≤ sumUpTo g n := by
  induction n with
  | zero => simp [sumUpTo]
  | succ n ih =>
      simp only [sumUpTo]
      have h1 := ih (fun p hp => h p (Nat.lt_succ_of_lt hp))
      have h2 := h n (Nat.lt_succ_self n)
      omega

theorem sumUpTo_eq_of_le (f g : Nat → Nat) (n : Nat) (h : ∀ p, p < n → f p ≤ g p)
    (hs : sumUpTo g n ≤ sumUpTo f n) : ∀ p, p < n → f p = g p := by
  induction n with
  | zero => intro p hp; omega
  | succ n ih =>
      simp only [sumUpTo] at hs
      have h1 := sumUpTo_le f g n (fun p hp => h p (Nat.lt_succ_of_lt hp))
      have h2 := h n (Nat.lt_succ_self n)
      intro p hp
      rcases Nat.lt_succ_iff_lt_or_eq.mp hp with h3 | h3
      · exact ih (fun p hp => h p (Nat.lt_succ_of_lt hp)) (by omega) p h3
      · subst h3; omega

theorem sumUpTo_congr (f g : Nat → Nat) (n : Nat) (h : ∀ p, p < n → f p = g p) :
    sumUpTo f n = sumUpTo g n := by
  induction n with
  | zero => simp [sumUpTo]
  | succ n ih =>
      simp only [sumUpTo]
      rw [ih (fun p hp => h p (Nat.lt_succ_of_lt hp)), h n (Nat.lt_succ_self n)]

theorem sumUpTo_bump (f g : Nat → Nat) (n p0 k : Nat) (hp : p0 < n)
    (h0 : g p0 = f p0 + k) (h : ∀ p, p ≠ p0 → g p = f p) :
    sumUpTo g n = sumUpTo f n + k := by
  induction n with
  | zero => omega
  | succ n ih =>
      simp only [sumUpTo]
      rcases Nat.lt_succ_iff_lt_or_eq.mp hp with h3 | h3
      · rw [ih h3, h n (by omega)]; omega
      · subst h3
        rw [sumUpTo_congr g f p0 (fun p hp' => h p (by omega)), h0]; omega

theorem queueList_push (q : Nat → Nat) (c : Int) (x : Nat) (hc : 0 ≤ c) :
    queueList (Function.update q c.toNat x) (c + 1) = queueList q c ++ [x] := by
  obtain ⟨n, rfl⟩ := Int.eq_ofNat_of_zero_le hc
  have e : ((n : Int) + 1).toNat = n + 1 := by omega
  simp only [queueList, e, Int.toNat_natCast, List.range_succ, List.map_append, List.map_cons,
    List.map_nil, Function.update_same]
  congr 1
  apply List.map_congr_left
  intro a ha
  have : a ≠ n := by
    have := List.mem_range.mp ha
    omega
  rw [Function.update_noteq this]

theorem queueList_pop (q : Nat → Nat) (c : Int) (hc : 0 < c) :
    queueList q c = queueList q (c - 1) ++ [q (c - 1).toNat] := by
  obtain ⟨n, rfl⟩ := Int.eq_ofNat_of_zero_le (Int.le_of_lt hc)
  obtain ⟨m, rfl⟩ : ∃ m, n = m + 1 := ⟨n - 1, by omega⟩
  have e : (((m + 1 : Nat) : Int) - 1).toNat = m := by omega
  simp only [queueList, e, Int.toNat_natCast, List.range_succ, List.map_append, List.map_cons,
    List.map_nil]

theorem pushes_append (l1 l2 : List Event) : pushes (l1 ++ l2) = pushes l1 ++ pushes l2 := by
  induction l1 with
  | nil => rfl
  | cons e l ih => cases e <;> simp [pushes, ih]

theorem reclaims_append (l1 l2 : List Event) :
    reclaims (l1 ++ l2) = reclaims l1 ++ reclaims l2 := by
  induction l1 with
  | nil => rfl
  | cons e l ih => cases e <;> simp [reclaims, ih]

/-- A property of the events before each `assign` survives an event appended to the
log, when it holds of the whole old log in case the new event is an `assign`. -/
theorem assigned_after_append (P : Nat → List Event → Prop) (l : List Event) (e : Event)
    (h : ∀ before after T c, l = before ++ Event.assign T c :: after → P T before)
    (he : ∀ T c, e = Event.assign T c → P T l) :
    ∀ before after T c, l ++ [e] = before ++ Event.assign T c :: after → P T before := by
  intro before after T c heq
  rcases List.eq_nil_or_concat after with h1 | ⟨after', x, h1⟩
  · subst h1
    have h2 : l ++ [e] = before ++ [Event.assign T c] := heq
    have h3 := List.append_inj' h2 rfl
    obtain ⟨h4, h5⟩ := h3
    subst h4
    exact he T c (by simpa using h5)
  · subst h1
    have h2 : l ++ [e] = (before ++ Event.assign T c :: after') ++ [x] := by
      rw [heq]; simp
    have h3 := List.append_inj' h2 rfl
    exact h before after' T c h3.1

/-! ## The invariant is kept by every step of a scheduler thread -/

theorem View.regular_mono (v v' : View) (ph ph' : Nat → Phase) (c : Nat)
    (hs : v'.slot c = v.slot c) (hp : ∀ T, ph T = .inSlot c → ph' T = ph T)
    (h : v.regular ph c) : v'.regular ph' c := by
  rcases h with h | ⟨T, h1, h2⟩
  · exact Or.inl (hs.trans h)
  · exact Or.inr ⟨T, hs.trans h1, (hp T h2).trans h2⟩

/-- A thread keeps what it knows when its cells and the phases of its tasks stay. -/
theorem View.threadOk_mono (v v' : View) (r : Runtime) (ph ph' : Nat → Phase)
    (prog prog' : Nat → Nat) (t : Nat) (pc : Pc)
    (hn : v'.ex.thread_cores_num_ = v.ex.thread_cores_num_)
    (hc : v'.ex.core_assignments_ = v.ex.core_assignments_)
    (hs : ∀ i : Nat, (i : Int) < v.ex.thread_cores_num_ →
      v'.slot (v.ex.core_assignments_ t i).toNat = v.slot (v.ex.core_assignments_ t i).toNat)
    (hp : ∀ T, (ph T = .reclaiming t ∨ ph T = .pending t ∨ ph T = .popped t ∨
        ∃ i : Nat, (i : Int) < v.ex.thread_cores_num_ ∧
          ph T = .inSlot (v.ex.core_assignments_ t i).toNat) →
      ph' T = ph T ∧ prog' T = prog T)
    (h : v.threadOk r ph prog t pc) : v'.threadOk r ph' prog' t pc := by
  have reg : ∀ i : Nat, (i : Int) < v.ex.thread_cores_num_ →
      v.regular ph (v.ex.core_assignments_ t i).toNat →
      v'.regular ph' (v.ex.core_assignments_ t i).toNat := by
    intro i hi hr
    exact View.regular_mono v v' ph ph' _ (hs i hi)
      (fun T hT => (hp T (Or.inr (Or.inr (Or.inr ⟨i, hi, hT⟩)))).1) hr
  have hR : ∀ T, ph T = .reclaiming t → ph' T = .reclaiming t ∧ prog' T = prog T :=
    fun T hT => ⟨(hp T (Or.inl hT)).1.trans hT, (hp T (Or.inl hT)).2⟩
  cases pc <;> simp only [View.threadOk, hn, hc] at h ⊢
  case fanout i T j =>
    obtain ⟨h1, h2, h3, h4, h5⟩ := h
    exact ⟨h1, (hs i h1).trans h2, (hR T h3).1, (hR T h3).2.trans h4,
      fun i' hne hi' => reg i' hi' (h5 i' hne hi')⟩
  case push i T j d =>
    obtain ⟨h1, h2, h3, h4, h5, h6, h7⟩ := h
    exact ⟨h1, (hs i h1).trans h2, (hR T h3).1, (hR T h3).2.trans h4,
      (hp d (Or.inr (Or.inl h5))).1.trans h5, h6, fun i' hne hi' => reg i' hi' (h7 i' hne hi')⟩
  case clear i T =>
    obtain ⟨h1, h2, h3, h5⟩ := h
    exact ⟨h1, (hs i h1).trans h2, (hR T h3).1, fun i' hne hi' => reg i' hi' (h5 i' hne hi')⟩
  case count i T =>
    obtain ⟨h1, h3, h2, h5⟩ := h
    exact ⟨h1, (hR T h3).1, (hs i h1).trans h2, fun i' hne hi' => reg i' hi' (h5 i' hne hi')⟩
  case pop i =>
    obtain ⟨h1, h2, h5⟩ := h
    exact ⟨h1, (hs i h1).trans h2, fun i' hne hi' => reg i' hi' (h5 i' hne hi')⟩
  case publish i T =>
    obtain ⟨h1, h3, h2, h5⟩ := h
    exact ⟨h1, (hp T (Or.inr (Or.inr (Or.inl h3)))).1.trans h3, (hs i h1).trans h2,
      fun i' hne hi' => reg i' hi' (h5 i' hne hi')⟩
  all_goals exact fun i' hi' => reg i' hi' (h i' hi')

/-- A step of thread `t` that touches only cells of `t` and only tasks that are free or
held by `t` leaves what the other threads know. -/
theorem View.Ghost.others {v : View} {r : Runtime} {ph : Nat → Phase} {prog : Nat → Nat}
    (G : v.Ghost r ph prog) (t : Nat) (ht : (t : Int) < v.ex.thread_num_)
    (v' : View) (ph' : Nat → Phase) (prog' : Nat → Nat)
    (hn : v'.ex.thread_cores_num_ = v.ex.thread_cores_num_)
    (hc : v'.ex.core_assignments_ = v.ex.core_assignments_)
    (hthr : ∀ t', t' ≠ t → v'.thr t' = v.thr t')
    (hslot : ∀ c, (∀ i : Nat, (i : Int) < v.ex.thread_cores_num_ →
        c ≠ (v.ex.core_assignments_ t i).toNat) → v'.slot c = v.slot c)
    (hph : ∀ T, (ph' T ≠ ph T ∨ prog' T ≠ prog T) →
      ph T = .waiting ∨ ph T = .queued ∨ ph T = .pending t ∨ ph T = .popped t ∨
        ph T = .reclaiming t ∨
        ∃ i : Nat, (i : Int) < v.ex.thread_cores_num_ ∧
          ph T = .inSlot (v.ex.core_assignments_ t i).toNat)
    (t' : Nat) (ht' : (t' : Int) < v.ex.thread_num_) (hne : t' ≠ t) :
    v'.threadOk r ph' prog' t' (v'.thr t').pc := by
  rw [hthr t' hne]
  apply View.threadOk_mono v v' r ph ph' prog prog' t' _ hn hc
  · intro i hi
    apply hslot
    intro i0 hi0 heq
    exact hne (G.cores_inj t' i t i0 ht' hi ht hi0 heq).1
  · intro T hT
    by_contra hcon
    have hch : ph' T ≠ ph T ∨ prog' T ≠ prog T := by
      by_contra h2
      push_neg at h2
      exact hcon ⟨h2.1, h2.2⟩
    rcases hph T hch with h | h | h | h | h | ⟨i0, hi0, h⟩ <;>
      rcases hT with h' | h' | h' | ⟨i, hi, h'⟩ <;> rw [h] at h' <;>
      first
      | exact Phase.noConfusion h'
      | (injection h' with h''; exact hne h''.symm)
      | (injection h' with h''; exact hne (G.cores_inj t' i t i0 ht' hi ht hi0 h''.symm).1)
  · exact G.thread t' ht'

/-- A step that only moves thread `t` to a program point at which it knows enough. -/
theorem View.Ghost.step_pc {v : View} {r : Runtime} {ph : Nat → Phase} {prog : Nat → Nat}
    (G : v.Ghost r ph prog) (t : Nat) (l' : ThreadLocal)
    (hok : v.threadOk r ph prog t l'.pc) :
    ({ v with thr := Function.update v.thr t l' } : View).Ghost r ph prog := by
  refine { G with thread := ?_ }
  intro t' ht'
  by_cases h : t' = t
  · subst h
    simp only [Function.update_same]
    exact hok
  · simp only [Function.update_noteq h]
    exact G.thread t' ht'

theorem Phase.update_ne (ph : Nat → Phase) (X T : Nat) (p : Phase) (h : ph T ≠ ph X) :
    Function.update ph X p T = ph T := by
  apply Function.update_noteq
  intro e
  exact h (by rw [e])

/-- Phase A finds the task in the cell of core `i` completed (lines 255-266). -/
theorem View.Ghost.step_reclaim {v : View} {r : Runtime} {ph : Nat → Phase} {prog : Nat → Nat}
    (G : v.Ghost r ph prog) (t : Nat) (ht : (t : Int) < v.ex.thread_num_) (i : Nat)
    (hpc : (v.thr t).pc = .phaseA i) (hi : (i : Int) < v.ex.thread_cores_num_)
    (hs : v.slot (v.ex.core_assignments_ t i).toNat ≠ 0) (l' : ThreadLocal)
    (hl : l'.pc = .fanout i (v.slot (v.ex.core_assignments_ t i).toNat - 1) 0) :
    ({ v with
        log := v.log ++ [Event.reclaim (v.slot (v.ex.core_assignments_ t i).toNat - 1)
          (v.ex.core_assignments_ t i).toNat],
        thr := Function.update v.thr t l' } : View).Ghost r
      (Function.update ph (v.slot (v.ex.core_assignments_ t i).toNat - 1) (.reclaiming t))
      prog := by
  have hth := G.thread t ht
  rw [hpc] at hth
  simp only [View.threadOk] at hth
  obtain ⟨T, hT, hphT⟩ : ∃ T, v.slot (v.ex.core_assignments_ t i).toNat = taskAddr T ∧
      ph T = .inSlot (v.ex.core_assignments_ t i).toNat := by
    rcases hth i hi with h | h
    · exact absurd h hs
    · exact h
  have hT' : v.slot (v.ex.core_assignments_ t i).toNat - 1 = T := by
    rw [hT]; simp [taskAddr]
  rw [hT'] at hl ⊢
  have keep : ∀ X, ph X ≠ .inSlot (v.ex.core_assignments_ t i).toNat →
      Function.update ph T (.reclaiming t) X = ph X := by
    intro X hX
    apply Phase.update_ne
    rw [hphT]; exact hX
  have hprog : prog T = 0 := by
    rcases Nat.eq_zero_or_pos (prog T) with h | h
    · exact h
    · rcases G.prog_pos T h with ⟨t0, h1⟩ | h1 <;> rw [hphT] at h1 <;> cases h1
  have hnot : T ∉ reclaims v.log := by
    intro hmem
    rcases (G.reclaims_ph T).mp hmem with ⟨t0, h1⟩ | h1 <;> rw [hphT] at h1 <;> cases h1
  refine
    { task_frame := G.task_frame, cores_inj := G.cores_inj, count_aic := G.count_aic,
      count_aiv := G.count_aiv, queue_nodup := G.queue_nodup, fanin_sum := G.fanin_sum,
      queue_typed := G.queue_typed,
      queued := ?_, valid := ?_, fanin_le := ?_, prog_pos := ?_, thread := ?_,
      pushes_nodup := ?_, pushes_ph := ?_, pushes_src := ?_, reclaims_nodup := ?_,
      reclaims_ph := ?_, assigned_after := ?_ }
  · intro x hx
    have := G.queued x hx
    rw [keep x (by rw [this]; simp)]; exact this
  · intro X hX
    by_cases h : X = T
    · subst h; exact G.valid X (by rw [hphT]; simp)
    · rw [Function.update_noteq h] at hX; exact G.valid X hX
  · intro X hX
    by_cases h : X = T
    · subst h; exact G.fanin_le X (by rw [hphT]; simp)
    · rw [Function.update_noteq h] at hX; exact G.fanin_le X hX
  · intro p hp
    by_cases h : p = T
    · subst h; simp
    · rw [Function.update_noteq h]; exact G.prog_pos p hp
  · intro t' ht'
    by_cases h : t' = t
    · subst h
      simp only [Function.update_same, hl, View.threadOk]
      refine ⟨hi, hT, by simp, hprog, ?_⟩
      intro i' hne hi'
      apply View.regular_mono v _ ph _ _ rfl _ (hth i' hi')
      intro X hX
      apply keep
      rw [hX]
      intro e
      injection e with e
      exact hne (G.cores_inj t' i' t' i ht' hi' ht' hi e).2
    · refine G.others t ht _ (Function.update ph T (.reclaiming t)) prog ?_ ?_ ?_ ?_ ?_ t' ht' h
      · rfl
      · rfl
      · intro t'' h''; simp [Function.update_noteq h'']
      · intro c _; rfl
      · intro X hX
        rcases hX with hX | hX
        · have : X = T := by
            by_contra hne
            exact hX (Function.update_noteq hne _ _)
          subst this
          exact Or.inr (Or.inr (Or.inr (Or.inr (Or.inr ⟨i, hi, hphT⟩))))
        · exact absurd rfl hX
  · simp only [pushes_append, pushes, List.append_nil]; exact G.pushes_nodup
  · simp only [pushes_append, pushes, List.append_nil]
    intro X hX
    have := G.pushes_ph X hX
    by_cases h : X = T
    · subst h; simp
    · rw [Function.update_noteq h]; exact this
  · simp only [pushes_append, pushes, List.append_nil]; exact G.pushes_src
  · simp only [reclaims_append, reclaims]
    rw [List.nodup_append]
    refine ⟨G.reclaims_nodup, by simp, ?_⟩
    intro a ha hb
    simp at hb
    subst hb
    exact hnot ha
  · intro X
    simp only [reclaims_append, reclaims, List.mem_append, List.mem_singleton]
    by_cases h : X = T
    · subst h; simp
    · rw [Function.update_noteq h]
      simp [h, G.reclaims_ph X]
  · apply assigned_after_append (fun T before => ∀ p, p < r.task_count →
      T ∈ (r.tasks p).fanout → p ∈ reclaims before) _ _ G.assigned_after
    intro T' c' he
    cases he

/-- Every occurrence of a task that is no longer waiting, in the fanout list of any
task of the graph, has been decremented. -/
theorem View.Ghost.preds_done {v : View} {r : Runtime} {ph : Nat → Phase} {prog : Nat → Nat}
    (G : v.Ghost r ph prog) (wf : r.WellFormed) (T : Nat) (hT : ph T ≠ .waiting) :
    ∀ p, p < r.task_count →
      ((r.tasks p).fanout.take (prog p)).count T = (r.tasks p).fanout.count T := by
  have h1 := G.fanin_le T hT
  have h2 := G.fanin_sum T
  have h3 := wf.fanin_eq T (G.valid T hT)
  apply sumUpTo_eq_of_le
  · intro p _
    exact (List.take_sublist _ _).count_le T
  · have : (r.predCount T : Int) = sumUpTo (fun p => (r.tasks p).fanout.count T) r.task_count :=
      rfl
    omega

/-- The `fanin` of a task of the graph never goes below `0`. -/
theorem View.Ghost.fanin_nonneg {v : View} {r : Runtime} {ph : Nat → Phase}
    {prog : Nat → Nat} (G : v.Ghost r ph prog) (wf : r.WellFormed) (T : Nat)
    (hT : T < r.task_count) : 0 ≤ (v.tasks T).fanin := by
  have h2 := G.fanin_sum T
  have h3 := wf.fanin_eq T hT
  have h4 : sumUpTo (fun p => ((r.tasks p).fanout.take (prog p)).count T) r.task_count ≤
      sumUpTo (fun p => (r.tasks p).fanout.count T) r.task_count :=
    sumUpTo_le _ _ _ (fun p _ => (List.take_sublist _ _).count_le T)
  have : (r.predCount T : Int) = sumUpTo (fun p => (r.tasks p).fanout.count T) r.task_count :=
    rfl
  omega

/-- The predecessors of a task that is no longer waiting have been found completed. -/
theorem View.Ghost.preds_reclaimed {v : View} {r : Runtime} {ph : Nat → Phase}
    {prog : Nat → Nat} (G : v.Ghost r ph prog) (wf : r.WellFormed) (T : Nat)
    (hT : ph T ≠ .waiting) :
    ∀ p, p < r.task_count → T ∈ (r.tasks p).fanout → p ∈ reclaims v.log := by
  intro p hp hmem
  have h1 := G.preds_done wf T hT p hp
  have h2 : 0 < (r.tasks p).fanout.count T := List.count_pos_iff.mpr hmem
  have h3 : 0 < prog p := by
    rcases Nat.eq_zero_or_pos (prog p) with h | h
    · rw [h] at h1; simp at h1; omega
    · exact h
  exact (G.reclaims_ph p).mpr (G.prog_pos p h3)

/-- The `fetch_sub` on the `fanin` of the successor `d` found at index `j` of the fanout
list of the completed task (line 273). -/
theorem View.Ghost.step_fetch {v : View} {r : Runtime} {ph : Nat → Phase} {prog : Nat → Nat}
    (G : v.Ghost r ph prog) (wf : r.WellFormed) (t : Nat) (ht : (t : Int) < v.ex.thread_num_)
    (i T j d : Nat) (hpc : (v.thr t).pc = .fanout i T j)
    (hd : (v.tasks T).fanout.get? j = some d) (task' : Task)
    (hf : task'.fanin = (v.tasks d).fanin - 1) (hfo : task'.fanout = (v.tasks d).fanout)
    (hct : task'.core_type = (v.tasks d).core_type)
    (l' : ThreadLocal) (ph' : Nat → Phase)
    (hcase : ((v.tasks d).fanin = 1 ∧ ph' = Function.update ph d (.pending t) ∧
        l'.pc = .push i T j d) ∨
      ((v.tasks d).fanin ≠ 1 ∧ ph' = ph ∧ l'.pc = .fanout i T (j + 1))) :
    ({ v with tasks := Function.update v.tasks d task',
              thr := Function.update v.thr t l' } : View).Ghost r ph'
      (Function.update prog T (j + 1)) := by
  have hth := G.thread t ht
  rw [hpc] at hth
  simp only [View.threadOk] at hth
  obtain ⟨hi, hslot, hphT, hprogT, hreg⟩ := hth
  have hTn : T < r.task_count := G.valid T (by rw [hphT]; simp)
  rw [(G.task_frame T).1] at hd
  have hdmem : d ∈ (r.tasks T).fanout := List.get?_mem hd
  have hdn : d < r.task_count := wf.fanout_valid T hTn d hdmem
  have htake : (r.tasks T).fanout.take (j + 1) = (r.tasks T).fanout.take j ++ [d] := by
    have hd' : (r.tasks T).fanout[j]? = some d := by
      rw [← List.get?_eq_getElem?]; exact hd
    rw [List.take_succ, hd']; rfl
  -- the phases change at `d` only, and only when `d` was waiting
  have hph' : ∀ X, X ≠ d → ph' X = ph X := by
    intro X hX
    rcases hcase with ⟨_, h, _⟩ | ⟨_, h, _⟩
    · rw [h, Function.update_noteq hX]
    · rw [h]
  have hwait : ph' d ≠ ph d → ph d = .waiting ∧ (v.tasks d).fanin = 1 ∧ ph' d = .pending t := by
    intro hne
    rcases hcase with ⟨h1, h, _⟩ | ⟨_, h, _⟩
    · refine ⟨?_, h1, by rw [h]; simp⟩
      by_contra hw
      have := G.fanin_le d hw
      omega
    · rw [h] at hne; exact absurd rfl hne
  have hsame : ∀ X, ph X ≠ .waiting → ph' X = ph X := by
    intro X hX
    by_contra hne
    by_cases hXd : X = d
    · subst hXd; exact hX (hwait hne).1
    · exact hne (hph' X hXd)
  have hTd : ph' T = .reclaiming t := by rw [hsame T (by rw [hphT]; simp)]; exact hphT
  refine
    { cores_inj := G.cores_inj, count_aic := G.count_aic, count_aiv := G.count_aiv,
      queue_nodup := G.queue_nodup, queue_typed := G.queue_typed,
      pushes_nodup := G.pushes_nodup, pushes_src := G.pushes_src,
      reclaims_nodup := G.reclaims_nodup, assigned_after := G.assigned_after,
      task_frame := ?_, queued := ?_, valid := ?_, fanin_le := ?_, fanin_sum := ?_,
      prog_pos := ?_, thread := ?_, pushes_ph := ?_, reclaims_ph := ?_ }
  · intro X
    by_cases h : X = d
    · subst h; simp only [Function.update_same, hfo, hct]; exact G.task_frame X
    · simp only [Function.update_noteq h]; exact G.task_frame X
  · intro x hx
    have := G.queued x hx
    rw [hsame x (by rw [this]; simp)]; exact this
  · intro X hX
    by_cases h : ph' X = ph X
    · rw [h] at hX; exact G.valid X hX
    · have : X = d := by
        by_contra hXd
        exact h (hph' X hXd)
      subst this; exact hdn
  · intro X hX
    by_cases hXd : X = d
    · subst hXd
      simp only [Function.update_same, hf]
      by_cases h : ph' X = ph X
      · rw [h] at hX
        have := G.fanin_le X hX
        omega
      · have := (hwait h).2.1
        omega
    · simp only [Function.update_noteq hXd]
      rw [hph' X hXd] at hX
      exact G.fanin_le X hX
  · intro X
    have hsum : sumUpTo (fun p => ((r.tasks p).fanout.take
          (Function.update prog T (j + 1) p)).count X) r.task_count =
        sumUpTo (fun p => ((r.tasks p).fanout.take (prog p)).count X) r.task_count +
          (if d = X then 1 else 0) := by
      apply sumUpTo_bump _ _ _ T _ hTn
      · simp only [Function.update_same, htake, hprogT, List.count_append]
        congr 1
        by_cases h : d = X
        · subst h; simp
        · simp [h, List.count_singleton']
      · intro p hp
        simp only [Function.update_noteq hp]
    have h2 := G.fanin_sum X
    rw [hsum]
    by_cases hXd : X = d
    · subst hXd
      simp only [Function.update_same, hf, if_true]
      push_cast
      omega
    · have hdX : ¬ d = X := fun h => hXd h.symm
      simp only [Function.update_noteq hXd, if_neg hdX]
      push_cast
      omega
  · intro p hp
    by_cases hpT : p = T
    · subst hpT
      exact Or.inl ⟨t, hTd⟩
    · rw [Function.update_noteq hpT] at hp
      have h1 := G.prog_pos p hp
      have h2 : ph p ≠ .waiting := by
        rcases h1 with ⟨t0, h1⟩ | h1 <;> rw [h1] <;> simp
      rw [hsame p h2]; exact h1
  · intro t' ht'
    by_cases h : t' = t
    · subst h
      simp only [Function.update_same]
      have hreg' : ∀ i' : Nat, i' ≠ i → (i' : Int) < v.ex.thread_cores_num_ →
          View.regular { v with tasks := Function.update v.tasks d task',
                                thr := Function.update v.thr t' l' } ph'
            (v.ex.core_assignments_ t' i').toNat := by
        intro i' hne hi'
        apply View.regular_mono v _ ph _ _ rfl _ (hreg i' hne hi')
        intro X hX
        exact hsame X (by rw [hX]; simp)
      rcases hcase with ⟨h1, h2, h3⟩ | ⟨h1, h2, h3⟩
      · rw [h3]
        simp only [View.threadOk]
        refine ⟨hi, hslot, hTd, by simp, by rw [h2]; simp, ?_, hreg'⟩
        have h4 := G.fanin_sum d
        have : (0 : Int) ≤ sumUpTo (fun p => ((r.tasks p).fanout.take (prog p)).count d)
            r.task_count := Int.natCast_nonneg _
        omega
      · rw [h3]
        simp only [View.threadOk]
        exact ⟨hi, hslot, hTd, by simp, hreg'⟩
    · refine G.others t ht _ ph' (Function.update prog T (j + 1)) ?_ ?_ ?_ ?_ ?_ t' ht' h
      · rfl
      · rfl
      · intro t'' h''; simp [Function.update_noteq h'']
      · intro c _; rfl
      · intro X hX
        by_cases hw : ph X = .waiting
        · exact Or.inl hw
        · have hXT : X = T := by
            by_contra hne
            rcases hX with hX | hX
            · exact hX (hsame X hw)
            · exact hX (Function.update_noteq hne _ _)
          subst hXT
          exact Or.inr (Or.inr (Or.inr (Or.inr (Or.inl hphT))))
  · intro X hX
    have := G.pushes_ph X hX
    rw [hsame X this.1]; exact this
  · intro X
    rw [G.reclaims_ph X]
    by_cases h : ph' X = ph X
    · rw [h]
    · have hXd : X = d := by
        by_contra hXd
        exact h (hph' X hXd)
      subst hXd
      obtain ⟨h1, _, h3⟩ := hwait h
      rw [h1, h3]
      simp

/-- The push of the successor `d` whose `fanin` went from `1` to `0` (lines 276-288). -/
theorem View.Ghost.step_push {v : View} {r : Runtime} {ph : Nat → Phase} {prog : Nat → Nat}
    (G : v.Ghost r ph prog) (t : Nat) (ht : (t : Int) < v.ex.thread_num_)
    (i T j d : Nat) (hpc : (v.thr t).pc = .push i T j d) (v' : View) (l' : ThreadLocal)
    (hn : v'.ex.thread_num_ = v.ex.thread_num_)
    (hcn : v'.ex.thread_cores_num_ = v.ex.thread_cores_num_)
    (hca : v'.ex.core_assignments_ = v.ex.core_assignments_)
    (htasks : v'.tasks = v.tasks) (hslot : v'.slot = v.slot)
    (hthr : v'.thr = Function.update v.thr t l') (hl : l'.pc = .fanout i T (j + 1))
    (hlog : v'.log = v.log ++ [Event.push d])
    (hca0 : 0 ≤ v'.ex.ready_count_aic_) (hcv0 : 0 ≤ v'.ex.ready_count_aiv_)
    (hq : ((r.tasks d).core_type = 0 ∧
        queueList v'.ex.ready_queue_aic_ v'.ex.ready_count_aic_ =
          queueList v.ex.ready_queue_aic_ v.ex.ready_count_aic_ ++ [d] ∧
        queueList v'.ex.ready_queue_aiv_ v'.ex.ready_count_aiv_ =
          queueList v.ex.ready_queue_aiv_ v.ex.ready_count_aiv_) ∨
      ((r.tasks d).core_type ≠ 0 ∧
        queueList v'.ex.ready_queue_aic_ v'.ex.ready_count_aic_ =
          queueList v.ex.ready_queue_aic_ v.ex.ready_count_aic_ ∧
        queueList v'.ex.ready_queue_aiv_ v'.ex.ready_count_aiv_ =
          queueList v.ex.ready_queue_aiv_ v.ex.ready_count_aiv_ ++ [d])) :
    v'.Ghost r (Function.update ph d .queued) prog := by
  have hth := G.thread t ht
  rw [hpc] at hth
  simp only [View.threadOk] at hth
  obtain ⟨hi, hslotT, hphT, hprogT, hphd, hsrc, hreg⟩ := hth
  have keep : ∀ X, ph X ≠ .pending t → Function.update ph d .queued X = ph X := by
    intro X hX
    apply Phase.update_ne
    rw [hphd]; exact hX
  have hdq : d ∉ queueList v.ex.ready_queue_aic_ v.ex.ready_count_aic_ ++
      queueList v.ex.ready_queue_aiv_ v.ex.ready_count_aiv_ := by
    intro hmem
    have := G.queued d hmem
    rw [hphd] at this; cases this
  have hdp : d ∉ pushes v.log := by
    intro hmem
    exact (G.pushes_ph d hmem).2 t hphd
  have hmemq : ∀ x, x ∈ queueList v'.ex.ready_queue_aic_ v'.ex.ready_count_aic_ ++
      queueList v'.ex.ready_queue_aiv_ v'.ex.ready_count_aiv_ →
      x = d ∨ x ∈ queueList v.ex.ready_queue_aic_ v.ex.ready_count_aic_ ++
        queueList v.ex.ready_queue_aiv_ v.ex.ready_count_aiv_ := by
    intro x hx
    rcases hq with ⟨_, h1, h2⟩ | ⟨_, h1, h2⟩ <;> rw [h1, h2] at hx <;>
      simp only [List.mem_append, List.mem_singleton] at hx ⊢ <;> tauto
  refine
    { count_aic := hca0, count_aiv := hcv0,
      task_frame := by rw [htasks]; exact G.task_frame,
      cores_inj := by rw [hn, hcn, hca]; exact G.cores_inj,
      fanin_sum := by rw [htasks]; exact G.fanin_sum,
      queued := ?_, queue_nodup := ?_, queue_typed := ?_, valid := ?_, fanin_le := ?_,
      prog_pos := ?_, thread := ?_, pushes_nodup := ?_, pushes_ph := ?_, pushes_src := ?_,
      reclaims_nodup := ?_, reclaims_ph := ?_, assigned_after := ?_ }
  · intro x hx
    rcases hmemq x hx with h | h
    · subst h; simp
    · have := G.queued x h
      rw [keep x (by rw [this]; simp)]; exact this
  · have hnd := G.queue_nodup
    rcases hq with ⟨_, h1, h2⟩ | ⟨_, h1, h2⟩ <;> rw [h1, h2]
    · rw [List.append_assoc, List.singleton_append]
      apply List.nodup_middle.mpr
      exact List.nodup_cons.mpr ⟨hdq, hnd⟩
    · rw [← List.append_assoc]
      apply List.Nodup.append hnd (List.nodup_singleton d)
      intro a ha hb
      rw [List.mem_singleton] at hb
      subst hb
      exact hdq ha
  · intro X hX
    by_cases h : X = d
    · subst h; exact G.valid X (by rw [hphd]; simp)
    · rw [Function.update_noteq h] at hX; exact G.valid X hX
  · intro X hX
    rw [htasks]
    by_cases h : X = d
    · subst h; exact G.fanin_le X (by rw [hphd]; simp)
    · rw [Function.update_noteq h] at hX; exact G.fanin_le X hX
  · intro p hp
    have h1 := G.prog_pos p hp
    rw [keep p (by rcases h1 with ⟨t0, h1⟩ | h1 <;> rw [h1] <;> simp)]
    exact h1
  · intro t' ht'
    rw [hn] at ht'
    by_cases h : t' = t
    · subst h
      rw [hthr]
      simp only [Function.update_same, hl, View.threadOk, hcn, hca, hslot]
      refine ⟨hi, hslotT, ?_, hprogT, ?_⟩
      · rw [keep T (by rw [hphT]; simp)]; exact hphT
      · intro i' hne hi'
        apply View.regular_mono v _ ph _ _ (by rw [hslot]) _ (hreg i' hne hi')
        intro X hX
        exact keep X (by rw [hX]; simp)
    · refine G.others t ht v' _ prog hcn hca ?_ ?_ ?_ t' ht' h
      · intro t'' h''; rw [hthr, Function.update_noteq h'']
      · intro c _; rw [hslot]
      · intro X hX
        rcases hX with hX | hX
        · have : X = d := by
            by_contra hne
            exact hX (Function.update_noteq hne _ _)
          subst this
          exact Or.inr (Or.inr (Or.inl hphd))
        · exact absurd rfl hX
  · rw [hlog, pushes_append]
    simp only [pushes]
    apply List.Nodup.append G.pushes_nodup (List.nodup_singleton d)
    intro a ha hb
    rw [List.mem_singleton] at hb
    subst hb
    exact hdp ha
  · rw [hlog, pushes_append]
    simp only [pushes]
    intro X hX
    rcases List.mem_append.mp hX with h | h
    · have := G.pushes_ph X h
      rw [keep X (this.2 t)]; exact this
    · rw [List.mem_singleton] at h; subst h; simp
  · rw [hlog, pushes_append]
    simp only [pushes]
    intro X hX
    rcases List.mem_append.mp hX with h | h
    · exact G.pushes_src X h
    · rw [List.mem_singleton] at h; subst h; exact Or.inr hsrc
  · rw [hlog, reclaims_append]
    simp only [reclaims, List.append_nil]; exact G.reclaims_nodup
  · intro X
    rw [hlog, reclaims_append]
    simp only [reclaims, List.append_nil]
    rw [G.reclaims_ph X]
    by_cases h : X = d
    · subst h; rw [hphd]; simp
    · rw [Function.update_noteq h]
  · rw [hlog]
    apply assigned_after_append (fun T before => ∀ p, p < r.task_count →
      T ∈ (r.tasks p).fanout → p ∈ reclaims before) _ _ G.assigned_after
    intro T' c' he
    cases he
  · rcases hq with ⟨h0, h1, h2⟩ | ⟨h0, h1, h2⟩ <;> rw [h1, h2]
    · refine ⟨?_, G.queue_typed.2⟩
      intro x hx
      rcases List.mem_append.mp hx with h | h
      · exact G.queue_typed.1 x h
      · rw [List.mem_singleton] at h; subst h; exact h0
    · refine ⟨G.queue_typed.1, ?_⟩
      intro x hx
      rcases List.mem_append.mp hx with h | h
      · exact G.queue_typed.2 x h
      · rw [List.mem_singleton] at h; subst h; exact h0

/-- `h->task = 0` after the fanout loop (line 296). -/
theorem View.Ghost.step_clear {v : View} {r : Runtime} {ph : Nat → Phase} {prog : Nat → Nat}
    (G : v.Ghost r ph prog) (t : Nat) (ht : (t : Int) < v.ex.thread_num_)
    (i T : Nat) (hpc : (v.thr t).pc = .clear i T) (l' : ThreadLocal)
    (hl : l'.pc = .count i T) :
    ({ v with slot := Function.update v.slot (v.ex.core_assignments_ t i).toNat 0,
              thr := Function.update v.thr t l' } : View).Ghost r ph prog := by
  have hth := G.thread t ht
  rw [hpc] at hth
  simp only [View.threadOk] at hth
  obtain ⟨hi, hslotT, hphT, hreg⟩ := hth
  refine { G with thread := ?_ }
  intro t' ht'
  by_cases h : t' = t
  · subst h
    simp only [Function.update_same, hl, View.threadOk]
    refine ⟨hi, hphT, trivial, ?_⟩
    intro i' hne hi'
    have hc : (v.ex.core_assignments_ t' i').toNat ≠ (v.ex.core_assignments_ t' i).toNat :=
      fun e => hne (G.cores_inj t' i' t' i ht hi' ht hi e).2
    exact View.regular_mono v _ ph ph _ (Function.update_noteq hc _ _) (fun _ _ => rfl)
      (hreg i' hne hi')
  · refine G.others t ht _ ph prog ?_ ?_ ?_ ?_ ?_ t' ht' h
    · rfl
    · rfl
    · intro t'' h''; simp [Function.update_noteq h'']
    · intro c hc
      exact Function.update_noteq (hc i hi) _ _
    · intro X hX
      rcases hX with hX | hX <;> exact absurd rfl hX

/-- `completed_tasks_.fetch_add(1)` (line 299). -/
theorem View.Ghost.step_count {v : View} {r : Runtime} {ph : Nat → Phase} {prog : Nat → Nat}
    (G : v.Ghost r ph prog) (t : Nat) (ht : (t : Int) < v.ex.thread_num_)
    (i T : Nat) (hpc : (v.thr t).pc = .count i T) (l' : ThreadLocal)
    (hl : l'.pc = .phaseA (i + 1)) (c' : Int) :
    ({ v with ex := { v.ex with completed_tasks_ := c' },
              thr := Function.update v.thr t l' } : View).Ghost r
      (Function.update ph T .done) prog := by
  have hth := G.thread t ht
  rw [hpc] at hth
  simp only [View.threadOk] at hth
  obtain ⟨hi, hphT, hslot0, hreg⟩ := hth
  have keep : ∀ X, ph X ≠ .reclaiming t → Function.update ph T .done X = ph X := by
    intro X hX
    apply Phase.update_ne
    rw [hphT]; exact hX
  refine
    { task_frame := G.task_frame, cores_inj := G.cores_inj, count_aic := G.count_aic,
      count_aiv := G.count_aiv, queue_nodup := G.queue_nodup, fanin_sum := G.fanin_sum,
      queue_typed := G.queue_typed, pushes_nodup := G.pushes_nodup,
      pushes_src := G.pushes_src, reclaims_nodup := G.reclaims_nodup,
      assigned_after := G.assigned_after,
      queued := ?_, valid := ?_, fanin_le := ?_, prog_pos := ?_, thread := ?_,
      pushes_ph := ?_, reclaims_ph := ?_ }
  · intro x hx
    have := G.queued x hx
    rw [keep x (by rw [this]; simp)]; exact this
  · intro X hX
    by_cases h : X = T
    · subst h; exact G.valid X (by rw [hphT]; simp)
    · rw [Function.update_noteq h] at hX; exact G.valid X hX
  · intro X hX
    by_cases h : X = T
    · subst h; exact G.fanin_le X (by rw [hphT]; simp)
    · rw [Function.update_noteq h] at hX; exact G.fanin_le X hX
  · intro p hp
    by_cases h : p = T
    · subst h; simp
    · rw [Function.update_noteq h]; exact G.prog_pos p hp
  · intro t' ht'
    by_cases h : t' = t
    · subst h
      simp only [Function.update_same, hl, View.threadOk]
      intro i' hi'
      by_cases hne : i' = i
      · subst hne; exact Or.inl hslot0
      · apply View.regular_mono v _ ph _ _ rfl _ (hreg i' hne hi')
        intro X hX
        exact keep X (by rw [hX]; simp)
    · refine G.others t ht _ (Function.update ph T .done) prog ?_ ?_ ?_ ?_ ?_ t' ht' h
      · rfl
      · rfl
      · intro t'' h''; simp [Function.update_noteq h'']
      · intro c _; rfl
      · intro X hX
        rcases hX with hX | hX
        · have : X = T := by
            by_contra hne
            exact hX (Function.update_noteq hne _ _)
          subst this
          exact Or.inr (Or.inr (Or.inr (Or.inr (Or.inl hphT))))
        · exact absurd rfl hX
  · intro X hX
    have := G.pushes_ph X hX
    by_cases h : X = T
    · subst h; simp
    · rw [Function.update_noteq h]; exact this
  · intro X
    rw [G.reclaims_ph X]
    by_cases h : X = T
    · subst h; rw [hphT]; simp
    · rw [Function.update_noteq h]

/-- `h->task = task` for the popped task (lines 347, 369). -/
theorem View.Ghost.step_publish {v : View} {r : Runtime} {ph : Nat → Phase}
    {prog : Nat → Nat} (G : v.Ghost r ph prog) (t : Nat) (ht : (t : Int) < v.ex.thread_num_)
    (i T : Nat) (hpc : (v.thr t).pc = .publish i T) (l' : ThreadLocal)
    (hl : l'.pc = .busy i) :
    ({ v with slot := Function.update v.slot (v.ex.core_assignments_ t i).toNat (taskAddr T),
              thr := Function.update v.thr t l' } : View).Ghost r
      (Function.update ph T (.inSlot (v.ex.core_assignments_ t i).toNat)) prog := by
  have hth := G.thread t ht
  rw [hpc] at hth
  simp only [View.threadOk] at hth
  obtain ⟨hi, hphT, hslot0, hreg⟩ := hth
  have keep : ∀ X, ph X ≠ .popped t →
      Function.update ph T (.inSlot (v.ex.core_assignments_ t i).toNat) X = ph X := by
    intro X hX
    apply Phase.update_ne
    rw [hphT]; exact hX
  refine
    { task_frame := G.task_frame, cores_inj := G.cores_inj, count_aic := G.count_aic,
      count_aiv := G.count_aiv, queue_nodup := G.queue_nodup, fanin_sum := G.fanin_sum,
      queue_typed := G.queue_typed, pushes_nodup := G.pushes_nodup,
      pushes_src := G.pushes_src, reclaims_nodup := G.reclaims_nodup,
      assigned_after := G.assigned_after,
      queued := ?_, valid := ?_, fanin_le := ?_, prog_pos := ?_, thread := ?_,
      pushes_ph := ?_, reclaims_ph := ?_ }
  · intro x hx
    have := G.queued x hx
    rw [keep x (by rw [this]; simp)]; exact this
  · intro X hX
    by_cases h : X = T
    · subst h; exact G.valid X (by rw [hphT]; simp)
    · rw [Function.update_noteq h] at hX; exact G.valid X hX
  · intro X hX
    by_cases h : X = T
    · subst h; exact G.fanin_le X (by rw [hphT]; simp)
    · rw [Function.update_noteq h] at hX; exact G.fanin_le X hX
  · intro p hp
    have h1 := G.prog_pos p hp
    rw [keep p (by rcases h1 with ⟨t0, h1⟩ | h1 <;> rw [h1] <;> simp)]
    exact h1
  · intro t' ht'
    by_cases h : t' = t
    · subst h
      simp only [Function.update_same, hl, View.threadOk]
      intro i' hi'
      by_cases hne : i' = i
      · subst hne
        exact Or.inr ⟨T, by simp, by simp⟩
      · have hc : (v.ex.core_assignments_ t' i').toNat ≠ (v.ex.core_assignments_ t' i).toNat :=
          fun e => hne (G.cores_inj t' i' t' i ht hi' ht hi e).2
        apply View.regular_mono v _ ph _ _ (Function.update_noteq hc _ _) _ (hreg i' hne hi')
        intro X hX
        exact keep X (by rw [hX]; simp)
    · refine G.others t ht _
        (Function.update ph T (.inSlot (v.ex.core_assignments_ t i).toNat)) prog
        ?_ ?_ ?_ ?_ ?_ t' ht' h
      · rfl
      · rfl
      · intro t'' h''; simp [Function.update_noteq h'']
      · intro c hc
        exact Function.update_noteq (hc i hi) _ _
      · intro X hX
        rcases hX with hX | hX
        · have : X = T := by
            by_contra hne
            exact hX (Function.update_noteq hne _ _)
          subst this
          exact Or.inr (Or.inr (Or.inr (Or.inl hphT)))
        · exact absurd rfl hX
  · intro X hX
    have := G.pushes_ph X hX
    by_cases h : X = T
    · subst h; simp
    · rw [Function.update_noteq h]; exact this
  · intro X
    rw [G.reclaims_ph X]
    by_cases h : X = T
    · subst h; rw [hphT]; simp
    · rw [Function.update_noteq h]

/-- An event of a worker appended to the log. -/
theorem View.Ghost.step_kernel {v : View} {r : Runtime} {ph : Nat → Phase}
    {prog : Nat → Nat} (G : v.Ghost r ph prog) (T c : Nat) :
    ({ v with log := v.log ++ [Event.kernel T c] } : View).Ghost r ph prog := by
  refine { G with pushes_nodup := ?_, pushes_ph := ?_, pushes_src := ?_,
                  reclaims_nodup := ?_, reclaims_ph := ?_, assigned_after := ?_ }
  · simp only [pushes_append, pushes, List.append_nil]; exact G.pushes_nodup
  · simp only [pushes_append, pushes, List.append_nil]; exact G.pushes_ph
  · simp only [pushes_append, pushes, List.append_nil]; exact G.pushes_src
  · simp only [reclaims_append, reclaims, List.append_nil]; exact G.reclaims_nodup
  · simp only [reclaims_append, reclaims, List.append_nil]; exact G.reclaims_ph
  · apply assigned_after_append (fun T before => ∀ p, p < r.task_count →
      T ∈ (r.tasks p).fanout → p ∈ reclaims before) _ _ G.assigned_after
    intro T' c' he
    cases he

/-- The pop of the id `T` from the ready queue of the core type of an idle worker
(lines 333-338, 355-360). -/
theorem View.Ghost.step_pop {v : View} {r : Runtime} {ph : Nat → Phase} {prog : Nat → Nat}
    (G : v.Ghost r ph prog) (wf : r.WellFormed) (t : Nat) (ht : (t : Int) < v.ex.thread_num_)
    (i T c : Nat) (hpc : (v.thr t).pc = .pop i) (v' : View) (l' : ThreadLocal)
    (hn : v'.ex.thread_num_ = v.ex.thread_num_)
    (hcn : v'.ex.thread_cores_num_ = v.ex.thread_cores_num_)
    (hca : v'.ex.core_assignments_ = v.ex.core_assignments_)
    (htasks : v'.tasks = v.tasks) (hslot : v'.slot = v.slot)
    (hthr : v'.thr = Function.update v.thr t l') (hl : l'.pc = .publish i T)
    (hlog : v'.log = v.log ++ [Event.assign T c])
    (hca0 : 0 ≤ v'.ex.ready_count_aic_) (hcv0 : 0 ≤ v'.ex.ready_count_aiv_)
    (hq : (queueList v.ex.ready_queue_aic_ v.ex.ready_count_aic_ =
          queueList v'.ex.ready_queue_aic_ v'.ex.ready_count_aic_ ++ [T] ∧
        queueList v'.ex.ready_queue_aiv_ v'.ex.ready_count_aiv_ =
          queueList v.ex.ready_queue_aiv_ v.ex.ready_count_aiv_) ∨
      (queueList v'.ex.ready_queue_aic_ v'.ex.ready_count_aic_ =
          queueList v.ex.ready_queue_aic_ v.ex.ready_count_aic_ ∧
        queueList v.ex.ready_queue_aiv_ v.ex.ready_count_aiv_ =
          queueList v'.ex.ready_queue_aiv_ v'.ex.ready_count_aiv_ ++ [T])) :
    v'.Ghost r (Function.update ph T (.popped t)) prog := by
  have hth := G.thread t ht
  rw [hpc] at hth
  simp only [View.threadOk] at hth
  obtain ⟨hi, hslot0, hreg⟩ := hth
  have hnd := G.queue_nodup
  have hTq : T ∈ queueList v.ex.ready_queue_aic_ v.ex.ready_count_aic_ ++
      queueList v.ex.ready_queue_aiv_ v.ex.ready_count_aiv_ := by
    rcases hq with ⟨h1, h2⟩ | ⟨h1, h2⟩
    · rw [h1]; simp
    · rw [h2]; simp
  have hphT : ph T = .queued := G.queued T hTq
  have hsub : ∀ x, x ∈ queueList v'.ex.ready_queue_aic_ v'.ex.ready_count_aic_ ++
      queueList v'.ex.ready_queue_aiv_ v'.ex.ready_count_aiv_ →
      x ≠ T ∧ x ∈ queueList v.ex.ready_queue_aic_ v.ex.ready_count_aic_ ++
        queueList v.ex.ready_queue_aiv_ v.ex.ready_count_aiv_ := by
    intro x hx
    rcases hq with ⟨h1, h2⟩ | ⟨h1, h2⟩
    · rw [h1, List.append_assoc, List.singleton_append] at hnd
      have hnd' := List.nodup_middle.mp hnd
      rw [List.nodup_cons] at hnd'
      rw [h2] at hx
      refine ⟨fun e => hnd'.1 (e ▸ hx), ?_⟩
      rw [h1]
      simp only [List.mem_append, List.mem_singleton] at hx ⊢
      tauto
    · rw [h2, ← List.append_assoc] at hnd
      have hd := (List.nodup_append.mp hnd).2.2
      rw [h1] at hx
      refine ⟨fun e => hd (e ▸ hx) (List.mem_singleton.mpr rfl), ?_⟩
      rw [h2]
      simp only [List.mem_append, List.mem_singleton] at hx ⊢
      tauto
  have keep : ∀ X, ph X ≠ .queued → Function.update ph T (.popped t) X = ph X := by
    intro X hX
    apply Phase.update_ne
    rw [hphT]; exact hX
  refine
    { count_aic := hca0, count_aiv := hcv0,
      task_frame := by rw [htasks]; exact G.task_frame,
      cores_inj := by rw [hn, hcn, hca]; exact G.cores_inj,
      fanin_sum := by rw [htasks]; exact G.fanin_sum,
      queued := ?_, queue_nodup := ?_, valid := ?_, fanin_le := ?_,
      prog_pos := ?_, thread := ?_, pushes_nodup := ?_, pushes_ph := ?_, pushes_src := ?_,
      reclaims_nodup := ?_, reclaims_ph := ?_, assigned_after := ?_, queue_typed := ?_ }
  · intro x hx
    obtain ⟨h1, h2⟩ := hsub x hx
    rw [Function.update_noteq h1]
    exact G.queued x h2
  · rcases hq with ⟨h1, h2⟩ | ⟨h1, h2⟩
    · rw [h1, List.append_assoc, List.singleton_append] at hnd
      have hnd' := List.nodup_middle.mp hnd
      rw [h2]
      exact (List.nodup_cons.mp hnd').2
    · rw [h2, ← List.append_assoc] at hnd
      rw [h1]
      exact (List.nodup_append.mp hnd).1
  · intro X hX
    by_cases h : X = T
    · subst h; exact G.valid X (by rw [hphT]; simp)
    · rw [Function.update_noteq h] at hX; exact G.valid X hX
  · intro X hX
    rw [htasks]
    by_cases h : X = T
    · subst h; exact G.fanin_le X (by rw [hphT]; simp)
    · rw [Function.update_noteq h] at hX; exact G.fanin_le X hX
  · intro p hp
    have h1 := G.prog_pos p hp
    rw [keep p (by rcases h1 with ⟨t0, h1⟩ | h1 <;> rw [h1] <;> simp)]
    exact h1
  · intro t' ht'
    rw [hn] at ht'
    by_cases h : t' = t
    · subst h
      rw [hthr]
      simp only [Function.update_same, hl, View.threadOk, hcn, hca, hslot]
      refine ⟨hi, by simp, hslot0, ?_⟩
      intro i' hne hi'
      apply View.regular_mono v _ ph _ _ (by rw [hslot]) _ (hreg i' hne hi')
      intro X hX
      exact keep X (by rw [hX]; simp)
    · refine G.others t ht v' _ prog hcn hca ?_ ?_ ?_ t' ht' h
      · intro t'' h''; rw [hthr, Function.update_noteq h'']
      · intro c _; rw [hslot]
      · intro X hX
        rcases hX with hX | hX
        · have : X = T := by
            by_contra hne
            exact hX (Function.update_noteq hne _ _)
          subst this
          exact Or.inr (Or.inl hphT)
        · exact absurd rfl hX
  · rw [hlog, pushes_append]
    simp only [pushes, List.append_nil]; exact G.pushes_nodup
  · rw [hlog, pushes_append]
    simp only [pushes, List.append_nil]
    intro X hX
    have := G.pushes_ph X hX
    by_cases h : X = T
    · subst h; simp
    · rw [Function.update_noteq h]; exact this
  · rw [hlog, pushes_append]
    simp only [pushes, List.append_nil]; exact G.pushes_src
  · rw [hlog, reclaims_append]
    simp only [reclaims, List.append_nil]; exact G.reclaims_nodup
  · intro X
    rw [hlog, reclaims_append]
    simp only [reclaims, List.append_nil]
    rw [G.reclaims_ph X]
    by_cases h : X = T
    · subst h; rw [hphT]; simp
    · rw [Function.update_noteq h]
  · rw [hlog]
    apply assigned_after_append (fun T before => ∀ p, p < r.task_count →
      T ∈ (r.tasks p).fanout → p ∈ reclaims before) _ _ G.assigned_after
    intro T' c' he
    injection he with he1 he2
    subst he1
    exact G.preds_reclaimed wf T (by rw [hphT]; simp)
  · rcases hq with ⟨h1, h2⟩ | ⟨h1, h2⟩
    · refine ⟨?_, by rw [h2]; exact G.queue_typed.2⟩
      intro x hx
      exact G.queue_typed.1 x (by rw [h1]; exact List.mem_append_left _ hx)
    · refine ⟨by rw [h1]; exact G.queue_typed.1, ?_⟩
      intro x hx
      exact G.queue_typed.2 x (by rw [h2]; exact List.mem_append_left _ hx)

theorem slot_update (w : Nat → Handshake) (c : Nat) (h : Handshake) :
    (fun c' => (Function.update w c h c').task) =
      Function.update (fun c' => (w c').task) c h.task := by
  funext c'
  by_cases e : c' = c
  · subst e; simp
  · simp [Function.update_noteq e]

theorem slot_update_same (w : Nat → Handshake) (c : Nat) (h : Handshake)
    (hs : h.task = (w c).task) :
    (fun c' => (Function.update w c h c').task) = fun c' => (w c').task := by
  rw [slot_update, hs]
  funext c'
  by_cases e : c' = c
  · subst e; simp
  · simp [Function.update_noteq e]

/-- The invariant is kept by every step of a scheduler thread. -/
theorem Sys.inv_schedStep (r : Runtime) (wf : r.WellFormed) (s : Sys) (t : Nat)
    (ht : (t : Int) < s.ex.thread_num_) (h : s.Inv r) : (s.schedStep t).Inv r := by
  obtain ⟨ph, prog, G⟩ := h
  have hth := G.thread t ht
  have hv : (s.view.thr t).pc = (s.thr t).pc := rfl
  cases hpc : (s.thr t).pc with
  | loopHead =>
      rw [hv, hpc] at hth
      simp only [View.threadOk] at hth
      simp only [Sys.schedStep, hpc]
      split_ifs
      · exact ⟨ph, prog, G.step_pc t _ (by simpa [View.threadOk] using hth)⟩
      · exact ⟨ph, prog, G.step_pc t _ (by simpa [View.threadOk] using hth)⟩
  | phaseA i =>
      rw [hv, hpc] at hth
      simp only [View.threadOk] at hth
      simp only [Sys.schedStep, hpc]
      split_ifs with h1 h2
      · exact ⟨_, prog, G.step_reclaim t ht i hpc h1 h2.2 _ rfl⟩
      · exact ⟨ph, prog, G.step_pc t _ (by simpa [View.threadOk] using hth)⟩
      · exact ⟨ph, prog, G.step_pc t _ (by simpa [View.threadOk] using hth)⟩
  | fanout i T j =>
      rw [hv, hpc] at hth
      simp only [View.threadOk] at hth
      simp only [Sys.schedStep, hpc]
      cases hd : (s.rt.tasks T).fanout.get? j with
      | none =>
          simp only []
          exact ⟨ph, prog, G.step_pc t _
            (by simp only [View.threadOk]; exact ⟨hth.1, hth.2.1, hth.2.2.1, hth.2.2.2.2⟩)⟩
      | some d =>
          simp only []
          split_ifs with h1
          · refine ⟨Function.update ph d (.pending t), Function.update prog T (j + 1),
              G.step_fetch wf t ht i T j d hpc hd _ ?_ ?_ ?_ _ _ (Or.inl ⟨h1, rfl, ?_⟩)⟩ <;> rfl
          · refine ⟨ph, Function.update prog T (j + 1),
              G.step_fetch wf t ht i T j d hpc hd _ ?_ ?_ ?_ _ _ (Or.inr ⟨h1, rfl, ?_⟩)⟩ <;> rfl
  | push i T j d =>
      simp only [Sys.schedStep, hpc, Sys.pushReady]
      split_ifs with h1
      · refine ⟨Function.update ph d .queued, prog,
          G.step_push t ht i T j d hpc _ _ rfl rfl rfl rfl rfl rfl rfl rfl ?_ G.count_aiv
            (Or.inl ⟨?_, ?_, rfl⟩)⟩
        · have := G.count_aic
          show 0 ≤ s.ex.ready_count_aic_ + 1
          have h0 : 0 ≤ s.ex.ready_count_aic_ := this
          omega
        · rw [← (G.task_frame d).2]; exact h1
        · exact queueList_push _ _ _ G.count_aic
      · refine ⟨Function.update ph d .queued, prog,
          G.step_push t ht i T j d hpc _ _ rfl rfl rfl rfl rfl rfl rfl rfl G.count_aic ?_
            (Or.inr ⟨?_, rfl, ?_⟩)⟩
        · have h0 : 0 ≤ s.ex.ready_count_aiv_ := G.count_aiv
          show 0 ≤ s.ex.ready_count_aiv_ + 1
          omega
        · rw [← (G.task_frame d).2]; exact h1
        · exact queueList_push _ _ _ G.count_aiv
  | clear i T =>
      simp only [Sys.schedStep, hpc]
      refine ⟨ph, prog, ?_⟩
      show View.Ghost ⟨s.ex, s.rt.tasks, fun c' => (Function.update s.rt.workers _ _ c').task,
        _, s.log⟩ r ph prog
      rw [slot_update]
      exact G.step_clear t ht i T hpc _ rfl
  | count i T =>
      simp only [Sys.schedStep, hpc]
      exact ⟨_, prog, G.step_count t ht i T hpc _ rfl _⟩
  | backPressure =>
      rw [hv, hpc] at hth
      simp only [View.threadOk] at hth
      simp only [Sys.schedStep, hpc]
      split_ifs
      · exact ⟨ph, prog, G.step_pc t _ (by simpa [View.threadOk] using hth)⟩
      · exact ⟨ph, prog, G.step_pc t _ (by simpa [View.threadOk] using hth)⟩
  | phaseB i =>
      rw [hv, hpc] at hth
      simp only [View.threadOk] at hth
      simp only [Sys.schedStep, hpc]
      split_ifs with h1 h2
      · exact ⟨ph, prog, G.step_pc t _
          (by simp only [View.threadOk]; exact ⟨h1, h2.2, fun i' _ hi' => hth i' hi'⟩)⟩
      · exact ⟨ph, prog, G.step_pc t _ (by simpa [View.threadOk] using hth)⟩
      · exact ⟨ph, prog, G.step_pc t _ (by simpa [View.threadOk] using hth)⟩
  | pop i =>
      rw [hv, hpc] at hth
      simp only [View.threadOk] at hth
      have hreg : ∀ i' : Nat, (i' : Int) < s.view.ex.thread_cores_num_ →
          s.view.regular ph (s.view.ex.core_assignments_ t i').toNat := by
        intro i' hi'
        by_cases e : i' = i
        · subst e; exact Or.inl hth.2.1
        · exact hth.2.2 i' e hi'
      simp only [Sys.schedStep, hpc, Sys.popReady]
      split_ifs with h1 h2 h3 h4
      · refine ⟨_, prog,
          G.step_pop wf t ht i _ _ hpc _ _ rfl rfl rfl rfl rfl rfl rfl rfl ?_ G.count_aiv
            (Or.inl ⟨?_, rfl⟩)⟩
        · show 0 ≤ s.ex.ready_count_aic_ - 1
          omega
        · exact queueList_pop _ _ h2
      · exact ⟨ph, prog, G.step_pc t _ (by simpa [View.threadOk] using hreg)⟩
      · refine ⟨_, prog,
          G.step_pop wf t ht i _ _ hpc _ _ rfl rfl rfl rfl rfl rfl rfl rfl G.count_aic ?_
            (Or.inr ⟨rfl, ?_⟩)⟩
        · show 0 ≤ s.ex.ready_count_aiv_ - 1
          omega
        · exact queueList_pop _ _ h4
      · exact ⟨ph, prog, G.step_pc t _ (by simpa [View.threadOk] using hreg)⟩
      · exact ⟨ph, prog, G.step_pc t _ (by simpa [View.threadOk] using hreg)⟩
  | publish i T =>
      simp only [Sys.schedStep, hpc]
      refine ⟨Function.update ph T (.inSlot (s.view.ex.core_assignments_ t i).toNat), prog, ?_⟩
      show View.Ghost ⟨s.ex, s.rt.tasks, fun c' => (Function.update s.rt.workers _ _ c').task,
        _, s.log⟩ r _ prog
      rw [slot_update]
      exact G.step_publish t ht i T hpc _ rfl
  | busy i =>
      rw [hv, hpc] at hth
      simp only [View.threadOk] at hth
      simp only [Sys.schedStep, hpc]
      refine ⟨ph, prog, ?_⟩
      show View.Ghost ⟨s.ex, s.rt.tasks, fun c' => (Function.update s.rt.workers _ _ c').task,
        _, s.log⟩ r ph prog
      rw [slot_update_same]
      · exact G.step_pc t _ (by simpa [View.threadOk] using hth)
      · rfl
  | done =>
      simp only [Sys.schedStep, hpc]
      exact ⟨ph, prog, G⟩

/-- The invariant is kept by every step of a worker. -/
theorem Sys.inv_workerStep (r : Runtime) (s : Sys) (c : Nat) (h : s.Inv r) :
    (s.workerStep c).Inv r := by
  obtain ⟨ph, prog, G⟩ := h
  cases hw : s.wrk c with
  | poll =>
      simp only [Sys.workerStep, hw]
      split_ifs
      · exact ⟨ph, prog, G⟩
      · exact ⟨ph, prog, G⟩
      · exact ⟨ph, prog, G⟩
  | exec p =>
      simp only [Sys.workerStep, hw, Sys.execute_task]
      split_ifs
      · exact ⟨ph, prog, G⟩
      · exact ⟨ph, prog, G⟩
      · exact ⟨ph, prog, G.step_kernel _ _⟩
  | post =>
      simp only [Sys.workerStep, hw]
      refine ⟨ph, prog, ?_⟩
      show View.Ghost ⟨s.ex, s.rt.tasks, fun c' => (Function.update s.rt.workers _ _ c').task,
        _, s.log⟩ r ph prog
      rw [slot_update_same]
      · exact G
      · rfl
  | exited =>
      simp only [Sys.workerStep, hw]
      exact ⟨ph, prog, G⟩

/-- The invariant is kept by every step. -/
theorem Sys.inv_step (r : Runtime) (wf : r.WellFormed) (s : Sys) (a : Action) (h : s.Inv r) :
    (s.step a).Inv r := by
  cases a with
  | sched t =>
      simp only [Sys.step]
      split_ifs with ht
      · exact Sys.inv_schedStep r wf s t ht h
      · exact h
  | worker c =>
      simp only [Sys.step]
      split_ifs
      · exact Sys.inv_workerStep r s c h
      · exact h

/-- The invariant holds after every schedule. -/
theorem Sys.inv_run (r : Runtime) (wf : r.WellFormed) (schedule : List Action) (s : Sys)
    (h : s.Inv r) : (s.run schedule).Inv r := by
  induction schedule generalizing s with
  | nil => exact h
  | cons a l ih => exact ih (s.step a) (Sys.inv_step r wf s a h)

/-! ## The invariant holds when the dispatch loop starts -/

theorem range_map_push (q : Nat → Nat) (n x : Nat) :
    (List.range (n + 1)).map (Function.update q n x) = (List.range n).map q ++ [x] := by
  simp only [List.range_succ, List.map_append, List.map_cons, List.map_nil,
    Function.update_same]
  congr 1
  apply List.map_congr_left
  intro a ha
  have : a ≠ n := by
    have := List.mem_range.mp ha
    omega
  rw [Function.update_noteq this]

/-- `Init` seeds the compute queue with the initially ready ids of `core_type` `0` and the
vector queue with the others, each in the order of `get_initial_ready_tasks`. -/
theorem seed_foldl (tasks : Nat → Task) (l : List Nat) (s : Seed) :
    (List.range (l.foldl (seedOne tasks) s).aic_count).map (l.foldl (seedOne tasks) s).queue_aic
        = (List.range s.aic_count).map s.queue_aic ++
          l.filter (fun id => decide ((tasks id).core_type = 0)) ∧
    (List.range (l.foldl (seedOne tasks) s).aiv_count).map (l.foldl (seedOne tasks) s).queue_aiv
        = (List.range s.aiv_count).map s.queue_aiv ++
          l.filter (fun id => !decide ((tasks id).core_type = 0)) := by
  induction l generalizing s with
  | nil => simp
  | cons id l ih =>
      simp only [List.foldl_cons]
      obtain ⟨h1, h2⟩ := ih (seedOne tasks s id)
      rw [h1, h2]
      by_cases h : (tasks id).core_type = 0
      · simp [seedOne, h, range_map_push]
      · simp [seedOne, h, range_map_push]

theorem seedQueues_lists (tasks : Nat → Task) (l : List Nat) (qa qv : Nat → Nat) :
    queueList (seedQueues tasks l qa qv).queue_aic ((seedQueues tasks l qa qv).aic_count : Int)
        = l.filter (fun id => decide ((tasks id).core_type = 0)) ∧
    queueList (seedQueues tasks l qa qv).queue_aiv ((seedQueues tasks l qa qv).aiv_count : Int)
        = l.filter (fun id => !decide ((tasks id).core_type = 0)) := by
  have := seed_foldl tasks l ⟨qa, 0, qv, 0⟩
  simpa [queueList, seedQueues] using this

theorem sumUpTo_zero (n : Nat) : sumUpTo (fun _ => 0) n = 0 := by
  induction n with
  | zero => rfl
  | succ n ih => simp [sumUpTo, ih]

theorem pushes_map_push (l : List Nat) : pushes (l.map Event.push) = l := by
  induction l with
  | nil => rfl
  | cons a l ih => simp [pushes, ih]

theorem reclaims_map_push (l : List Nat) : reclaims (l.map Event.push) = [] := by
  induction l with
  | nil => rfl
  | cons a l ih => simp [reclaims, ih]

/-- The invariant holds in the state in which the dispatch loop starts. -/
theorem Sys.inv_init (e : AicpuExecutor) (r : Runtime) (wf : r.WellFormed)
    (hfirst : e.initialized_ = false) (hk : e.blockdim_cores_num_ = 3)
    (hov : -2147483648 ≤ 3 * r.block_dim ∧ 3 * r.block_dim ≤ 2147483647)
    (hok : (e.Init (some r)).1 = 0) : (Sys.init e r).Inv r := by
  obtain ⟨-, hrange, hinj, -⟩ := Init_partition e r hfirst hk hov hok
  obtain ⟨-, -, -, heq⟩ := Init_ok e r hfirst hok
  have hqa : (e.Init (some r)).2.ready_queue_aic_ =
      (seedQueues r.tasks r.initial_ready e.ready_queue_aic_ e.ready_queue_aiv_).queue_aic := by
    rw [heq]
  have hqv : (e.Init (some r)).2.ready_queue_aiv_ =
      (seedQueues r.tasks r.initial_ready e.ready_queue_aic_ e.ready_queue_aiv_).queue_aiv := by
    rw [heq]
  have hca : (e.Init (some r)).2.ready_count_aic_ =
      ((seedQueues r.tasks r.initial_ready e.ready_queue_aic_ e.ready_queue_aiv_).aic_count :
        Int) := by
    rw [heq]
  have hcv : (e.Init (some r)).2.ready_count_aiv_ =
      ((seedQueues r.tasks r.initial_ready e.ready_queue_aic_ e.ready_queue_aiv_).aiv_count :
        Int) := by
    rw [heq]
  obtain ⟨hla, hlv⟩ :=
    seedQueues_lists r.tasks r.initial_ready e.ready_queue_aic_ e.ready_queue_aiv_
  have hperm : (r.initial_ready.filter (fun id => decide ((r.tasks id).core_type = 0)) ++
      r.initial_ready.filter (fun id => !decide ((r.tasks id).core_type = 0))).Perm
      r.initial_ready := List.filter_append_perm _ _
  refine ⟨fun T => if T ∈ r.initial_ready then .queued else .waiting, fun _ => 0, ?_⟩
  refine
    { task_frame := fun T => ⟨rfl, rfl⟩, cores_inj := ?_, count_aic := ?_, count_aiv := ?_,
      queued := ?_, queue_nodup := ?_, valid := ?_, fanin_le := ?_, fanin_sum := ?_,
      prog_pos := ?_, thread := ?_, pushes_nodup := ?_, pushes_ph := ?_, pushes_src := ?_,
      reclaims_nodup := ?_, reclaims_ph := ?_, assigned_after := ?_, queue_typed := ?_ }
  · intro t i t' i' ht hi ht' hi' h
    have h1 := (hrange t i ht hi).1
    have h2 := (hrange t' i' ht' hi').1
    apply hinj t i t' i' ht hi ht' hi'
    have e1 := Int.toNat_of_nonneg h1
    have e2 := Int.toNat_of_nonneg h2
    have h' : (((Sys.init e r).view.ex.core_assignments_ t i).toNat : Int) =
        (((Sys.init e r).view.ex.core_assignments_ t' i').toNat : Int) := by rw [h]
    exact e1.symm.trans (h'.trans e2)
  · show 0 ≤ (e.Init (some r)).2.ready_count_aic_
    rw [hca]; exact Int.natCast_nonneg _
  · show 0 ≤ (e.Init (some r)).2.ready_count_aiv_
    rw [hcv]; exact Int.natCast_nonneg _
  · intro x hx
    have hx' : x ∈ queueList (e.Init (some r)).2.ready_queue_aic_
        (e.Init (some r)).2.ready_count_aic_ ++
        queueList (e.Init (some r)).2.ready_queue_aiv_ (e.Init (some r)).2.ready_count_aiv_ := hx
    rw [hqa, hqv, hca, hcv, hla, hlv] at hx'
    have := hperm.mem_iff.mp hx'
    simp [this]
  · show (queueList (e.Init (some r)).2.ready_queue_aic_
        (e.Init (some r)).2.ready_count_aic_ ++
        queueList (e.Init (some r)).2.ready_queue_aiv_
          (e.Init (some r)).2.ready_count_aiv_).Nodup
    rw [hqa, hqv, hca, hcv, hla, hlv]
    exact hperm.nodup_iff.mpr wf.ready_nodup
  · intro T hT
    by_cases h : T ∈ r.initial_ready
    · exact (wf.ready_sound T h).1
    · simp [h] at hT
  · intro T hT
    by_cases h : T ∈ r.initial_ready
    · exact le_of_eq (wf.ready_sound T h).2
    · simp [h] at hT
  · intro T
    simp only [List.take_zero, List.count_nil, sumUpTo_zero]
    show (r.tasks T).fanin + ((0 : Nat) : Int) = (r.tasks T).fanin
    simp
  · intro p hp; exact absurd hp (lt_irrefl 0)
  · intro t _
    show View.threadOk _ r _ _ t Pc.loopHead
    simp only [View.threadOk]
    intro i' _
    exact Or.inl (wf.slots_empty _)
  · show (pushes (r.initial_ready.map Event.push)).Nodup
    rw [pushes_map_push]; exact wf.ready_nodup
  · intro T hT
    have hT' : T ∈ pushes (r.initial_ready.map Event.push) := hT
    rw [pushes_map_push] at hT'
    simp [hT']
  · intro T hT
    have hT' : T ∈ pushes (r.initial_ready.map Event.push) := hT
    rw [pushes_map_push] at hT'
    exact Or.inl hT'
  · show (reclaims (r.initial_ready.map Event.push)).Nodup
    rw [reclaims_map_push]; exact List.nodup_nil
  · intro T
    show T ∈ reclaims (r.initial_ready.map Event.push) ↔ _
    rw [reclaims_map_push]
    by_cases h : T ∈ r.initial_ready <;> simp [h]
  · intro before after T c h
    exfalso
    have h' : Event.assign T c ∈ r.initial_ready.map Event.push := by
      have h0 : (Sys.init e r).view.log = r.initial_ready.map Event.push := rfl
      rw [← h0, h]; simp
    rcases List.mem_map.mp h' with ⟨a, _, ha⟩
    cases ha
  · constructor
    · intro x hx
      have hx' : x ∈ queueList (e.Init (some r)).2.ready_queue_aic_
          (e.Init (some r)).2.ready_count_aic_ := hx
      rw [hqa, hca, hla] at hx'
      simpa using (List.mem_filter.mp hx').2
    · intro x hx
      have hx' : x ∈ queueList (e.Init (some r)).2.ready_queue_aiv_
          (e.Init (some r)).2.ready_count_aiv_ := hx
      rw [hqv, hcv, hlv] at hx'
      simpa using (List.mem_filter.mp hx').2

/-! ## The counters -/

theorem filter_update_length (f : ThreadLocal → Bool) (g : Nat → ThreadLocal) (t : Nat)
    (l' : ThreadLocal) (n : Nat) (ht : t < n) :
    (((List.range n).filter (fun x => f (Function.update g t l' x))).length : Int)
        + (if f (g t) then 1 else 0) =
      (((List.range n).filter (fun x => f (g x))).length : Int) + (if f l' then 1 else 0) := by
  induction n with
  | zero => omega
  | succ n ih =>
      simp only [List.range_succ, List.filter_append, List.length_append]
      by_cases h : t = n
      · subst h
        have e : (List.range t).filter (fun x => f (Function.update g t l' x)) =
            (List.range t).filter (fun x => f (g x)) := by
          apply List.filter_congr
          intro x hx
          have : x ≠ t := by
            have := List.mem_range.mp hx
            omega
          rw [Function.update_noteq this]
        rw [e]
        simp only [List.filter_cons, List.filter_nil, Function.update_same]
        cases f (g t) <;> cases f l' <;> simp
      · have ih' := ih (by omega)
        have e : f (Function.update g t l' n) = f (g n) := by
          rw [Function.update_noteq (Ne.symm h)]
        simp only [List.filter_cons, List.filter_nil, e]
        push_cast
        omega

theorem assigns_append (l1 l2 : List Event) : assigns (l1 ++ l2) = assigns l1 ++ assigns l2 := by
  induction l1 with
  | nil => rfl
  | cons e l ih => cases e <;> simp [assigns, ih]

/-- The counters after a step of thread `t` that leaves the new locals `l'`. -/
theorem Sys.Book.step {r : Runtime} {s : Sys} (B : s.Book r) (t : Nat)
    (ht : (t : Int) < s.ex.thread_num_) (s' : Sys) (l' : ThreadLocal)
    (hn : s'.ex.thread_num_ = s.ex.thread_num_) (htot : s'.ex.total_tasks_ = s.ex.total_tasks_)
    (hthr : s'.thr = Function.update s.thr t l')
    (hl : l'.task_count = (s.thr t).task_count)
    (hw : ∀ c, (s'.rt.workers c).core_type = (s.rt.workers c).core_type)
    (hcount : s'.ex.completed_tasks_ + (if l'.pc.inReclaim then 1 else 0)
        + ((reclaims s.log).length : Int) =
      s.ex.completed_tasks_ + (if (s.thr t).pc.inReclaim then 1 else 0)
        + ((reclaims s'.log).length : Int))
    (hmono : s.ex.completed_tasks_ ≤ s'.ex.completed_tasks_)
    (hdone : l'.pc = .done → (r.task_count : Int) ≤ s'.ex.completed_tasks_)
    (hcur : l'.cur_thread_completed - (s.thr t).cur_thread_completed =
      s'.ex.completed_tasks_ - s.ex.completed_tasks_)
    (hassign : ∀ p ∈ assigns s'.log, p ∈ assigns s.log ∨
      (p.1 < r.task_count ∧
        (((r.tasks p.1).core_type = 0 ∧ (r.workers p.2).core_type = 0) ∨
          ((r.tasks p.1).core_type ≠ 0 ∧ (r.workers p.2).core_type = 1)))) :
    s'.Book r := by
  have htn : t < s.ex.thread_num_.toNat := by omega
  refine
    { total := htot.trans B.total, task_count := ?_, count_eq := ?_, done_le := ?_,
      single := ?_, worker_type := fun c => (hw c).trans (B.worker_type c),
      assigned_typed := ?_ }
  · intro t'
    rw [hthr]
    by_cases h : t' = t
    · subst h; rw [Function.update_same, hl]; exact B.task_count t'
    · rw [Function.update_noteq h]; exact B.task_count t'
  · have h1 := B.count_eq
    have h2 := filter_update_length (fun l => l.pc.inReclaim) s.thr t l' _ htn
    dsimp only at h2
    simp only [Sys.reclaiming, hn, hthr] at h1 ⊢
    omega
  · intro t' ht' hd
    rw [hthr] at hd
    by_cases h : t' = t
    · subst h
      rw [Function.update_same] at hd
      exact hdone hd
    · rw [Function.update_noteq h] at hd
      rw [hn] at ht'
      exact le_trans (B.done_le t' ht' hd) hmono
  · intro h1
    rw [hn] at h1
    have ht0 : t = 0 := by omega
    subst ht0
    have := B.single h1
    rw [hthr, Function.update_same]
    omega
  · intro p hp
    rcases hassign p hp with h | h
    · exact B.assigned_typed p h
    · exact h

theorem core_type_update (w : Nat → Handshake) (c : Nat) (h : Handshake)
    (hs : h.core_type = (w c).core_type) (c' : Nat) :
    (Function.update w c h c').core_type = (w c').core_type := by
  by_cases e : c' = c
  · subst e; simp [hs]
  · simp [Function.update_noteq e]

/-- The counters are kept by every step of a scheduler thread. -/
theorem Sys.book_schedStep (r : Runtime) (s : Sys) (t : Nat) (ht : (t : Int) < s.ex.thread_num_) (hI : s.Inv r) (B : s.Book r) :
    (s.schedStep t).Book r := by
  obtain ⟨ph, prog, G⟩ := hI
  have htc := B.task_count t
  have keep : ∀ p ∈ assigns s.log, p ∈ assigns s.log ∨
      (p.1 < r.task_count ∧
        (((r.tasks p.1).core_type = 0 ∧ (r.workers p.2).core_type = 0) ∨
          ((r.tasks p.1).core_type ≠ 0 ∧ (r.workers p.2).core_type = 1))) :=
    fun p hp => Or.inl hp
  cases hpc : (s.thr t).pc with
  | loopHead =>
      simp only [Sys.schedStep, hpc]
      split_ifs with h1
      · refine B.step t ht _ _ rfl rfl rfl rfl (fun c => rfl) ?_ (le_refl _) ?_ ?_ keep
        · simp [hpc, Pc.inReclaim, Sys.setPc]
        · intro h; cases h
        · simp [Sys.setPc]
      · refine B.step t ht _ _ rfl rfl rfl rfl (fun c => rfl) ?_ (le_refl _) ?_ ?_ keep
        · simp [hpc, Pc.inReclaim, Sys.setPc]
        · intro _
          show (r.task_count : Int) ≤ s.ex.completed_tasks_
          omega
        · simp [Sys.setPc]
  | phaseA i =>
      simp only [Sys.schedStep, hpc]
      split_ifs with h1 h2
      · refine B.step t ht _ _ rfl rfl rfl rfl (fun c => rfl) ?_ (le_refl _) ?_ ?_ ?_
        · simp [hpc, Pc.inReclaim, Sys.setPc, reclaims_append, reclaims]
          omega
        · intro h; cases h
        · simp [Sys.setPc]
        · simpa [Sys.setPc, assigns_append, assigns] using keep
      · refine B.step t ht _ _ rfl rfl rfl rfl (fun c => rfl) ?_ (le_refl _) ?_ ?_ keep
        · simp [hpc, Pc.inReclaim, Sys.setPc]
        · intro h; cases h
        · simp [Sys.setPc]
      · refine B.step t ht _ _ rfl rfl rfl rfl (fun c => rfl) ?_ (le_refl _) ?_ ?_ keep
        · simp [hpc, Pc.inReclaim, Sys.setPc]
        · intro h; cases h
        · simp [Sys.setPc]
  | fanout i T j =>
      simp only [Sys.schedStep, hpc]
      cases hd : (s.rt.tasks T).fanout.get? j with
      | none =>
          simp only []
          refine B.step t ht _ _ rfl rfl rfl rfl (fun c => rfl) ?_ (le_refl _) ?_ ?_ keep
          · simp [hpc, Pc.inReclaim, Sys.setPc]
          · intro h; cases h
          · simp [Sys.setPc]
      | some d =>
          simp only []
          split_ifs with h1
          · refine B.step t ht _ _ rfl rfl rfl rfl (fun c => rfl) ?_ (le_refl _) ?_ ?_ keep
            · simp [hpc, Pc.inReclaim, Sys.setPc, Sys.fetchSubFanin]
            · intro h; cases h
            · simp [Sys.setPc, Sys.fetchSubFanin]
          · refine B.step t ht _ _ rfl rfl rfl rfl (fun c => rfl) ?_ (le_refl _) ?_ ?_ keep
            · simp [hpc, Pc.inReclaim, Sys.setPc, Sys.fetchSubFanin]
            · intro h; cases h
            · simp [Sys.setPc, Sys.fetchSubFanin]
  | push i T j d =>
      simp only [Sys.schedStep, hpc, Sys.pushReady]
      split_ifs with h1
      · refine B.step t ht _ _ rfl rfl rfl rfl (fun c => rfl) ?_ (le_refl _) ?_ ?_ ?_
        · simp [hpc, Pc.inReclaim, Sys.setPc, reclaims_append, reclaims]
        · intro h; cases h
        · simp [Sys.setPc]
        · simpa [Sys.setPc, assigns_append, assigns] using keep
      · refine B.step t ht _ _ rfl rfl rfl rfl (fun c => rfl) ?_ (le_refl _) ?_ ?_ ?_
        · simp [hpc, Pc.inReclaim, Sys.setPc, reclaims_append, reclaims]
        · intro h; cases h
        · simp [Sys.setPc]
        · simpa [Sys.setPc, assigns_append, assigns] using keep
  | clear i T =>
      simp only [Sys.schedStep, hpc]
      refine B.step t ht _ _ rfl rfl rfl rfl (fun c => by apply core_type_update; rfl) ?_
        (le_refl _) ?_ ?_ keep
      · simp [hpc, Pc.inReclaim, Sys.setHank]
      · intro h; cases h
      · simp [Sys.setHank]
  | count i T =>
      simp only [Sys.schedStep, hpc]
      refine B.step t ht _ _ rfl rfl rfl rfl (fun c => rfl) ?_ ?_ ?_ ?_ keep
      · simp [hpc, Pc.inReclaim]
      · show s.ex.completed_tasks_ ≤ s.ex.completed_tasks_ + 1
        omega
      · intro h; cases h
      · simp
  | backPressure =>
      simp only [Sys.schedStep, hpc]
      split_ifs with h1
      · refine B.step t ht _ _ rfl rfl rfl rfl (fun c => rfl) ?_ (le_refl _) ?_ ?_ keep
        · simp [hpc, Pc.inReclaim, Sys.setPc]
        · intro h; cases h
        · simp [Sys.setPc]
      · refine B.step t ht _ _ rfl rfl rfl rfl (fun c => rfl) ?_ (le_refl _) ?_ ?_ keep
        · simp [hpc, Pc.inReclaim, Sys.setPc]
        · intro h; cases h
        · simp [Sys.setPc]
  | phaseB i =>
      simp only [Sys.schedStep, hpc]
      split_ifs with h1 h2
      · refine B.step t ht _ _ rfl rfl rfl rfl (fun c => rfl) ?_ (le_refl _) ?_ ?_ keep
        · simp [hpc, Pc.inReclaim, Sys.setPc]
        · intro h; cases h
        · simp [Sys.setPc]
      · refine B.step t ht _ _ rfl rfl rfl rfl (fun c => rfl) ?_ (le_refl _) ?_ ?_ keep
        · simp [hpc, Pc.inReclaim, Sys.setPc]
        · intro h; cases h
        · simp [Sys.setPc]
      · refine B.step t ht _ _ rfl rfl rfl rfl (fun c => rfl) ?_ (le_refl _) ?_ ?_ keep
        · simp [hpc, Pc.inReclaim, Sys.setPc]
        · intro h; cases h
        · simp [Sys.setPc]
  | pop i =>
      simp only [Sys.schedStep, hpc, Sys.popReady]
      split_ifs with h1 h2 h3 h4
      · refine B.step t ht _ _ rfl rfl rfl rfl (fun c => rfl) ?_ (le_refl _) ?_ ?_ ?_
        · simp [hpc, Pc.inReclaim, Sys.setPc, reclaims_append, reclaims]
        · intro h; cases h
        · simp [Sys.setPc]
        · intro p hp
          simp only [Sys.setPc, assigns_append, assigns, List.mem_append,
            List.mem_singleton] at hp
          rcases hp with hp | hp
          · exact Or.inl hp
          · subst hp
            right
            have hw : (r.workers (s.coreOf t i)).core_type = 0 := by
              rw [← B.worker_type]; exact h1
            have hmem : s.ex.ready_queue_aic_ (s.ex.ready_count_aic_ - 1).toNat ∈
                queueList s.ex.ready_queue_aic_ s.ex.ready_count_aic_ := by
              rw [queueList_pop _ _ h2]; simp
            have hlt := G.valid _ (by
              rw [G.queued _ (List.mem_append_left _ hmem)]; simp)
            exact ⟨hlt, Or.inl ⟨G.queue_typed.1 _ hmem, hw⟩⟩
      · refine B.step t ht _ _ rfl rfl rfl rfl (fun c => rfl) ?_ (le_refl _) ?_ ?_ keep
        · simp [hpc, Pc.inReclaim, Sys.setPc]
        · intro h; cases h
        · simp [Sys.setPc]
      · refine B.step t ht _ _ rfl rfl rfl rfl (fun c => rfl) ?_ (le_refl _) ?_ ?_ ?_
        · simp [hpc, Pc.inReclaim, Sys.setPc, reclaims_append, reclaims]
        · intro h; cases h
        · simp [Sys.setPc]
        · intro p hp
          simp only [Sys.setPc, assigns_append, assigns, List.mem_append,
            List.mem_singleton] at hp
          rcases hp with hp | hp
          · exact Or.inl hp
          · subst hp
            right
            have hw : (r.workers (s.coreOf t i)).core_type = 1 := by
              rw [← B.worker_type]; exact h3
            have hmem : s.ex.ready_queue_aiv_ (s.ex.ready_count_aiv_ - 1).toNat ∈
                queueList s.ex.ready_queue_aiv_ s.ex.ready_count_aiv_ := by
              rw [queueList_pop _ _ h4]; simp
            have hne := G.queue_typed.2 _ hmem
            have hlt := G.valid _ (by
              rw [G.queued _ (List.mem_append_right _ hmem)]; simp)
            exact ⟨hlt, Or.inr ⟨hne, hw⟩⟩
      · refine B.step t ht _ _ rfl rfl rfl rfl (fun c => rfl) ?_ (le_refl _) ?_ ?_ keep
        · simp [hpc, Pc.inReclaim, Sys.setPc]
        · intro h; cases h
        · simp [Sys.setPc]
      · refine B.step t ht _ _ rfl rfl rfl rfl (fun c => rfl) ?_ (le_refl _) ?_ ?_ keep
        · simp [hpc, Pc.inReclaim, Sys.setPc]
        · intro h; cases h
        · simp [Sys.setPc]
  | publish i T =>
      simp only [Sys.schedStep, hpc]
      refine B.step t ht _ _ rfl rfl rfl rfl (fun c => by apply core_type_update; rfl) ?_
        (le_refl _) ?_ ?_ keep
      · simp [hpc, Pc.inReclaim, Sys.setPc, Sys.setHank]
      · intro h; cases h
      · simp [Sys.setPc, Sys.setHank]
  | busy i =>
      simp only [Sys.schedStep, hpc]
      refine B.step t ht _ _ rfl rfl rfl rfl (fun c => by apply core_type_update; rfl) ?_
        (le_refl _) ?_ ?_ keep
      · simp [hpc, Pc.inReclaim, Sys.setHank]
      · intro h; cases h
      · simp [Sys.setHank]
  | done =>
      simp only [Sys.schedStep, hpc]
      exact B

theorem Sys.Book.congr {r : Runtime} {s : Sys} (B : s.Book r) (s' : Sys)
    (hex : s'.ex = s.ex) (hthr : s'.thr = s.thr)
    (hrec : reclaims s'.log = reclaims s.log) (hasg : assigns s'.log = assigns s.log)
    (hw : ∀ c, (s'.rt.workers c).core_type = (s.rt.workers c).core_type) : s'.Book r := by
  refine
    { total := by rw [hex]; exact B.total,
      task_count := by rw [hthr]; exact B.task_count,
      count_eq := ?_,
      done_le := by rw [hex, hthr]; exact B.done_le,
      single := by rw [hex, hthr]; exact B.single,
      worker_type := fun c => (hw c).trans (B.worker_type c),
      assigned_typed := by rw [hasg]; exact B.assigned_typed }
  have := B.count_eq
  simp only [Sys.reclaiming, hex, hthr, hrec] at this ⊢
  exact this

/-- The counters are kept by every step of a worker. -/
theorem Sys.book_workerStep (r : Runtime) (s : Sys) (c : Nat) (B : s.Book r) :
    (s.workerStep c).Book r := by
  cases hw : s.wrk c with
  | poll =>
      simp only [Sys.workerStep, hw]
      split_ifs
      · exact B.congr _ rfl rfl rfl rfl (fun _ => rfl)
      · exact B.congr _ rfl rfl rfl rfl (fun _ => rfl)
      · exact B
  | exec p =>
      simp only [Sys.workerStep, hw, Sys.execute_task]
      split_ifs
      · exact B.congr _ rfl rfl rfl rfl (fun _ => rfl)
      · exact B.congr _ rfl rfl rfl rfl (fun _ => rfl)
      · refine B.congr _ rfl rfl ?_ ?_ (fun _ => rfl)
        · simp [reclaims_append, reclaims]
        · simp [assigns_append, assigns]
  | post =>
      simp only [Sys.workerStep, hw]
      exact B.congr _ rfl rfl rfl rfl (fun c' => by apply core_type_update; rfl)
  | exited =>
      simp only [Sys.workerStep, hw]
      exact B

theorem assigns_map_push (l : List Nat) : assigns (l.map Event.push) = [] := by
  induction l with
  | nil => rfl
  | cons a l ih => simp [assigns, ih]

/-- The counters when the dispatch loop starts. -/
theorem Sys.book_init (e : AicpuExecutor) (r : Runtime) (hfirst : e.initialized_ = false)
    (hok : (e.Init (some r)).1 = 0) : (Sys.init e r).Book r := by
  obtain ⟨-, -, -, heq⟩ := Init_ok e r hfirst hok
  have htot : (e.Init (some r)).2.total_tasks_ = (r.task_count : Int) := by rw [heq]
  have hcomp : (e.Init (some r)).2.completed_tasks_ = 0 := by rw [heq]
  refine
    { total := htot, task_count := fun _ => htot, count_eq := ?_, done_le := ?_,
      single := ?_, worker_type := fun _ => rfl, assigned_typed := ?_ }
  · show (e.Init (some r)).2.completed_tasks_ + ((Sys.init e r).reclaiming : Int) =
      ((reclaims (r.initial_ready.map Event.push)).length : Int)
    rw [hcomp, reclaims_map_push]
    simp [Sys.reclaiming, Sys.init, Pc.inReclaim]
  · intro t _ h
    cases h
  · intro _
    show (0 : Int) = (e.Init (some r)).2.completed_tasks_
    rw [hcomp]
  · intro p hp
    have hp' : p ∈ assigns (r.initial_ready.map Event.push) := hp
    rw [assigns_map_push] at hp'
    cases hp'

/-- The invariant and the counters hold after every schedule. -/
theorem Sys.inv_book_run (r : Runtime) (wf : r.WellFormed)
    (schedule : List Action) (s : Sys) (h : s.Inv r) (B : s.Book r) :
    (s.run schedule).Inv r ∧ (s.run schedule).Book r := by
  induction schedule generalizing s with
  | nil => exact ⟨h, B⟩
  | cons a l ih =>
      apply ih (s.step a) (Sys.inv_step r wf s a h)
      cases a with
      | sched t =>
          simp only [Sys.step]
          split_ifs with ht
          · exact Sys.book_schedStep r s t ht h B
          · exact B
      | worker c =>
          simp only [Sys.step]
          split_ifs
          · exact Sys.book_workerStep r s c B
          · exact B

/-! ## C2 - C5: what holds in every reachable state of the dispatch loop -/

/-- Every state the dispatch loop reaches from a successful `Init` on a well-formed
runtime satisfies the invariant and has consistent counters. -/
theorem Sys.reach (e : AicpuExecutor) (r : Runtime) (wf : r.WellFormed)
    (hfirst : e.initialized_ = false) (hk : e.blockdim_cores_num_ = 3)
    (hov : -2147483648 ≤ 3 * r.block_dim ∧ 3 * r.block_dim ≤ 2147483647)
    (hok : (e.Init (some r)).1 = 0) (schedule : List Action) :
    ((Sys.init e r).run schedule).Inv r ∧ ((Sys.init e r).run schedule).Book r :=
  Sys.inv_book_run r wf schedule _ (Sys.inv_init e r wf hfirst hk hov hok)
    (Sys.book_init e r hfirst hok)

theorem mem_reclaims (l : List Event) (T : Nat) :
    T ∈ reclaims l ↔ ∃ c, Event.reclaim T c ∈ l := by
  induction l with
  | nil => simp [reclaims]
  | cons e l ih =>
      cases e <;> simp [reclaims, ih]
      case reclaim T' c' =>
        constructor
        · rintro (h | ⟨c, h⟩)
          · exact ⟨c', Or.inl ⟨h, rfl⟩⟩
          · exact ⟨c, Or.inr h⟩
        · rintro ⟨c, (⟨h, _⟩ | h)⟩
          · exact Or.inl h
          · exact Or.inr ⟨c, h⟩

theorem mem_assigns (l : List Event) (T c : Nat) :
    (T, c) ∈ assigns l ↔ Event.assign T c ∈ l := by
  induction l with
  | nil => simp [assigns]
  | cons e l ih => cases e <;> simp [assigns, ih]

theorem nodup_length_le (l : List Nat) (n : Nat) (hn : l.Nodup) (hb : ∀ x ∈ l, x < n) :
    l.length ≤ n := by
  have h1 : l.toFinset ⊆ Finset.range n := by
    intro x hx
    exact Finset.mem_range.mpr (hb x (List.mem_toFinset.mp hx))
  have h2 := Finset.card_le_card h1
  rw [List.toFinset_card_of_nodup hn, Finset.card_range] at h2
  exact h2

/-- C2: in every state the dispatch loop reaches, each assignment of a task `T` in the
log is preceded, for every predecessor `p` of `T` in the graph, by the event in which
Phase A found `p` completed. -/
theorem assigned_after_predecessors (e : AicpuExecutor) (r : Runtime) (wf : r.WellFormed)
    (hfirst : e.initialized_ = false) (hk : e.blockdim_cores_num_ = 3)
    (hov : -2147483648 ≤ 3 * r.block_dim ∧ 3 * r.block_dim ≤ 2147483647)
    (hok : (e.Init (some r)).1 = 0) (schedule : List Action)
    (before after : List Event) (T c : Nat)
    (hlog : ((Sys.init e r).run schedule).log = before ++ Event.assign T c :: after)
    (p : Nat) (hp : p < r.task_count) (hpred : T ∈ (r.tasks p).fanout) :
    ∃ c', Event.reclaim p c' ∈ before := by
  obtain ⟨⟨ph, prog, G⟩, -⟩ := Sys.reach e r wf hfirst hk hov hok schedule
  exact (mem_reclaims before p).mp (G.assigned_after before after T c hlog p hp hpred)

/-- C3: in every state the dispatch loop reaches, the `fanin` of every task of the graph
is at least `0`; no id has been pushed to a ready queue twice; an id that was pushed
is either one that `Init` seeded, with initial `fanin` `0`, or one whose `fanin`
started at `1` or more and is now `0`; and a thread that saw `prev_fanin == 1` for a
successor and has not pushed it yet is the only one to push it: its `fanin` is `0` and
it is not among the pushed ids. -/
theorem fanin_nonneg_single_push (e : AicpuExecutor) (r : Runtime) (wf : r.WellFormed)
    (hfirst : e.initialized_ = false) (hk : e.blockdim_cores_num_ = 3)
    (hov : -2147483648 ≤ 3 * r.block_dim ∧ 3 * r.block_dim ≤ 2147483647)
    (hok : (e.Init (some r)).1 = 0) (schedule : List Action) :
    (∀ T, T < r.task_count → 0 ≤ (((Sys.init e r).run schedule).rt.tasks T).fanin) ∧
    (pushes ((Sys.init e r).run schedule).log).Nodup ∧
    (∀ T ∈ pushes ((Sys.init e r).run schedule).log,
      (T ∈ r.initial_ready ∧ (r.tasks T).fanin = 0) ∨
      (T ∉ r.initial_ready ∧ 1 ≤ (r.tasks T).fanin ∧
        (((Sys.init e r).run schedule).rt.tasks T).fanin = 0)) ∧
    (∀ t i T j d : Nat, (t : Int) < ((Sys.init e r).run schedule).ex.thread_num_ →
      (((Sys.init e r).run schedule).thr t).pc = .push i T j d →
      (((Sys.init e r).run schedule).rt.tasks d).fanin = 0 ∧
        d ∉ pushes ((Sys.init e r).run schedule).log) := by
  obtain ⟨⟨ph, prog, G⟩, -⟩ := Sys.reach e r wf hfirst hk hov hok schedule
  refine ⟨fun T hT => G.fanin_nonneg wf T hT, G.pushes_nodup, ?_, ?_⟩
  · intro T hT
    have h1 := (G.pushes_ph T hT).1
    by_cases hr : T ∈ r.initial_ready
    · exact Or.inl ⟨hr, (wf.ready_sound T hr).2⟩
    · right
      have h2 : 1 ≤ (r.tasks T).fanin := by
        rcases G.pushes_src T hT with h | h
        · exact absurd h hr
        · exact h
      have h3 := G.fanin_le T h1
      have h4 := G.fanin_nonneg wf T (G.valid T h1)
      exact ⟨hr, h2, le_antisymm h3 h4⟩
  · intro t i T j d ht hpc
    have hth := G.thread t ht
    have hv : (((Sys.init e r).run schedule).view.thr t).pc =
        (((Sys.init e r).run schedule).thr t).pc := rfl
    rw [hv, hpc] at hth
    simp only [View.threadOk] at hth
    obtain ⟨-, -, -, -, hd, -, -⟩ := hth
    have h1 : ph d ≠ .waiting := by rw [hd]; simp
    have h3 := G.fanin_le d h1
    have h4 := G.fanin_nonneg wf d (G.valid d h1)
    refine ⟨le_antisymm h3 h4, ?_⟩
    intro hmem
    exact (G.pushes_ph d hmem).2 t hd

/-- C4: when every task of the graph has `core_type` `0` or `1`, then in every state the
dispatch loop reaches the compute queue holds only tasks of `core_type` `0`, the vector
queue only tasks of `core_type` `1`, every assignment in the log pairs a task with a
worker of the same `core_type`, and the pop for an idle worker leaves the vector queue
alone when the worker has `core_type` `0`, the compute queue alone when it has
`core_type` `1`, and both otherwise. -/
theorem assignment_core_type (e : AicpuExecutor) (r : Runtime) (wf : r.WellFormed)
    (hct : ∀ T, T < r.task_count → (r.tasks T).core_type = 0 ∨ (r.tasks T).core_type = 1)
    (hfirst : e.initialized_ = false) (hk : e.blockdim_cores_num_ = 3)
    (hov : -2147483648 ≤ 3 * r.block_dim ∧ 3 * r.block_dim ≤ 2147483647)
    (hok : (e.Init (some r)).1 = 0) (schedule : List Action) :
    (∀ x ∈ queueList ((Sys.init e r).run schedule).ex.ready_queue_aic_
        ((Sys.init e r).run schedule).ex.ready_count_aic_,
      (((Sys.init e r).run schedule).rt.tasks x).core_type = 0) ∧
    (∀ x ∈ queueList ((Sys.init e r).run schedule).ex.ready_queue_aiv_
        ((Sys.init e r).run schedule).ex.ready_count_aiv_,
      (((Sys.init e r).run schedule).rt.tasks x).core_type = 1) ∧
    (∀ T c, Event.assign T c ∈ ((Sys.init e r).run schedule).log →
      (((Sys.init e r).run schedule).rt.tasks T).core_type =
        (((Sys.init e r).run schedule).rt.workers c).core_type) ∧
    (∀ t i : Nat, (((Sys.init e r).run schedule).thr t).pc = .pop i →
      ((((Sys.init e r).run schedule).rt.workers
          (((Sys.init e r).run schedule).coreOf t i)).core_type = 0 →
        (((Sys.init e r).run schedule).schedStep t).ex.ready_count_aiv_ =
          ((Sys.init e r).run schedule).ex.ready_count_aiv_) ∧
      ((((Sys.init e r).run schedule).rt.workers
          (((Sys.init e r).run schedule).coreOf t i)).core_type = 1 →
        (((Sys.init e r).run schedule).schedStep t).ex.ready_count_aic_ =
          ((Sys.init e r).run schedule).ex.ready_count_aic_) ∧
      ((((Sys.init e r).run schedule).rt.workers
          (((Sys.init e r).run schedule).coreOf t i)).core_type ≠ 0 →
        (((Sys.init e r).run schedule).rt.workers
          (((Sys.init e r).run schedule).coreOf t i)).core_type ≠ 1 →
        (((Sys.init e r).run schedule).schedStep t).ex.ready_count_aic_ =
          ((Sys.init e r).run schedule).ex.ready_count_aic_ ∧
        (((Sys.init e r).run schedule).schedStep t).ex.ready_count_aiv_ =
          ((Sys.init e r).run schedule).ex.ready_count_aiv_)) := by
  obtain ⟨⟨ph, prog, G⟩, B⟩ := Sys.reach e r wf hfirst hk hov hok schedule
  generalize (Sys.init e r).run schedule = s at G B ⊢
  have hfr : ∀ T, (s.rt.tasks T).core_type = (r.tasks T).core_type :=
    fun T => (G.task_frame T).2
  refine ⟨?_, ?_, ?_, ?_⟩
  · intro x hx
    rw [hfr]; exact G.queue_typed.1 x hx
  · intro x hx
    rw [hfr]
    have hne := G.queue_typed.2 x hx
    have hlt := G.valid x (by rw [G.queued x (List.mem_append_right _ hx)]; simp)
    rcases hct x hlt with h | h
    · exact absurd h hne
    · exact h
  · intro T c hmem
    obtain ⟨hlt, h⟩ := B.assigned_typed (T, c) ((mem_assigns _ T c).mpr hmem)
    rw [hfr, B.worker_type]
    rcases h with ⟨h1, h2⟩ | ⟨h1, h2⟩
    · exact h1.trans h2.symm
    · rcases hct T hlt with h | h
      · exact absurd h h1
      · exact h.trans h2.symm
  · intro t i hpc
    refine ⟨?_, ?_, ?_⟩
    · intro h0
      simp only [Sys.schedStep, hpc, Sys.popReady, h0]
      split_ifs <;> rfl
    · intro h1
      simp only [Sys.schedStep, hpc, Sys.popReady, h1]
      split_ifs <;> first | rfl | (exfalso; omega)
    · intro h0 h1
      simp only [Sys.schedStep, hpc, Sys.popReady, h0, h1]
      exact ⟨rfl, rfl⟩

/-- C5: in every state the dispatch loop reaches, no task has been found completed
twice and `completed_tasks_` plus the number of threads between the completion test and
the `fetch_add` is the number of tasks found completed; `completed_tasks_` is at most
`total_tasks_`; a thread at the test of the `while` leaves the loop with its next step
exactly when `completed_tasks_` equals `total_tasks_`, and while any thread has left
the loop the two are equal; with one scheduler thread the value it returns,
`cur_thread_completed`, is the task count of the graph. -/
theorem completed_tasks_counts (e : AicpuExecutor) (r : Runtime) (wf : r.WellFormed)
    (hfirst : e.initialized_ = false) (hk : e.blockdim_cores_num_ = 3)
    (hov : -2147483648 ≤ 3 * r.block_dim ∧ 3 * r.block_dim ≤ 2147483647)
    (hok : (e.Init (some r)).1 = 0) (schedule : List Action) :
    (reclaims ((Sys.init e r).run schedule).log).Nodup ∧
    ((Sys.init e r).run schedule).ex.completed_tasks_ +
        (((Sys.init e r).run schedule).reclaiming : Int) =
      ((reclaims ((Sys.init e r).run schedule).log).length : Int) ∧
    ((Sys.init e r).run schedule).ex.completed_tasks_ ≤
      ((Sys.init e r).run schedule).ex.total_tasks_ ∧
    (∀ t : Nat, (t : Int) < ((Sys.init e r).run schedule).ex.thread_num_ →
      (((Sys.init e r).run schedule).thr t).pc = .loopHead →
      (((((Sys.init e r).run schedule).schedStep t).thr t).pc = .done ↔
        ((Sys.init e r).run schedule).ex.completed_tasks_ =
          ((Sys.init e r).run schedule).ex.total_tasks_)) ∧
    (∀ t : Nat, (t : Int) < ((Sys.init e r).run schedule).ex.thread_num_ →
      (((Sys.init e r).run schedule).thr t).pc = .done →
      ((Sys.init e r).run schedule).ex.completed_tasks_ =
        ((Sys.init e r).run schedule).ex.total_tasks_) ∧
    (((Sys.init e r).run schedule).ex.thread_num_ = 1 →
      (((Sys.init e r).run schedule).thr 0).pc = .done →
      (((Sys.init e r).run schedule).thr 0).cur_thread_completed = (r.task_count : Int)) := by
  obtain ⟨⟨ph, prog, G⟩, B⟩ := Sys.reach e r wf hfirst hk hov hok schedule
  generalize (Sys.init e r).run schedule = s at G B ⊢
  have hle : s.ex.completed_tasks_ ≤ s.ex.total_tasks_ := by
    have h1 := B.count_eq
    have h2 : (reclaims s.log).length ≤ r.task_count := by
      apply nodup_length_le _ _ G.reclaims_nodup
      intro x hx
      apply G.valid x
      rcases (G.reclaims_ph x).mp hx with ⟨t0, h⟩ | h <;> rw [h] <;> simp
    rw [B.total]
    omega
  refine ⟨G.reclaims_nodup, B.count_eq, hle, ?_, ?_, ?_⟩
  · intro t _ hpc
    have htc := B.task_count t
    have htot := B.total
    simp only [Sys.schedStep, hpc]
    split_ifs with h1
    · simp only [Sys.setPc, Function.update_same]
      constructor
      · intro h; cases h
      · intro h; omega
    · simp only [Sys.setPc, Function.update_same]
      constructor
      · intro _; omega
      · intro _; trivial
  · intro t ht hpc
    have := B.done_le t ht hpc
    rw [B.total] at hle ⊢
    omega
  · intro h1 hpc
    have h2 := B.single h1
    have h3 := B.done_le 0 (by rw [h1]; decide) hpc
    rw [B.total] at hle
    omega

/-! ## Concrete runs -/

theorem oneTaskRuntime_wf : (oneTaskRuntime 1 1).WellFormed :=
  { fanout_valid := by decide, fanin_eq := by decide, ready_nodup := by decide,
    ready_sound := by decide, ready_complete := by decide, slots_empty := fun _ => rfl }

theorem oneTaskRegRuntime_wf : oneTaskRegRuntime.WellFormed :=
  { fanout_valid := by decide, fanin_eq := by decide, ready_nodup := by decide,
    ready_sound := by decide, ready_complete := by decide, slots_empty := fun _ => rfl }

theorem diamondRuntime_wf : diamondRuntime.WellFormed :=
  { fanout_valid := by decide!, fanin_eq := by decide!, ready_nodup := by decide!,
    ready_sound := by decide!, ready_complete := by decide!, slots_empty := fun _ => rfl }


theorem diamond_no_overflow :
    -2147483648 ≤ 3 * diamondRuntime.block_dim ∧ 3 * diamondRuntime.block_dim ≤ 2147483647 := by
  decide!

theorem diamond_init_ok : (freshExecutor.Init (some diamondRuntime)).1 = 0 := by decide!

theorem diamond_core_types : ∀ T, T < diamondRuntime.task_count →
    (diamondRuntime.tasks T).core_type = 0 ∨ (diamondRuntime.tasks T).core_type = 1 := by
  decide!


set_option maxHeartbeats 1000000 in
/-- The diamond run to the end: the log, and the thread has left the loop. -/
theorem diamond_run :
    ((Sys.init freshExecutor diamondRuntime).run diamondSchedule).log =
      [Event.push 0, Event.push 1, Event.assign 1 1, Event.assign 0 2, Event.kernel 1 1,
        Event.kernel 0 2, Event.reclaim 1 1, Event.reclaim 0 2, Event.push 2]
        ++ Event.assign 2 0 :: [Event.kernel 2 0, Event.reclaim 2 0] ∧
    ((Sys.init freshExecutor diamondRuntime).run diamondSchedule).ex.thread_num_ = 1 ∧
    (((Sys.init freshExecutor diamondRuntime).run diamondSchedule).thr 0).pc = .done := by
  decide!

/-- C1 fails on the code: for one task, one thread and one block (a well-formed runtime
that `Init` accepts), after the schedule `rerunSchedule` the worker `0` has called the
kernel of task `0` twice for its one assignment, while its `task` field still holds the
address of task `0`; and when the scheduler thread then runs on, it leaves the dispatch
loop with the kernel called twice. -/
theorem shared_memory_kernel_twice :
    (oneTaskRuntime 1 1).WellFormed ∧
    (freshExecutor.Init (some (oneTaskRuntime 1 1))).1 = 0 ∧
    assigns ((Sys.init freshExecutor (oneTaskRuntime 1 1)).run rerunSchedule).log
      = [(0, 0)] ∧
    kernelCalls 0 ((Sys.init freshExecutor (oneTaskRuntime 1 1)).run rerunSchedule).log
      = [0, 0] ∧
    (((Sys.init freshExecutor (oneTaskRuntime 1 1)).run rerunSchedule).rt.workers 0).task
      = taskAddr 0 ∧
    (((Sys.init freshExecutor (oneTaskRuntime 1 1)).run
        (rerunSchedule ++ schedSteps 30)).thr 0).pc = .done ∧
    kernelCalls 0 ((Sys.init freshExecutor (oneTaskRuntime 1 1)).run
        (rerunSchedule ++ schedSteps 30)).log = [0, 0] :=
  ⟨oneTaskRuntime_wf, by decide, by decide!, by decide!, by decide!, by decide!, by decide!⟩

/-- C6 fails on the code: in the register transport, for one task, one thread and one
block, thirty steps of the scheduler thread with no step of any worker dispatch the
task, find it completed in Phase A, count it in `completed_tasks_` and leave the
loop, while the worker `0` is still polling and no kernel has been called. -/
theorem register_reclaim_before_pickup :
    oneTaskRegRuntime.WellFormed ∧
    (freshExecutor.Init (some oneTaskRegRuntime)).1 = 0 ∧
    assigns ((RegSys.init freshExecutor oneTaskRegRuntime).run (schedSteps 30)).log
      = [(0, 0)] ∧
    reclaims ((RegSys.init freshExecutor oneTaskRegRuntime).run (schedSteps 30)).log = [0] ∧
    ((RegSys.init freshExecutor oneTaskRegRuntime).run (schedSteps 30)).ex.completed_tasks_
      = 1 ∧
    (((RegSys.init freshExecutor oneTaskRegRuntime).run (schedSteps 30)).thr 0).pc = .done ∧
    (((RegSys.init freshExecutor oneTaskRegRuntime).run (schedSteps 30)).wrk 0).pc = .poll ∧
    kernelCalls 0 ((RegSys.init freshExecutor oneTaskRegRuntime).run (schedSteps 30)).log
      = [] :=
  ⟨oneTaskRegRuntime_wf, by decide, by decide!, by decide!, by decide!, by decide!,
    by decide!, by decide!⟩

/-- C2 on the diamond: the assignment of task `2` comes after the reclaim of task `0`. -/
theorem assigned_after_predecessors_witness :
    (diamondRuntime.WellFormed ∧ freshExecutor.initialized_ = false ∧
      freshExecutor.blockdim_cores_num_ = 3 ∧
      (-2147483648 ≤ 3 * diamondRuntime.block_dim ∧
        3 * diamondRuntime.block_dim ≤ 2147483647) ∧
      (freshExecutor.Init (some diamondRuntime)).1 = 0 ∧
      ((Sys.init freshExecutor diamondRuntime).run diamondSchedule).log =
        [Event.push 0, Event.push 1, Event.assign 1 1, Event.assign 0 2, Event.kernel 1 1,
          Event.kernel 0 2, Event.reclaim 1 1, Event.reclaim 0 2, Event.push 2]
          ++ Event.assign 2 0 :: [Event.kernel 2 0, Event.reclaim 2 0] ∧
      0 < diamondRuntime.task_count ∧ 2 ∈ (diamondRuntime.tasks 0).fanout) ∧
    ∃ c', Event.reclaim 0 c' ∈
      [Event.push 0, Event.push 1, Event.assign 1 1, Event.assign 0 2, Event.kernel 1 1,
        Event.kernel 0 2, Event.reclaim 1 1, Event.reclaim 0 2, Event.push 2] :=
  ⟨⟨diamondRuntime_wf, rfl, rfl, diamond_no_overflow, diamond_init_ok, diamond_run.1,
      by decide!, by decide!⟩,
    assigned_after_predecessors freshExecutor diamondRuntime diamondRuntime_wf rfl rfl
      diamond_no_overflow diamond_init_ok diamondSchedule
      [Event.push 0, Event.push 1, Event.assign 1 1, Event.assign 0 2, Event.kernel 1 1,
        Event.kernel 0 2, Event.reclaim 1 1, Event.reclaim 0 2, Event.push 2]
      [Event.kernel 2 0, Event.reclaim 2 0] 2 0 diamond_run.1 0 (by decide!) (by decide!)⟩

/-- C3 on the diamond, run to the end. -/
theorem fanin_nonneg_single_push_witness :
    (diamondRuntime.WellFormed ∧ freshExecutor.initialized_ = false ∧
      freshExecutor.blockdim_cores_num_ = 3 ∧
      (-2147483648 ≤ 3 * diamondRuntime.block_dim ∧
        3 * diamondRuntime.block_dim ≤ 2147483647) ∧
      (freshExecutor.Init (some diamondRuntime)).1 = 0) ∧
    ((∀ T, T < diamondRuntime.task_count →
        0 ≤ (((Sys.init freshExecutor diamondRuntime).run diamondSchedule).rt.tasks T).fanin) ∧
      (pushes ((Sys.init freshExecutor diamondRuntime).run diamondSchedule).log).Nodup) :=
  ⟨⟨diamondRuntime_wf, rfl, rfl, diamond_no_overflow, diamond_init_ok⟩,
    (fanin_nonneg_single_push freshExecutor diamondRuntime diamondRuntime_wf rfl rfl
      diamond_no_overflow diamond_init_ok diamondSchedule).1,
    (fanin_nonneg_single_push freshExecutor diamondRuntime diamondRuntime_wf rfl rfl
      diamond_no_overflow diamond_init_ok diamondSchedule).2.1⟩

/-- C4 on the diamond, run to the end. -/
theorem assignment_core_type_witness :
    (diamondRuntime.WellFormed ∧
      (∀ T, T < diamondRuntime.task_count →
        (diamondRuntime.tasks T).core_type = 0 ∨ (diamondRuntime.tasks T).core_type = 1) ∧
      freshExecutor.initialized_ = false ∧ freshExecutor.blockdim_cores_num_ = 3 ∧
      (-2147483648 ≤ 3 * diamondRuntime.block_dim ∧
        3 * diamondRuntime.block_dim ≤ 2147483647) ∧
      (freshExecutor.Init (some diamondRuntime)).1 = 0) ∧
    (∀ T c, Event.assign T c ∈ ((Sys.init freshExecutor diamondRuntime).run
        diamondSchedule).log →
      (((Sys.init freshExecutor diamondRuntime).run diamondSchedule).rt.tasks T).core_type =
        (((Sys.init freshExecutor diamondRuntime).run diamondSchedule).rt.workers
          c).core_type) :=
  ⟨⟨diamondRuntime_wf, diamond_core_types, rfl, rfl, diamond_no_overflow, diamond_init_ok⟩,
    (assignment_core_type freshExecutor diamondRuntime diamondRuntime_wf diamond_core_types
      rfl rfl diamond_no_overflow diamond_init_ok diamondSchedule).2.2.1⟩

/-- C5 on the diamond, run to the end: the single scheduler thread has left the loop
and returns `3`. -/
theorem completed_tasks_counts_witness :
    (diamondRuntime.WellFormed ∧ freshExecutor.initialized_ = false ∧
      freshExecutor.blockdim_cores_num_ = 3 ∧
      (-2147483648 ≤ 3 * diamondRuntime.block_dim ∧
        3 * diamondRuntime.block_dim ≤ 2147483647) ∧
      (freshExecutor.Init (some diamondRuntime)).1 = 0 ∧
      ((Sys.init freshExecutor diamondRuntime).run diamondSchedule).ex.thread_num_ = 1 ∧
      (((Sys.init freshExecutor diamondRuntime).run diamondSchedule).thr 0).pc = .done) ∧
    (((Sys.init freshExecutor diamondRuntime).run diamondSchedule).thr 0).cur_thread_completed
      = (diamondRuntime.task_count : Int) :=
  ⟨⟨diamondRuntime_wf, rfl, rfl, diamond_no_overflow, diamond_init_ok, diamond_run.2.1,
      diamond_run.2.2⟩,
    (completed_tasks_counts freshExecutor diamondRuntime diamondRuntime_wf rfl rfl
      diamond_no_overflow diamond_init_ok diamondSchedule).2.2.2.2.2 diamond_run.2.1
      diamond_run.2.2⟩

theorem filter_length_split (l : List Nat) (p : Nat → Bool) :
    (l.filter p).length + (l.filter (fun x => !p x)).length = l.length := by
  induction l with
  | nil => rfl
  | cons a l ih =>
      cases h : p a <;> simp [List.filter_cons, h] <;> omega

theorem queueList_length (q : Nat → Nat) (n : Nat) : (queueList q (n : Int)).length = n := by
  simp [queueList]

/-- C15: after a successful `Init`, the entries `0 .. ready_count_aic_ - 1` of the compute
ready queue are the initially ready ids whose task has `core_type` `0`, in the order of
`get_initial_ready_tasks`; the entries `0 .. ready_count_aiv_ - 1` of the vector ready
queue are the other initially ready ids, in that order; the two counts are not negative
and add up to the number of initially ready tasks. -/
theorem Init_seeds_ready_queues (e : AicpuExecutor) (r : Runtime)
    (hfirst : e.initialized_ = false) (hok : (e.Init (some r)).1 = 0) :
    queueList (e.Init (some r)).2.ready_queue_aic_ (e.Init (some r)).2.ready_count_aic_
        = r.initial_ready.filter (fun id => decide ((r.tasks id).core_type = 0)) ∧
    queueList (e.Init (some r)).2.ready_queue_aiv_ (e.Init (some r)).2.ready_count_aiv_
        = r.initial_ready.filter (fun id => !decide ((r.tasks id).core_type = 0)) ∧
    0 ≤ (e.Init (some r)).2.ready_count_aic_ ∧ 0 ≤ (e.Init (some r)).2.ready_count_aiv_ ∧
    (e.Init (some r)).2.ready_count_aic_ + (e.Init (some r)).2.ready_count_aiv_
        = (r.initial_ready.length : Int) := by
  obtain ⟨-, -, -, hE⟩ := Init_ok e r hfirst hok
  rw [hE]
  dsimp only
  obtain ⟨h1, h2⟩ := seedQueues_lists r.tasks r.initial_ready e.ready_queue_aic_ e.ready_queue_aiv_
  refine ⟨h1, h2, Int.natCast_nonneg _, Int.natCast_nonneg _, ?_⟩
  have l1 := congrArg List.length h1
  have l2 := congrArg List.length h2
  rw [queueList_length] at l1 l2
  have l3 := filter_length_split r.initial_ready (fun id => decide ((r.tasks id).core_type = 0))
  rw [l1, l2]
  exact_mod_cast l3

theorem Init_seeds_ready_queues_witness :
    queueList (freshExecutor.Init (some diamondRuntime)).2.ready_queue_aic_
        (freshExecutor.Init (some diamondRuntime)).2.ready_count_aic_ = [] ∧
    queueList (freshExecutor.Init (some diamondRuntime)).2.ready_queue_aiv_
        (freshExecutor.Init (some diamondRuntime)).2.ready_count_aiv_ = [0, 1] ∧
    (freshExecutor.Init (some diamondRuntime)).2.ready_count_aic_ +
      (freshExecutor.Init (some diamondRuntime)).2.ready_count_aiv_ = 2 := by
  obtain ⟨h1, h2, -, -, h5⟩ :=
    Init_seeds_ready_queues freshExecutor diamondRuntime rfl (by decide)
  exact ⟨h1, h2, h5⟩


/-- C17: `execute_task` is total; it makes exactly one kernel invocation, of the function
at `functionBinAddr` with the `args` of the task as the one argument, when the task
pointer is not null and `functionBinAddr` is not `0`, and makes none otherwise. The
worker loop of the shared-memory model logs a kernel call in the same cases. -/
theorem execute_task_once_iff (task : Option Task) :
    ((execute_task task).length = 1 ↔ ∃ t, task = some t ∧ t.functionBinAddr ≠ 0) ∧
    (∀ t, task = some t → t.functionBinAddr ≠ 0 →
      execute_task task = [(t.functionBinAddr, t.args)]) ∧
    (task = none → execute_task task = []) ∧
    (∀ t, task = some t → t.functionBinAddr = 0 → execute_task task = []) ∧
    (∀ (s : Sys) (core task_ptr : Nat),
      (s.execute_task core task_ptr).log =
        s.log ++ (execute_task (taskAt s.rt.tasks task_ptr)).map
          (fun _ => Event.kernel (task_ptr - 1) core)) := by
  refine ⟨?_, ?_, ?_, ?_, ?_⟩
  · cases task with
    | none => simp [execute_task]
    | some t =>
        by_cases h : t.functionBinAddr = 0 <;> simp [execute_task, h]
  · intro t ht h
    subst ht
    simp [execute_task, h]
  · intro h
    subst h
    rfl
  · intro t ht h
    subst ht
    simp [execute_task, h]
  · intro s core task_ptr
    unfold Sys.execute_task taskAt
    by_cases h0 : task_ptr = 0
    · simp [h0, execute_task]
    · by_cases h1 : (s.rt.tasks (task_ptr - 1)).functionBinAddr = 0
      · simp [h0, h1, execute_task]
      · simp [h0, h1, execute_task]


theorem physicalCoreIdOf_mod (c : Int) : physicalCoreIdOf c = (c % 4294967296).toNat % 4096 := by
  unfold physicalCoreIdOf AICORE_COREID_MASK
  exact Nat.and_pow_two_sub_one_eq_mod _ 12

theorem physicalCoreIdOf_int (c : Int) : (physicalCoreIdOf c : Int) = c % 4096 := by
  rw [physicalCoreIdOf_mod]
  have h : 0 ≤ c % 4294967296 := Int.emod_nonneg _ (by norm_num)
  push_cast
  rw [Int.toNat_of_nonneg h]
  omega

/-- C19: for every value `c` of `get_coreid`, the worker publishes
`aicore_done = (c & 0x0FFF) + 1`, which lies in `[1, 4096]` and is not `0`; the masked id
is `c` modulo `4096`; and the id that the iteration of `HankAiCore` for this cell stores
in `physical_core_ids_`, `aicore_done - 1`, is the masked id again. -/
theorem bringUp_id_roundtrip (c : Int) (h : Handshake) :
    (aicoreBringUp h c).aicore_done = physicalCoreIdOf c + 1 ∧
    1 ≤ (aicoreBringUp h c).aicore_done ∧ (aicoreBringUp h c).aicore_done ≤ 4096 ∧
    (aicoreBringUp h c).aicore_done ≠ 0 ∧
    (physicalCoreIdOf c : Int) = c % 4096 ∧
    (∀ (s : Launch) (regs : Nat → Nat) (k t i : Nat),
      s.workers (s.ex.core_assignments_ t i).toNat = aicoreBringUp h c →
      (s.hankStep regs k t i).ex.physical_core_ids_ t i = (physicalCoreIdOf c : Int) ∧
      (s.hankStep regs k t i).call k = .hank t (i + 1)) := by
  have hb : physicalCoreIdOf c < 4096 := by
    rw [physicalCoreIdOf_mod]; exact Nat.mod_lt _ (by norm_num)
  have hd : (aicoreBringUp h c).aicore_done = physicalCoreIdOf c + 1 := rfl
  refine ⟨hd, by omega, by omega, by omega, physicalCoreIdOf_int c, ?_⟩
  intro s regs k t i hw
  unfold Launch.hankStep
  simp only [hw, hd]
  simp


/-- C18: the pop of the dispatch phase takes the entry at index `count - 1` and
decrements the count; a push of `x` followed by a pop from the same queue hands out `x`,
and leaves the count and the entries below it as they were before the push. This holds
for the compute queue (task and worker of `core_type` `0`) and for the vector queue. -/
theorem ready_queue_lifo (s : Sys) (t i x : Nat) :
    (∀ _h0 : (s.rt.workers (s.coreOf t i)).core_type = 0,
      (0 < s.ex.ready_count_aic_ →
        ((s.popReady t i).thr t).pc
            = .publish i (s.ex.ready_queue_aic_ (s.ex.ready_count_aic_ - 1).toNat) ∧
        (s.popReady t i).ex.ready_count_aic_ = s.ex.ready_count_aic_ - 1 ∧
        (s.popReady t i).ex.ready_queue_aic_ = s.ex.ready_queue_aic_) ∧
      ((s.rt.tasks x).core_type = 0 → 0 ≤ s.ex.ready_count_aic_ →
        (((s.pushReady x).popReady t i).thr t).pc = .publish i x ∧
        ((s.pushReady x).popReady t i).ex.ready_count_aic_ = s.ex.ready_count_aic_ ∧
        queueList ((s.pushReady x).popReady t i).ex.ready_queue_aic_
            ((s.pushReady x).popReady t i).ex.ready_count_aic_
          = queueList s.ex.ready_queue_aic_ s.ex.ready_count_aic_ ∧
        ∀ j : Nat, (j : Int) < s.ex.ready_count_aic_ →
          ((s.pushReady x).popReady t i).ex.ready_queue_aic_ j = s.ex.ready_queue_aic_ j)) ∧
    (∀ _h1 : (s.rt.workers (s.coreOf t i)).core_type = 1,
      (0 < s.ex.ready_count_aiv_ →
        ((s.popReady t i).thr t).pc
            = .publish i (s.ex.ready_queue_aiv_ (s.ex.ready_count_aiv_ - 1).toNat) ∧
        (s.popReady t i).ex.ready_count_aiv_ = s.ex.ready_count_aiv_ - 1 ∧
        (s.popReady t i).ex.ready_queue_aiv_ = s.ex.ready_queue_aiv_) ∧
      ((s.rt.tasks x).core_type ≠ 0 → 0 ≤ s.ex.ready_count_aiv_ →
        (((s.pushReady x).popReady t i).thr t).pc = .publish i x ∧
        ((s.pushReady x).popReady t i).ex.ready_count_aiv_ = s.ex.ready_count_aiv_ ∧
        queueList ((s.pushReady x).popReady t i).ex.ready_queue_aiv_
            ((s.pushReady x).popReady t i).ex.ready_count_aiv_
          = queueList s.ex.ready_queue_aiv_ s.ex.ready_count_aiv_ ∧
        ∀ j : Nat, (j : Int) < s.ex.ready_count_aiv_ →
          ((s.pushReady x).popReady t i).ex.ready_queue_aiv_ j = s.ex.ready_queue_aiv_ j)) := by
  refine ⟨fun h0 => ⟨fun hc => ?_, fun hx hc => ?_⟩, fun h1 => ⟨fun hc => ?_, fun hx hc => ?_⟩⟩
  · simp [Sys.popReady, h0, hc, Sys.setPc]
  · have hpos : s.ex.ready_count_aic_ + 1 > 0 := by omega
    have hw : ((s.pushReady x).rt.workers ((s.pushReady x).coreOf t i)).core_type = 0 := by
      simpa [Sys.pushReady, hx, Sys.coreOf] using h0
    have hq : ∀ j : Nat, (j : Int) < s.ex.ready_count_aic_ →
        Function.update s.ex.ready_queue_aic_ s.ex.ready_count_aic_.toNat x j
          = s.ex.ready_queue_aic_ j := by
      intro j hj
      apply Function.update_noteq
      omega
    have hiaic : (s.ex.ready_count_aic_ + 1).toNat - 1 = s.ex.ready_count_aic_.toNat := by omega
    refine ⟨?_, ?_, ?_, ?_⟩
    · simp [Sys.popReady, hw, Sys.setPc]
      simp [Sys.pushReady, hx, hpos]
      rw [hiaic]
      simp
    · simp [Sys.popReady, hw, Sys.setPc]
      simp [Sys.pushReady, hx, hpos]
    · simp [Sys.popReady, hw, Sys.setPc]
      simp [Sys.pushReady, hx, hpos]
      unfold queueList
      apply List.map_congr_left
      intro j hj
      apply hq
      have := List.mem_range.mp hj
      omega
    · intro j hj
      simp [Sys.popReady, hw, Sys.setPc]
      simp [Sys.pushReady, hx, hpos]
      exact hq j hj
  · have hne : (s.rt.workers (s.coreOf t i)).core_type ≠ 0 := by omega
    simp [Sys.popReady, hne, h1, hc, Sys.setPc]
  · have hpos : s.ex.ready_count_aiv_ + 1 > 0 := by omega
    have hw : ((s.pushReady x).rt.workers ((s.pushReady x).coreOf t i)).core_type = 1 := by
      simpa [Sys.pushReady, hx, Sys.coreOf] using h1
    have hne : ((s.pushReady x).rt.workers ((s.pushReady x).coreOf t i)).core_type ≠ 0 := by
      omega
    have hq : ∀ j : Nat, (j : Int) < s.ex.ready_count_aiv_ →
        Function.update s.ex.ready_queue_aiv_ s.ex.ready_count_aiv_.toNat x j
          = s.ex.ready_queue_aiv_ j := by
      intro j hj
      apply Function.update_noteq
      omega
    have hiaiv : (s.ex.ready_count_aiv_ + 1).toNat - 1 = s.ex.ready_count_aiv_.toNat := by omega
    refine ⟨?_, ?_, ?_, ?_⟩
    · simp [Sys.popReady, hw, Sys.setPc]
      simp [Sys.pushReady, hx, hpos]
      rw [hiaiv]
      simp
    · simp [Sys.popReady, hw, Sys.setPc]
      simp [Sys.pushReady, hx, hpos]
    · simp [Sys.popReady, hw, Sys.setPc]
      simp [Sys.pushReady, hx, hpos]
      unfold queueList
      apply List.map_congr_left
      intro j hj
      apply hq
      have := List.mem_range.mp hj
      omega
    · intro j hj
      simp [Sys.popReady, hw, Sys.setPc]
      simp [Sys.pushReady, hx, hpos]
      exact hq j hj

theorem ready_queue_lifo_witness :
    (((Sys.init freshExecutor (oneTaskRuntime 1 1)).pushReady 0).popReady 0 0).ex.ready_count_aic_
        = (Sys.init freshExecutor (oneTaskRuntime 1 1)).ex.ready_count_aic_ ∧
    ((((Sys.init freshExecutor (oneTaskRuntime 1 1)).pushReady 0).popReady 0 0).thr 0).pc
        = .publish 0 0 := by
  obtain ⟨h1, h2, -⟩ :=
    ((ready_queue_lifo (Sys.init freshExecutor (oneTaskRuntime 1 1)) 0 0 0).1 (by decide)).2
      (by decide) (by decide)
  exact ⟨h2, h1⟩


/-- C16: a caller that enters `AicpuExecute` with a null runtime returns `-1` in its
first step and changes neither the executor nor the handshake cells, the register file
or another caller; when `initialized_` was false it still is, and a later caller with a
runtime wins the `compare_exchange_strong` of `Init`. `DynTileFwkBackendKernelServer`,
`DynTileFwkBackendKernelServerInit` and `StaticTileFwkBackendKernelServer` return `-1`
for a null argument. -/
theorem null_argument_rejected :
    (∀ (s : Launch) (k : Nat), s.call k = .entry →
      (Launch.step none s k).call k = .returned (-1) ∧
      (Launch.step none s k).ex = s.ex ∧
      (Launch.step none s k).workers = s.workers ∧
      (Launch.step none s k).regfile = s.regfile ∧
      ∀ k', k' ≠ k → (Launch.step none s k).call k' = s.call k') ∧
    (∀ (s : Launch) (k k' : Nat) (r : Runtime), s.call k = .entry → s.call k' = .entry →
      k' ≠ k → s.ex.initialized_ = false →
      (Launch.step none s k).ex.initialized_ = false ∧
      (Launch.step (some r) (Launch.step none s k) k').call k' = .initBody ∧
      (Launch.step (some r) (Launch.step none s k) k').ex = s.ex.claim) ∧
    (∀ execute, DynTileFwkBackendKernelServer execute none = some (-1, none)) ∧
    DynTileFwkBackendKernelServerInit none = -1 ∧
    StaticTileFwkBackendKernelServer none = -1 := by
  refine ⟨?_, ?_, fun _ => rfl, rfl, rfl⟩
  · intro s k h
    rw [Launch.step_entry_none s k h]
    refine ⟨by simp [Launch.setCall], rfl, rfl, rfl, fun k' hk => ?_⟩
    rw [Launch.setCall_call, if_neg hk]
  · intro s k k' r h h' hk hi
    rw [Launch.step_entry_none s k h]
    have hc : (s.setCall k (.returned (-1))).call k' = .entry := by
      rw [Launch.setCall_call, if_neg hk]; exact h'
    have hi2 : (s.setCall k (.returned (-1))).ex.initialized_ = false := hi
    rw [Launch.step_entry_free r _ k' hc hi2]
    exact ⟨hi, by simp [Launch.setCall], rfl⟩


theorem seedQueues_counts (tasks : Nat → Task) (l : List Nat) (qa qv : Nat → Nat) :
    (seedQueues tasks l qa qv).aic_count
        = (l.filter (fun id => decide ((tasks id).core_type = 0))).length ∧
    (seedQueues tasks l qa qv).aiv_count
        = (l.filter (fun id => !decide ((tasks id).core_type = 0))).length := by
  obtain ⟨h1, h2⟩ := seedQueues_lists tasks l qa qv
  have l1 := congrArg List.length h1
  have l2 := congrArg List.length h2
  rw [queueList_length] at l1 l2
  exact ⟨l1, l2⟩

theorem Init_scalars_congr (e1 e2 : AicpuExecutor) (runtime : Option Runtime)
    (h1 : e1.initialized_ = false) (h2 : e2.initialized_ = false)
    (hb : e1.blockdim_cores_num_ = e2.blockdim_cores_num_)
    (hs : e1.scalars = e2.scalars) :
    (e1.Init runtime).1 = (e2.Init runtime).1 ∧
    (e1.Init runtime).2.scalars = (e2.Init runtime).2.scalars := by
  simp only [AicpuExecutor.scalars, Prod.mk.injEq] at hs
  obtain ⟨s1, -, s3, s4, s5, s6, s7, s8, s9, s10⟩ := hs
  simp only [AicpuExecutor.Init, h1, h2, Bool.false_eq_true, if_false]
  cases runtime with
  | none =>
      simp [AicpuExecutor.InitBody, AicpuExecutor.claim, AicpuExecutor.scalars, s1, s3, s4, s5,
        s6, s7, s8, s9, s10]
  | some r =>
      have c1 := fun qa qv => (seedQueues_counts r.tasks r.initial_ready qa qv).1
      have c2 := fun qa qv => (seedQueues_counts r.tasks r.initial_ready qa qv).2
      simp only [AicpuExecutor.InitBody, AicpuExecutor.claim, hb]
      by_cases g1 : threadNumOf r < 1 ∨ threadNumOf r > MAX_AICPU_THREADS
      · simp [g1, AicpuExecutor.scalars, s1, s3, s4, s5, s6, s7, s8, s9, s10]
      · by_cases g2 : wrapInt32 (r.block_dim * e2.blockdim_cores_num_) > MAX_CORES_PER_THREAD
        · simp [g1, g2, AicpuExecutor.scalars, s1, s3, s4, s5, s6, s7, s8, s9, s10]
        · by_cases g3 : Int.tmod r.block_dim (threadNumOf r) ≠ 0
          · simp [g1, g2, g3, AicpuExecutor.scalars, s1, s3, s4, s5, s6, s7, s8, s9, s10]
          · simp [g1, g2, g3, AicpuExecutor.scalars, s1, s3, s4, s5, s6, s7, s8, s9, s10, c1, c2]

theorem Init_failed_counts (e : AicpuExecutor) (runtime : Option Runtime)
    (h1 : e.initialized_ = false) (hf : (e.Init runtime).1 ≠ 0) :
    (e.Init runtime).2.ready_count_aic_ = e.ready_count_aic_ ∧
    (e.Init runtime).2.ready_count_aiv_ = e.ready_count_aiv_ := by
  simp only [AicpuExecutor.Init, h1, Bool.false_eq_true, if_false] at hf ⊢
  cases runtime with
  | none => simp [AicpuExecutor.InitBody, AicpuExecutor.claim]
  | some r =>
      simp only [AicpuExecutor.InitBody, AicpuExecutor.claim] at hf ⊢
      by_cases g1 : threadNumOf r < 1 ∨ threadNumOf r > MAX_AICPU_THREADS
      · simp [g1]
      · by_cases g2 : wrapInt32 (r.block_dim * e.blockdim_cores_num_) > MAX_CORES_PER_THREAD
        · simp [g1, g2]
        · by_cases g3 : Int.tmod r.block_dim (threadNumOf r) ≠ 0
          · simp [g1, g2, g3]
          · simp [g1, g2, g3] at hf

theorem Init_queue_lists (e : AicpuExecutor) (r : Runtime) (hfirst : e.initialized_ = false)
    (hok : (e.Init (some r)).1 = 0) :
    queueList (e.Init (some r)).2.ready_queue_aic_ (e.Init (some r)).2.ready_count_aic_
        = r.initial_ready.filter (fun id => decide ((r.tasks id).core_type = 0)) ∧
    queueList (e.Init (some r)).2.ready_queue_aiv_ (e.Init (some r)).2.ready_count_aiv_
        = r.initial_ready.filter (fun id => !decide ((r.tasks id).core_type = 0)) := by
  obtain ⟨-, -, -, hE⟩ := Init_ok e r hfirst hok
  rw [hE]
  exact seedQueues_lists r.tasks r.initial_ready e.ready_queue_aic_ e.ready_queue_aiv_

theorem Init_queues_congr (e1 e2 : AicpuExecutor) (runtime : Option Runtime)
    (h1 : e1.initialized_ = false) (h2 : e2.initialized_ = false)
    (ha1 : e1.ready_count_aic_ = 0) (hv1 : e1.ready_count_aiv_ = 0)
    (ha2 : e2.ready_count_aic_ = 0) (hv2 : e2.ready_count_aiv_ = 0)
    (hrc : (e1.Init runtime).1 = (e2.Init runtime).1) :
    queueList (e1.Init runtime).2.ready_queue_aic_ (e1.Init runtime).2.ready_count_aic_
        = queueList (e2.Init runtime).2.ready_queue_aic_ (e2.Init runtime).2.ready_count_aic_ ∧
    queueList (e1.Init runtime).2.ready_queue_aiv_ (e1.Init runtime).2.ready_count_aiv_
        = queueList (e2.Init runtime).2.ready_queue_aiv_ (e2.Init runtime).2.ready_count_aiv_ := by
  by_cases hok : (e1.Init runtime).1 = 0
  · cases runtime with
    | none => simp [AicpuExecutor.Init, h1, AicpuExecutor.InitBody] at hok
    | some r =>
        obtain ⟨a1, a2⟩ := Init_queue_lists e1 r h1 hok
        obtain ⟨b1, b2⟩ := Init_queue_lists e2 r h2 (hrc ▸ hok)
        exact ⟨a1.trans b1.symm, a2.trans b2.symm⟩
  · obtain ⟨a1, a2⟩ := Init_failed_counts e1 runtime h1 hok
    obtain ⟨b1, b2⟩ := Init_failed_counts e2 runtime h2 (hrc ▸ hok)
    rw [a1, a2, b1, b2, ha1, hv1, ha2, hv2]
    simp [queueList]


/-- C13, as amended: `DeInit` puts the ten fields it stores to (`thread_idx_`, the four
flags, both ready counts, `completed_tasks_`, `total_tasks_`, `finished_count_`) at their
values in a fresh executor. For every runtime, null included, `Init` on the torn-down
executor returns what `Init` on a fresh executor returns and leaves the same ten fields
and the same ready-queue contents; for every runtime that is not null it leaves the same
`thread_num_`; and for every runtime `Init` accepts it leaves the same `cores_total_num_`,
the same `thread_cores_num_` and the same entries `0 .. thread_cores_num_ - 1` in the rows
`0 .. thread_num_ - 1` of `core_assignments_`. -/
theorem DeInit_baseline (e : AicpuExecutor) (ca pc : Nat → Nat → Int) (qa qv : Nat → Nat)
    (hk : e.blockdim_cores_num_ = 3) :
    e.DeInit.scalars = (AicpuExecutor.fresh ca pc qa qv).scalars ∧
    (∀ runtime : Option Runtime,
      (e.DeInit.Init runtime).1 = ((AicpuExecutor.fresh ca pc qa qv).Init runtime).1 ∧
      (e.DeInit.Init runtime).2.scalars
        = ((AicpuExecutor.fresh ca pc qa qv).Init runtime).2.scalars ∧
      queueList (e.DeInit.Init runtime).2.ready_queue_aic_
          (e.DeInit.Init runtime).2.ready_count_aic_
        = queueList ((AicpuExecutor.fresh ca pc qa qv).Init runtime).2.ready_queue_aic_
          ((AicpuExecutor.fresh ca pc qa qv).Init runtime).2.ready_count_aic_ ∧
      queueList (e.DeInit.Init runtime).2.ready_queue_aiv_
          (e.DeInit.Init runtime).2.ready_count_aiv_
        = queueList ((AicpuExecutor.fresh ca pc qa qv).Init runtime).2.ready_queue_aiv_
          ((AicpuExecutor.fresh ca pc qa qv).Init runtime).2.ready_count_aiv_) ∧
    (∀ r : Runtime,
      (e.DeInit.Init (some r)).2.thread_num_
        = ((AicpuExecutor.fresh ca pc qa qv).Init (some r)).2.thread_num_) ∧
    (∀ r : Runtime, -2147483648 ≤ 3 * r.block_dim ∧ 3 * r.block_dim ≤ 2147483647 →
      (e.DeInit.Init (some r)).1 = 0 →
      (e.DeInit.Init (some r)).2.cores_total_num_
        = ((AicpuExecutor.fresh ca pc qa qv).Init (some r)).2.cores_total_num_ ∧
      (e.DeInit.Init (some r)).2.thread_cores_num_
        = ((AicpuExecutor.fresh ca pc qa qv).Init (some r)).2.thread_cores_num_ ∧
      ∀ t i : Nat, (t : Int) < (e.DeInit.Init (some r)).2.thread_num_ →
        (i : Int) < (e.DeInit.Init (some r)).2.thread_cores_num_ →
        (e.DeInit.Init (some r)).2.core_assignments_ t i
          = ((AicpuExecutor.fresh ca pc qa qv).Init (some r)).2.core_assignments_ t i) := by
  have hs : e.DeInit.scalars = (AicpuExecutor.fresh ca pc qa qv).scalars := rfl
  have hb : e.DeInit.blockdim_cores_num_ = (AicpuExecutor.fresh ca pc qa qv).blockdim_cores_num_ :=
    hk
  have hB := fun runtime =>
    Init_scalars_congr e.DeInit (AicpuExecutor.fresh ca pc qa qv) runtime rfl rfl hb hs
  refine ⟨hs, fun runtime => ?_, fun r => ?_, fun r hov hok => ?_⟩
  · obtain ⟨b1, b2⟩ := hB runtime
    obtain ⟨b3, b4⟩ := Init_queues_congr e.DeInit (AicpuExecutor.fresh ca pc qa qv) runtime
      rfl rfl rfl rfl rfl rfl b1
    exact ⟨b1, b2, b3, b4⟩
  · simp only [AicpuExecutor.Init, AicpuExecutor.DeInit, AicpuExecutor.fresh,
      Bool.false_eq_true, if_false, AicpuExecutor.InitBody, AicpuExecutor.claim, hk]
    by_cases g1 : threadNumOf r < 1 ∨ threadNumOf r > MAX_AICPU_THREADS
    · simp [g1]
    · by_cases g2 : wrapInt32 (r.block_dim * 3) > MAX_CORES_PER_THREAD
      · simp [g1, g2]
      · by_cases g3 : Int.tmod r.block_dim (threadNumOf r) ≠ 0
        · simp [g1, g2, g3]
        · simp [g1, g2, g3]
  · have hok2 : ((AicpuExecutor.fresh ca pc qa qv).Init (some r)).1 = 0 :=
      (hB (some r)).1 ▸ hok
    obtain ⟨n1, q1, hn1, -, hq1, -, t1, c1, d1, a1⟩ :=
      Init_assignments e.DeInit r rfl hk hov hok
    obtain ⟨n2, q2, -, -, hq2, -, t2, c2, d2, a2⟩ :=
      Init_assignments (AicpuExecutor.fresh ca pc qa qv) r rfl rfl hov hok2
    obtain ⟨-, -, -, hE1⟩ := Init_ok e.DeInit r rfl hok
    obtain ⟨-, -, -, hE2⟩ := Init_ok (AicpuExecutor.fresh ca pc qa qv) r rfl hok2
    have tn1 : (e.DeInit.Init (some r)).2.thread_num_ = threadNumOf r := by rw [hE1]
    have tn2 : ((AicpuExecutor.fresh ca pc qa qv).Init (some r)).2.thread_num_ = threadNumOf r := by
      rw [hE2]
    have hn : n1 = n2 := by
      have : (n1 : Int) = n2 := by rw [← t1, ← t2, tn1, tn2]
      exact_mod_cast this
    subst hn
    have hq : q1 = q2 := by
      have h := hq1.symm.trans hq2
      have hpos : (n1 : Int) ≠ 0 := by omega
      exact mul_left_cancel₀ hpos h
    subst hq
    refine ⟨d1.trans d2.symm, c1.trans c2.symm, fun t i ht hi => ?_⟩
    rw [t1] at ht
    rw [c1] at hi
    have hP : q1 = (q1.toNat : Int) := by omega
    have ht' : t < n1 := by exact_mod_cast ht
    have hi' : i < 3 * q1.toNat := by omega
    rw [a1 q1.toNat hP t i ht' hi', a2 q1.toNat hP t i ht' hi']


theorem DeInit_baseline_witness :
    (freshExecutor.Init (some (oneTaskRuntime 1 1))).2.blockdim_cores_num_ = 3 ∧
    ((freshExecutor.Init (some (oneTaskRuntime 1 1))).2.DeInit.Init
        (some (oneTaskRuntime 2 2))).1
      = (freshExecutor.Init (some (oneTaskRuntime 2 2))).1 :=
  ⟨rfl, ((DeInit_baseline (freshExecutor.Init (some (oneTaskRuntime 1 1))).2
      (fun _ _ => 0) (fun _ _ => 0) (fun _ => 0) (fun _ => 0) rfl).2.1
        (some (oneTaskRuntime 2 2))).1⟩

/-- C13, the claim as written fails: after a launch with `block_dim = 1` and `DeInit`,
`Init` for a runtime with `scheCpuNum = 5` returns `-1` before it reaches the stores to
`cores_total_num_` and `thread_cores_num_`, which keep the `3` of the launch before, while
a fresh executor has `0` in both; with a null runtime `thread_num_` keeps its `1` where a
fresh executor has `0`. -/
theorem DeInit_stale_core_counts :
    ((freshExecutor.Init (some (oneTaskRuntime 1 1))).2.DeInit.Init
        (some (oneTaskRuntime 5 1))).1 = -1 ∧
    (freshExecutor.Init (some (oneTaskRuntime 5 1))).1 = -1 ∧
    ((freshExecutor.Init (some (oneTaskRuntime 1 1))).2.DeInit.Init
        (some (oneTaskRuntime 5 1))).2.cores_total_num_ = 3 ∧
    (freshExecutor.Init (some (oneTaskRuntime 5 1))).2.cores_total_num_ = 0 ∧
    ((freshExecutor.Init (some (oneTaskRuntime 1 1))).2.DeInit.Init
        (some (oneTaskRuntime 5 1))).2.thread_cores_num_ = 3 ∧
    (freshExecutor.Init (some (oneTaskRuntime 5 1))).2.thread_cores_num_ = 0 ∧
    ((freshExecutor.Init (some (oneTaskRuntime 1 1))).2.DeInit.Init none).2.thread_num_ = 1 ∧
    (freshExecutor.Init none).2.thread_num_ = 0 := by
  decide


/-- C14, the code departs from the claim: with two scheduler threads, thread `0` counts
itself first (its `fetch_add` returns `0`, not `thread_num_ - 1 = 1`), thread `1` counts
itself last and stores `finished_`; thread `0` then loads `finished_`, finds it set and
runs `DeInit`, and thread `1`, the last to finish, finds the flag cleared and runs
nothing. In a second interleaving both threads load `finished_` before either runs
`DeInit`, and `DeInit` runs twice. -/
theorem DeInit_by_thread_not_last :
    (freshExecutor.Init (some (oneTaskRuntime 2 2))).2.thread_num_ = 2 ∧
    (Finish.run (Finish.start (freshExecutor.Init (some (oneTaskRuntime 2 2))).2)
        [0, 1, 1, 0, 0, 1]).deinits = [0] ∧
    (Finish.run (Finish.start (freshExecutor.Init (some (oneTaskRuntime 2 2))).2)
        [0, 1, 1, 0, 0, 1]).pc 0 = .returned 0 ∧
    (Finish.run (Finish.start (freshExecutor.Init (some (oneTaskRuntime 2 2))).2)
        [0, 1, 1, 0, 0, 1]).pc 1 = .returned 1 ∧
    (Finish.run (Finish.start (freshExecutor.Init (some (oneTaskRuntime 2 2))).2)
        [0, 1, 1, 0, 1, 0, 1]).deinits = [0, 1] ∧
    (Finish.run (Finish.start (freshExecutor.Init (some (oneTaskRuntime 2 2))).2)
        [0, 1, 1, 0, 1, 0, 1]).pc 0 = .returned 0 ∧
    (Finish.run (Finish.start (freshExecutor.Init (some (oneTaskRuntime 2 2))).2)
        [0, 1, 1, 0, 1, 0, 1]).pc 1 = .returned 1 := by
  decide


theorem Sys.starved_setPc (s : Sys) (t : Nat) (pc : Pc) (G : s.Starved)
    (hpc : pc.spinning = true) : (s.setPc t pc).Starved := by
  refine ⟨G.count_aic, G.count_aiv, G.completed, G.slots, G.log, fun t' => ?_, G.worker⟩
  by_cases h : t' = t
  · subst h
    simp only [Sys.setPc, Function.update_same]
    exact ⟨(G.thread t').1, hpc⟩
  · simp only [Sys.setPc, Function.update_noteq h]
    exact G.thread t'

theorem Sys.starved_step (s : Sys) (a : Action) (G : s.Starved) : (s.step a).Starved := by
  cases a with
  | sched t =>
      simp only [Sys.step]
      split_ifs with hlt
      swap
      · exact G
      obtain ⟨htc, hsp⟩ := G.thread t
      cases hpc : (s.thr t).pc <;> rw [hpc] at hsp <;>
        simp only [Pc.spinning, Bool.false_eq_true] at hsp
      · simp only [Sys.schedStep, hpc]
        have : s.ex.completed_tasks_ < (s.thr t).task_count := by rw [G.completed]; omega
        rw [if_pos this]
        exact Sys.starved_setPc s t _ G rfl
      · simp only [Sys.schedStep, hpc]
        split_ifs with h1 h2
        · exact absurd (G.slots _) h2.2
        · exact Sys.starved_setPc s t _ G rfl
        · exact Sys.starved_setPc s t _ G rfl
      · simp only [Sys.schedStep, hpc]
        split_ifs <;> exact Sys.starved_setPc s t _ G rfl
      · simp only [Sys.schedStep, hpc]
        split_ifs <;> exact Sys.starved_setPc s t _ G rfl
      · simp only [Sys.schedStep, hpc, Sys.popReady, G.count_aic, G.count_aiv, lt_irrefl,
          gt_iff_lt, if_false]
        split_ifs <;> exact Sys.starved_setPc s t _ G rfl
  | worker c =>
      simp only [Sys.step]
      split_ifs with hlt
      swap
      · exact G
      rcases G.worker c with hw | hw
      · simp only [Sys.workerStep, hw, G.slots c, ne_eq, not_true_eq_false, if_false]
        split_ifs
        · refine ⟨G.count_aic, G.count_aiv, G.completed, G.slots, G.log, G.thread, fun c' => ?_⟩
          by_cases h : c' = c
          · subst h; right; simp
          · simp only [Function.update_noteq h]; exact G.worker c'
        · exact G
      · simp only [Sys.workerStep, hw]
        exact G

theorem Sys.starved_run (schedule : List Action) (s : Sys) (G : s.Starved) :
    (s.run schedule).Starved := by
  induction schedule generalizing s with
  | nil => exact G
  | cons a l ih => exact ih (s.step a) (Sys.starved_step s a G)


theorem Init_accepts_of_config (e : AicpuExecutor) (r : Runtime)
    (hfirst : e.initialized_ = false)
    (hn : 1 ≤ threadNumOf r ∧ threadNumOf r ≤ MAX_AICPU_THREADS)
    (hc : wrapInt32 (r.block_dim * e.blockdim_cores_num_) ≤ MAX_CORES_PER_THREAD)
    (hd : Int.tmod r.block_dim (threadNumOf r) = 0) :
    (e.Init (some r)).1 = 0 := by
  have g1 : ¬ (threadNumOf r < 1 ∨ threadNumOf r > MAX_AICPU_THREADS) := by omega
  have g2 : ¬ (wrapInt32 (r.block_dim * e.blockdim_cores_num_) > MAX_CORES_PER_THREAD) := by
    omega
  simp [AicpuExecutor.Init, hfirst, AicpuExecutor.InitBody, AicpuExecutor.claim, g1, g2, hd]

/-- C11, as amended: `Init` does not look at the size of the initial ready set. For every
runtime whose initial ready set is empty and whose thread and core numbers pass the
checks of `Init`, `Init` returns `0`, stores `init_done_`, leaves `init_failed_` as it was
and leaves both ready counts `0`. When the graph has a task and the handshake cells start
with `task = 0`, the launch then makes no progress: in every interleaving
`completed_tasks_` stays `0`, the log stays empty and no thread leaves
`resolve_and_dispatch`. -/
theorem Init_empty_ready_accepted (e : AicpuExecutor) (r : Runtime)
    (hfirst : e.initialized_ = false) (hempty : r.initial_ready = [])
    (hn : 1 ≤ threadNumOf r ∧ threadNumOf r ≤ MAX_AICPU_THREADS)
    (hc : wrapInt32 (r.block_dim * e.blockdim_cores_num_) ≤ MAX_CORES_PER_THREAD)
    (hd : Int.tmod r.block_dim (threadNumOf r) = 0) :
    (e.Init (some r)).1 = 0 ∧ (e.Init (some r)).2.init_done_ = true ∧
    (e.Init (some r)).2.init_failed_ = e.init_failed_ ∧
    (e.Init (some r)).2.ready_count_aic_ = 0 ∧ (e.Init (some r)).2.ready_count_aiv_ = 0 ∧
    (1 ≤ r.task_count → (∀ c, (r.workers c).task = 0) →
      ∀ (schedule : List Action) (t : Nat),
        (Sys.run (Sys.init e r) schedule).ex.completed_tasks_ = 0 ∧
        (Sys.run (Sys.init e r) schedule).log = [] ∧
        ((Sys.run (Sys.init e r) schedule).thr t).pc ≠ .done) := by
  have hok := Init_accepts_of_config e r hfirst hn hc hd
  obtain ⟨-, -, -, hE⟩ := Init_ok e r hfirst hok
  have hca : (e.Init (some r)).2.ready_count_aic_ = 0 := by
    rw [hE, hempty]; rfl
  have hcv : (e.Init (some r)).2.ready_count_aiv_ = 0 := by
    rw [hE, hempty]; rfl
  refine ⟨hok, by rw [hE], by rw [hE], hca, hcv, fun htc hslots schedule t => ?_⟩
  have G0 : (Sys.init e r).Starved := by
    refine ⟨hca, hcv, by simp only [Sys.init]; rw [hE], hslots, by simp [Sys.init, hempty],
      fun t' => ⟨?_, rfl⟩, fun c => Or.inl rfl⟩
    simp only [Sys.init]
    rw [hE]
    dsimp only
    exact_mod_cast htc
  have G := Sys.starved_run schedule _ G0
  refine ⟨G.completed, G.log, fun hdone => ?_⟩
  have := (G.thread t).2
  rw [hdone] at this
  simp [Pc.spinning] at this

theorem Init_empty_ready_accepted_witness :
    selfLoopRuntime.initial_ready = [] ∧ 1 ≤ selfLoopRuntime.task_count ∧
    (freshExecutor.Init (some selfLoopRuntime)).1 = 0 ∧
    (Sys.run (Sys.init freshExecutor selfLoopRuntime)
      [.sched 0, .worker 0, .sched 0]).ex.completed_tasks_ = 0 :=
  ⟨rfl, by decide,
    (Init_empty_ready_accepted freshExecutor selfLoopRuntime rfl rfl (by decide) (by decide)
      (by decide)).1,
    ((Init_empty_ready_accepted freshExecutor selfLoopRuntime rfl rfl (by decide) (by decide)
      (by decide)).2.2.2.2.2 (by decide) (fun _ => rfl) [.sched 0, .worker 0, .sched 0] 0).1⟩

theorem selfLoopRuntime_wf : selfLoopRuntime.WellFormed :=
  { fanout_valid := by decide, fanin_eq := by decide, ready_nodup := by decide,
    ready_sound := by decide, ready_complete := by decide, slots_empty := fun _ => rfl }

/-- C11, the claim as written fails: the runtime of one task that waits for itself has
a task and an empty initial ready set, its fan-in counter and ready list are consistent
with its fanout lists, and `Init` returns `0`, stores `init_done_` and leaves
`init_failed_` clear. -/
theorem Init_empty_ready_not_rejected :
    selfLoopRuntime.task_count = 1 ∧ selfLoopRuntime.initial_ready = [] ∧
    selfLoopRuntime.WellFormed ∧
    (freshExecutor.Init (some selfLoopRuntime)).1 = 0 ∧
    (freshExecutor.Init (some selfLoopRuntime)).2.init_done_ = true ∧
    (freshExecutor.Init (some selfLoopRuntime)).2.init_failed_ = false :=
  ⟨rfl, rfl, selfLoopRuntime_wf, by decide, by decide, by decide⟩


theorem nodup_full (l : List Nat) (n : Nat) (hn : l.Nodup) (hb : ∀ x ∈ l, x < n)
    (hl : n ≤ l.length) : ∀ T, T < n → T ∈ l := by
  intro T hT
  have hsub : l.toFinset ⊆ Finset.range n := by
    intro x hx
    exact Finset.mem_range.mpr (hb x (List.mem_toFinset.mp hx))
  have hcard : (Finset.range n).card ≤ l.toFinset.card := by
    rw [Finset.card_range, List.toFinset_card_of_nodup hn]
    exact hl
  have heq := Finset.eq_of_subset_of_card_le hsub hcard
  have : T ∈ l.toFinset := by rw [heq]; exact Finset.mem_range.mpr hT
  exact List.mem_toFinset.mp this

theorem Sys.fanin_zero_of_completed (r : Runtime) (wf : r.WellFormed) (s : Sys)
    (hI : s.Inv r) (B : s.Book r) (hc : s.ex.completed_tasks_ = s.ex.total_tasks_) :
    ∀ T, T < r.task_count → (s.rt.tasks T).fanin = 0 := by
  obtain ⟨ph, prog, G⟩ := hI
  have hb : ∀ x ∈ reclaims s.log, x < r.task_count := by
    intro x hx
    apply G.valid
    rcases (G.reclaims_ph x).mp hx with ⟨t, h⟩ | h <;> rw [h] <;> simp
  have hlen : r.task_count ≤ (reclaims s.log).length := by
    have h1 := B.count_eq
    have h2 := B.total
    rw [hc, h2] at h1
    have h3 : (r.task_count : Int) ≤ ((reclaims s.log).length : Int) := by omega
    exact_mod_cast h3
  intro T hT
  have hmem := nodup_full (reclaims s.log) r.task_count G.reclaims_nodup hb hlen T hT
  have hph : ph T ≠ .waiting := by
    rcases (G.reclaims_ph T).mp hmem with ⟨t, h⟩ | h <;> rw [h] <;> simp
  exact le_antisymm (G.fanin_le T hph) (G.fanin_nonneg wf T hT)


theorem Sys.neverReady_of (T : Nat) (s s' : Sys) (t : Nat) (G : s.NeverReady T)
    (htasks : s'.rt.tasks = s.rt.tasks) (hlog : pushes s'.log = pushes s.log)
    (hthr : ∀ t', t' ≠ t → s'.thr t' = s.thr t')
    (hpc : ∀ i p j, (s'.thr t).pc ≠ .push i p j T) : s'.NeverReady T := by
  refine ⟨by rw [htasks]; exact G.fanin_le, fun t' i p j => ?_, by rw [hlog]; exact G.not_pushed⟩
  by_cases h : t' = t
  · subst h; exact hpc i p j
  · rw [hthr t' h]; exact G.no_push t' i p j

theorem Sys.neverReady_schedStep (T : Nat) (s : Sys) (t : Nat) (G : s.NeverReady T) :
    (s.schedStep t).NeverReady T := by
  have hset : ∀ (s1 : Sys) (pc : Pc) (t' : Nat), t' ≠ t → (s1.setPc t pc).thr t' = s1.thr t' := by
    intro s1 pc t' h
    simp [Sys.setPc, Function.update_noteq h]
  cases hpc : (s.thr t).pc with
  | loopHead =>
      simp only [Sys.schedStep, hpc]
      split_ifs <;>
        exact Sys.neverReady_of T s _ t G rfl rfl (hset s _) (by simp [Sys.setPc])
  | phaseA i =>
      simp only [Sys.schedStep, hpc]
      split_ifs
      · refine Sys.neverReady_of T s _ t G rfl ?_ (hset _ _) (by simp [Sys.setPc])
        simp [Sys.setPc, pushes_append, pushes]
      · exact Sys.neverReady_of T s _ t G rfl rfl (hset s _) (by simp [Sys.setPc])
      · exact Sys.neverReady_of T s _ t G rfl rfl (hset s _) (by simp [Sys.setPc])
  | fanout i task j =>
      simp only [Sys.schedStep, hpc]
      cases hget : (s.rt.tasks task).fanout.get? j with
      | none =>
          simp only []
          exact Sys.neverReady_of T s _ t G rfl rfl (hset s _) (by simp [Sys.setPc])
      | some dep_id =>
          simp only []
          have hf : ((s.fetchSubFanin dep_id).rt.tasks T).fanin ≤ 0 := by
            have := G.fanin_le
            by_cases hd : T = dep_id
            · subst hd
              simp only [Sys.fetchSubFanin, Function.update_same]
              omega
            · simp only [Sys.fetchSubFanin, Function.update_noteq hd]
              exact this
          split_ifs with h1
          · refine ⟨hf, fun t' i' p' j' => ?_, G.not_pushed⟩
            by_cases h : t' = t
            · subst h
              simp only [Sys.setPc, Function.update_same]
              intro hc
              injection hc with _ _ _ hd
              have := G.fanin_le
              rw [← hd, h1] at this
              omega
            · rw [hset _ _ t' h]; exact G.no_push t' i' p' j'
          · refine ⟨hf, fun t' i' p' j' => ?_, G.not_pushed⟩
            by_cases h : t' = t
            · subst h
              simp [Sys.setPc]
            · rw [hset _ _ t' h]; exact G.no_push t' i' p' j'
  | push i task j dep_id =>
      simp only [Sys.schedStep, hpc]
      have hd : dep_id ≠ T := by
        intro h
        exact G.no_push t i task j (h ▸ hpc)
      have hlog : pushes (s.pushReady dep_id).log = pushes s.log ++ [dep_id] := by
        unfold Sys.pushReady
        split_ifs <;> simp [pushes_append, pushes]
      have htasks : (s.pushReady dep_id).rt.tasks = s.rt.tasks := by
        unfold Sys.pushReady
        split_ifs <;> rfl
      have hthr : (s.pushReady dep_id).thr = s.thr := by
        unfold Sys.pushReady
        split_ifs <;> rfl
      refine ⟨by show (((s.pushReady dep_id).setPc t _).rt.tasks T).fanin ≤ 0
                 simp only [Sys.setPc, htasks]; exact G.fanin_le,
        fun t' i' p' j' => ?_, ?_⟩
      · by_cases h : t' = t
        · subst h
          simp [Sys.setPc]
        · rw [hset _ _ t' h, hthr]; exact G.no_push t' i' p' j'
      · show T ∉ pushes ((s.pushReady dep_id).setPc t _).log
        simp only [Sys.setPc, hlog, List.mem_append, List.mem_singleton, not_or]
        exact ⟨G.not_pushed, fun h => hd h.symm⟩
  | clear i task =>
      simp only [Sys.schedStep, hpc]
      refine Sys.neverReady_of T s _ t G rfl rfl (fun t' h => ?_) ?_
      · simp [Sys.setHank, Function.update_noteq h]
      · simp [Sys.setHank]
  | count i task =>
      simp only [Sys.schedStep, hpc]
      refine Sys.neverReady_of T s _ t G rfl rfl (fun t' h => ?_) ?_
      · simp [Function.update_noteq h]
      · simp
  | backPressure =>
      simp only [Sys.schedStep, hpc]
      split_ifs <;>
        exact Sys.neverReady_of T s _ t G rfl rfl (hset s _) (by simp [Sys.setPc])
  | phaseB i =>
      simp only [Sys.schedStep, hpc]
      split_ifs <;>
        exact Sys.neverReady_of T s _ t G rfl rfl (hset s _) (by simp [Sys.setPc])
  | pop i =>
      simp only [Sys.schedStep, hpc, Sys.popReady]
      split_ifs <;>
        first
        | exact Sys.neverReady_of T s _ t G rfl rfl (hset s _) (by simp [Sys.setPc])
        | exact Sys.neverReady_of T s _ t G rfl (by simp [Sys.setPc, pushes_append, pushes])
            (hset _ _) (by simp [Sys.setPc])
  | publish i task_id =>
      simp only [Sys.schedStep, hpc]
      exact Sys.neverReady_of T s _ t G rfl rfl (hset _ _) (by simp [Sys.setPc])
  | busy i =>
      simp only [Sys.schedStep, hpc]
      refine Sys.neverReady_of T s _ t G rfl rfl (fun t' h => ?_) ?_
      · simp [Sys.setHank, Function.update_noteq h]
      · simp [Sys.setHank]
  | done =>
      simp only [Sys.schedStep, hpc]
      exact G


theorem Sys.neverReady_step (T : Nat) (s : Sys) (a : Action) (G : s.NeverReady T) :
    (s.step a).NeverReady T := by
  cases a with
  | sched t =>
      simp only [Sys.step]
      split_ifs
      · exact Sys.neverReady_schedStep T s t G
      · exact G
  | worker c =>
      simp only [Sys.step]
      split_ifs
      swap
      · exact G
      cases hw : s.wrk c with
      | poll =>
          simp only [Sys.workerStep, hw]
          split_ifs
          · exact ⟨G.fanin_le, G.no_push, G.not_pushed⟩
          · exact ⟨G.fanin_le, G.no_push, G.not_pushed⟩
          · exact G
      | exec task_ptr =>
          simp only [Sys.workerStep, hw, Sys.execute_task]
          split_ifs
          · exact ⟨G.fanin_le, G.no_push, G.not_pushed⟩
          · exact ⟨G.fanin_le, G.no_push, G.not_pushed⟩
          · refine ⟨G.fanin_le, G.no_push, ?_⟩
            show T ∉ pushes (s.log ++ [Event.kernel (task_ptr - 1) c])
            simp only [pushes_append, pushes, List.append_nil]
            exact G.not_pushed
      | post =>
          simp only [Sys.workerStep, hw]
          exact ⟨G.fanin_le, G.no_push, G.not_pushed⟩
      | exited =>
          simp only [Sys.workerStep, hw]
          exact G

theorem Sys.neverReady_run (T : Nat) (schedule : List Action) (s : Sys) (G : s.NeverReady T) :
    (s.run schedule).NeverReady T := by
  induction schedule generalizing s with
  | nil => exact G
  | cons a l ih => exact ih (s.step a) (Sys.neverReady_step T s a G)

theorem Sys.step_initial_ready (s : Sys) (a : Action) :
    (s.step a).rt.initial_ready = s.rt.initial_ready := by
  cases a with
  | sched t =>
      simp only [Sys.step]
      split_ifs
      swap
      · rfl
      cases hpc : (s.thr t).pc <;> simp only [Sys.schedStep, hpc, Sys.popReady, Sys.pushReady]
      all_goals first
        | rfl
        | (split_ifs <;> rfl)
        | (split <;> first | rfl | (split_ifs <;> rfl))
  | worker c =>
      simp only [Sys.step]
      split_ifs
      swap
      · rfl
      cases hw : s.wrk c <;> simp only [Sys.workerStep, hw, Sys.execute_task]
      all_goals first
        | rfl
        | (split_ifs <;> rfl)

theorem Sys.run_initial_ready (schedule : List Action) (s : Sys) :
    (s.run schedule).rt.initial_ready = s.rt.initial_ready := by
  induction schedule generalizing s with
  | nil => rfl
  | cons a l ih => exact (ih (s.step a)).trans (Sys.step_initial_ready s a)

theorem Sys.completed_of_done (r : Runtime) (s : Sys) (hI : s.Inv r) (B : s.Book r) (t : Nat)
    (ht : (t : Int) < s.ex.thread_num_) (hpc : (s.thr t).pc = .done) :
    s.ex.completed_tasks_ = s.ex.total_tasks_ := by
  obtain ⟨ph, prog, G⟩ := hI
  have hb : ∀ x ∈ reclaims s.log, x < r.task_count := by
    intro x hx
    apply G.valid
    rcases (G.reclaims_ph x).mp hx with ⟨t, h⟩ | h <;> rw [h] <;> simp
  have h1 := nodup_length_le (reclaims s.log) r.task_count G.reclaims_nodup hb
  have h2 := B.count_eq
  have h3 := B.done_le t ht hpc
  have h4 := B.total
  omega


theorem Sys.teardown_rt (s : Sys) : s.teardown.rt = s.rt := rfl

/-- After a launch that completed every task, every fan-in counter of the runtime is `0`,
and in a second launch of that runtime a task with a predecessor is never pushed. -/
theorem Sys.after_launch (e : AicpuExecutor) (r : Runtime) (wf : r.WellFormed)
    (hfirst : e.initialized_ = false) (hk : e.blockdim_cores_num_ = 3)
    (hov : -2147483648 ≤ 3 * r.block_dim ∧ 3 * r.block_dim ≤ 2147483647)
    (hok : (e.Init (some r)).1 = 0) (schedule : List Action)
    (hdone : ((Sys.init e r).run schedule).ex.completed_tasks_ =
      ((Sys.init e r).run schedule).ex.total_tasks_) :
    (∀ T, T < r.task_count → (((Sys.init e r).run schedule).rt.tasks T).fanin = 0) ∧
    (∀ T, T < r.task_count → 1 ≤ r.predCount T → ∀ schedule2 : List Action,
      T ∉ pushes (((Sys.init e r).run schedule).relaunch.run schedule2).log) := by
  obtain ⟨hI, B⟩ := Sys.reach e r wf hfirst hk hov hok schedule
  have hz := Sys.fanin_zero_of_completed r wf _ hI B hdone
  refine ⟨hz, fun T hT hp schedule2 => ?_⟩
  apply (Sys.neverReady_run T schedule2 _ _).not_pushed
  refine ⟨?_, fun t i p j => by simp [Sys.relaunch, Sys.init], ?_⟩
  · show ((((Sys.init e r).run schedule).rt).tasks T).fanin ≤ 0
    rw [hz T hT]
  · show T ∉ pushes ((((Sys.init e r).run schedule).rt).initial_ready.map Event.push)
    rw [pushes_map_push, Sys.run_initial_ready]
    intro hmem
    have h1 := (wf.ready_sound T hmem).2
    have h2 := wf.fanin_eq T hT
    have h3 : (r.predCount T : Int) = 0 := by rw [← h2]; exact h1
    omega

/-- C12, as amended: `DeInit` resets the executor and writes nothing of the runtime.
After a launch of a well-formed runtime that completed every task, and its teardown, the
ten fields of the executor are at their fresh values, and the fan-in counter of every
task is `0`: it is back at its value before the launch for the tasks without
predecessor only. A task with a predecessor is never pushed to a ready queue in a second
launch of the runtime as it was left. -/
theorem teardown_leaves_fanin_zero (e : AicpuExecutor) (r : Runtime) (wf : r.WellFormed)
    (hfirst : e.initialized_ = false) (hk : e.blockdim_cores_num_ = 3)
    (hov : -2147483648 ≤ 3 * r.block_dim ∧ 3 * r.block_dim ≤ 2147483647)
    (hok : (e.Init (some r)).1 = 0) (schedule : List Action)
    (hdone : ((Sys.init e r).run schedule).ex.completed_tasks_ =
      ((Sys.init e r).run schedule).ex.total_tasks_) :
    ((Sys.init e r).run schedule).teardown.rt = ((Sys.init e r).run schedule).rt ∧
    ((Sys.init e r).run schedule).teardown.ex.scalars = freshExecutor.scalars ∧
    (∀ T, T < r.task_count →
      (((Sys.init e r).run schedule).teardown.rt.tasks T).fanin = 0 ∧
      ((((Sys.init e r).run schedule).teardown.rt.tasks T).fanin = (r.tasks T).fanin ↔
        r.predCount T = 0)) ∧
    (∀ T, T < r.task_count → 1 ≤ r.predCount T → ∀ schedule2 : List Action,
      T ∉ pushes (((Sys.init e r).run schedule).relaunch.run schedule2).log) := by
  obtain ⟨h1, h2⟩ := Sys.after_launch e r wf hfirst hk hov hok schedule hdone
  refine ⟨rfl, rfl, fun T hT => ⟨h1 T hT, ?_⟩, h2⟩
  show (((Sys.init e r).run schedule).rt.tasks T).fanin = (r.tasks T).fanin ↔ _
  rw [h1 T hT, wf.fanin_eq T hT]
  constructor
  · intro h; exact_mod_cast h.symm
  · intro h; rw [h]; rfl

theorem diamond_completed :
    ((Sys.init freshExecutor diamondRuntime).run diamondSchedule).ex.completed_tasks_ =
      ((Sys.init freshExecutor diamondRuntime).run diamondSchedule).ex.total_tasks_ := by
  obtain ⟨hI, B⟩ := Sys.reach freshExecutor diamondRuntime diamondRuntime_wf rfl rfl
    diamond_no_overflow diamond_init_ok diamondSchedule
  obtain ⟨-, htn, hpc⟩ := diamond_run
  exact Sys.completed_of_done diamondRuntime _ hI B 0 (by rw [htn]; decide) hpc

theorem teardown_leaves_fanin_zero_witness :
    (((Sys.init freshExecutor diamondRuntime).run diamondSchedule).teardown.rt.tasks 0).fanin
      = 0 ∧
    ((Sys.init freshExecutor diamondRuntime).run diamondSchedule).teardown.ex.scalars
      = freshExecutor.scalars :=
  ⟨((teardown_leaves_fanin_zero freshExecutor diamondRuntime diamondRuntime_wf rfl rfl
      diamond_no_overflow diamond_init_ok diamondSchedule diamond_completed).2.2.1 0
        (by decide)).1,
    (teardown_leaves_fanin_zero freshExecutor diamondRuntime diamondRuntime_wf rfl rfl
      diamond_no_overflow diamond_init_ok diamondSchedule diamond_completed).2.1⟩

/-- C12, the claim as written fails: after the launch of the diamond has completed its
three tasks and `DeInit` has run, the fan-in counter of task `2` is `0`, where it was `2`,
the number of its predecessors, before the launch; in a second launch of that runtime
with the same schedule task `2` is not pushed to a ready queue. -/
theorem teardown_fanin_not_restored :
    ((Sys.init freshExecutor diamondRuntime).run diamondSchedule).ex.completed_tasks_ =
      ((Sys.init freshExecutor diamondRuntime).run diamondSchedule).ex.total_tasks_ ∧
    (((Sys.init freshExecutor diamondRuntime).run diamondSchedule).teardown.rt.tasks 2).fanin
      = 0 ∧
    (diamondRuntime.tasks 2).fanin = 2 ∧ diamondRuntime.predCount 2 = 2 ∧
    2 ∉ pushes (((Sys.init freshExecutor diamondRuntime).run diamondSchedule).relaunch.run
      diamondSchedule).log := by
  obtain ⟨h1, h2⟩ := Sys.after_launch freshExecutor diamondRuntime diamondRuntime_wf rfl rfl
    diamond_no_overflow diamond_init_ok diamondSchedule diamond_completed
  refine ⟨diamond_completed, ?_, by decide, by decide, h2 2 (by decide) (by decide) _⟩
  rw [Sys.teardown_rt]
  exact h1 2 (by decide)


/-- C21: after a successful `Init` with `n = thread_num_`, `b = block_dim` and
`p = b / n`, the row `t < n` of `core_assignments_` holds the compute id `t * p + k` at
index `k < p` and the vector ids `b + 2 * (t * p + k) + j`, `j < 2`, at index
`p + 2 * k + j`; all three indices lie below `thread_cores_num_ = 3 * p`, so the compute
core and the two vector cores of block `t * p + k` are cores of thread `t`. -/
theorem Init_rows_packed (e : AicpuExecutor) (r : Runtime) (hfirst : e.initialized_ = false)
    (hk : e.blockdim_cores_num_ = 3)
    (hov : -2147483648 ≤ 3 * r.block_dim ∧ 3 * r.block_dim ≤ 2147483647)
    (hok : (e.Init (some r)).1 = 0) :
    (e.Init (some r)).2.thread_cores_num_
      = 3 * Int.tdiv r.block_dim (e.Init (some r)).2.thread_num_ ∧
    ∀ t k : Nat, (t : Int) < (e.Init (some r)).2.thread_num_ →
      (k : Int) < Int.tdiv r.block_dim (e.Init (some r)).2.thread_num_ →
      (e.Init (some r)).2.core_assignments_ t k
        = (t : Int) * Int.tdiv r.block_dim (e.Init (some r)).2.thread_num_ + k ∧
      (k : Int) < (e.Init (some r)).2.thread_cores_num_ ∧
      ∀ j : Nat, j < 2 →
        (e.Init (some r)).2.core_assignments_ t
            ((Int.tdiv r.block_dim (e.Init (some r)).2.thread_num_).toNat + 2 * k + j)
          = r.block_dim
            + 2 * ((t : Int) * Int.tdiv r.block_dim (e.Init (some r)).2.thread_num_ + k) + j ∧
        (((Int.tdiv r.block_dim (e.Init (some r)).2.thread_num_).toNat + 2 * k + j : Nat) : Int)
          < (e.Init (some r)).2.thread_cores_num_ := by
  obtain ⟨n, q, hn1, -, hb, -, htn, htc, -, ha⟩ := Init_assignments e r hfirst hk hov hok
  have hq : Int.tdiv r.block_dim (e.Init (some r)).2.thread_num_ = q := by
    rw [htn, hb]
    exact Int.mul_tdiv_cancel_left q (by omega)
  rw [hq]
  refine ⟨htc, fun t k ht hkq => ?_⟩
  rw [htn] at ht
  have ht' : t < n := by exact_mod_cast ht
  have hP : q = (q.toNat : Int) := by omega
  have hkP : k < q.toNat := by omega
  refine ⟨?_, by omega, fun j hj => ⟨?_, by omega⟩⟩
  · rw [ha q.toNat hP t k ht' (by omega), if_pos hkP, ← hP]
  · rw [ha q.toNat hP t (q.toNat + 2 * k + j) ht' (by omega), if_neg (by omega)]
    have h1 : q.toNat + 2 * k + j - q.toNat = 2 * k + j := by omega
    have h2 : (2 * k + j) / 2 = k := by omega
    have h3 : (2 * k + j) % 2 = j := by omega
    rw [h1, h2, h3, hb, ← hP]
    ring

theorem Init_rows_packed_witness :
    (freshExecutor.Init (some (oneTaskRuntime 2 4))).2.core_assignments_ 1 1 = 3 ∧
    (freshExecutor.Init (some (oneTaskRuntime 2 4))).2.core_assignments_ 1 5 = 11 := by
  obtain ⟨h1, -, h3⟩ := (Init_rows_packed freshExecutor (oneTaskRuntime 2 4) rfl rfl
    (by decide) (by decide)).2 1 1 (by decide) (by decide)
  exact ⟨h1, (h3 1 (by decide)).1⟩


/-- C26, the code departs from the claim: for a core whose register base is `0`,
`WriteToAicore` leaves every register as it was, but `EnableToWritting` and
`CloseToWritting`, which have no test of the base, write all the same. On a register
file of zeros `EnableToWritting` leaves `0xE` at address `0x18`; on a file that holds `7`
everywhere it also writes `0` at address `0xA0`; `CloseToWritting` leaves `0xF` at
address `0x18`. -/
theorem register_ops_zero_base :
    (∀ (regs file : Nat → Nat) (coreid val : Nat), regs coreid = 0 →
      WriteToAicore regs file coreid val = file) ∧
    (∀ (regs file : Nat → Nat) (coreid : Nat), regs coreid = 0 →
      EnableToWritting regs file coreid REG_SPR_FAST_PATH_ENABLE = REG_SPR_FAST_PATH_OPEN ∧
      EnableToWritting regs file coreid REG_SPR_DATA_MAIN_BASE = 0 ∧
      CloseToWritting regs file coreid REG_SPR_FAST_PATH_ENABLE = REG_SPR_FAST_PATH_CLOSE) ∧
    EnableToWritting (fun _ => 0) (fun _ => 0) 0 0x18 = 0xE ∧
    EnableToWritting (fun _ => 0) (fun _ => 0) 0 ≠ (fun _ => 0) ∧
    EnableToWritting (fun _ => 0) (fun _ => 7) 0 0xA0 = 0 ∧
    CloseToWritting (fun _ => 0) (fun _ => 0) 0 0x18 = 0xF ∧
    CloseToWritting (fun _ => 0) (fun _ => 0) 0 ≠ (fun _ => 0) := by
  refine ⟨?_, ?_, by decide, ?_, by decide, by decide, ?_⟩
  · intro regs file coreid val h
    simp [WriteToAicore, h]
  · intro regs file coreid h
    refine ⟨?_, ?_, ?_⟩
    · simp [EnableToWritting, h, REG_SPR_FAST_PATH_ENABLE, REG_SPR_DATA_MAIN_BASE,
        REG_SPR_FAST_PATH_OPEN]
    · unfold EnableToWritting
      rw [h]
      exact Function.update_same _ _ _
    · unfold CloseToWritting
      rw [h]
      exact Function.update_same _ _ _
  · intro h
    have := congrFun h 0x18
    revert this
    decide
  · intro h
    have := congrFun h 0x18
    revert this
    decide


theorem wrapped_init_ok : (freshExecutor.Init (some (oneTaskRuntime 1 1431655766))).1 = 0 :=
  Init_accepts_of_config freshExecutor (oneTaskRuntime 1 1431655766) rfl (by decide)
    (by decide) (by decide)

/-- C24, the code departs from the claim: with `scheCpuNum = 1` and
`block_dim = 1431655766`, `block_dim * 3` is `2` modulo `2^32`, so `Init` passes the test
against `MAX_CORES_PER_THREAD = 72`, returns `0` and stores `init_done_`, with
`cores_total_num_ = 2` where `3 * block_dim` is `4294967298`; the assignment loop then
runs over all `1431655766` blocks and writes row `0` past its end: the entries `72` and
`100` of a row that held zeros hold `72` and `100`. With `block_dim = -1`, `Init` returns
`0` and stores `init_done_` as well. -/
theorem Init_accepts_wrapped_block_dim :
    wrapInt32 ((oneTaskRuntime 1 1431655766).block_dim * 3) = 2 ∧
    (freshExecutor.Init (some (oneTaskRuntime 1 1431655766))).1 = 0 ∧
    (freshExecutor.Init (some (oneTaskRuntime 1 1431655766))).2.init_done_ = true ∧
    (freshExecutor.Init (some (oneTaskRuntime 1 1431655766))).2.thread_num_ *
      (freshExecutor.Init (some (oneTaskRuntime 1 1431655766))).2.thread_cores_num_ = 2 ∧
    3 * (oneTaskRuntime 1 1431655766).block_dim = 4294967298 ∧
    MAX_CORES_PER_THREAD = 72 ∧
    freshExecutor.core_assignments_ 0 72 = 0 ∧
    (freshExecutor.Init (some (oneTaskRuntime 1 1431655766))).2.core_assignments_ 0 72 = 72 ∧
    (freshExecutor.Init (some (oneTaskRuntime 1 1431655766))).2.core_assignments_ 0 100 = 100 ∧
    (freshExecutor.Init (some (oneTaskRuntime 1 (-1)))).1 = 0 ∧
    (freshExecutor.Init (some (oneTaskRuntime 1 (-1)))).2.init_done_ = true ∧
    (oneTaskRuntime 1 (-1)).block_dim < 0 := by
  obtain ⟨-, -, -, hE⟩ := Init_ok freshExecutor (oneTaskRuntime 1 1431655766) rfl wrapped_init_ok
  have hrow : ∀ j : Nat, j < 1431655766 →
      (freshExecutor.Init (some (oneTaskRuntime 1 1431655766))).2.core_assignments_ 0 j = j := by
    intro j hj
    have hb : (oneTaskRuntime 1 1431655766).block_dim = 1431655766 := rfl
    have hn : threadNumOf (oneTaskRuntime 1 1431655766) = 1 := by decide
    rw [hE]
    dsimp only
    rw [hn, hb]
    have h1 : Int.tdiv 1431655766 1 = ((1431655766 : Nat) : Int) := by decide
    rw [h1]
    unfold assignCores
    have h2 : (1 : Int).toNat = 1 := rfl
    rw [h2, assignCores_foldl, if_pos (by decide), assignRow_eq, if_pos hj]
    simp
  refine ⟨by decide, wrapped_init_ok, by rw [hE], ?_, by decide, by decide, rfl,
    hrow 72 (by decide), hrow 100 (by decide), by decide, by decide, by decide⟩
  rw [hE]
  decide


theorem Launch.poisoned_step (runtime : Option Runtime) (s : Launch) (k : Nat)
    (P : s.Poisoned) :
    (Launch.step runtime s k).Poisoned ∧ (Launch.step runtime s k).ex = s.ex ∧
    (Launch.step runtime s k).workers = s.workers ∧
    (Launch.step runtime s k).regfile = s.regfile ∧
    (∀ k', k' ≠ k → (Launch.step runtime s k).call k' = s.call k') ∧
    ((Launch.step runtime s k).call k).stepsLeft ≤ (s.call k).stepsLeft - 1 := by
  obtain ⟨hi, hd, hf, hall⟩ := P
  have key : ∀ pc : CallPc,
      (pc = .entry ∨ pc = .waitDone ∨ pc = .waitFailed ∨ pc = .returned (-1)) →
      pc.stepsLeft ≤ (s.call k).stepsLeft - 1 →
      (s.setCall k pc).Poisoned ∧ (s.setCall k pc).ex = s.ex ∧
      (s.setCall k pc).workers = s.workers ∧ (s.setCall k pc).regfile = s.regfile ∧
      (∀ k', k' ≠ k → (s.setCall k pc).call k' = s.call k') ∧
      ((s.setCall k pc).call k).stepsLeft ≤ (s.call k).stepsLeft - 1 := by
    intro pc hpc hle
    refine ⟨⟨hi, hd, hf, fun k' => ?_⟩, rfl, rfl, rfl, fun k' hk' => ?_, ?_⟩
    · rw [Launch.setCall_call]
      split_ifs
      · exact hpc
      · exact hall k'
    · rw [Launch.setCall_call, if_neg hk']
    · rw [Launch.setCall_call, if_pos rfl]
      exact hle
  rcases hall k with h | h | h | h
  · cases runtime with
    | none =>
        rw [Launch.step_entry_none s k h]
        exact key _ (Or.inr (Or.inr (Or.inr rfl))) (by simp [CallPc.stepsLeft])
    | some r =>
        rw [Launch.step_entry_claimed r s k h hi]
        exact key _ (Or.inr (Or.inl rfl)) (by rw [h]; simp [CallPc.stepsLeft])
  · rw [Launch.step_waitDone runtime s k h hd]
    exact key _ (Or.inr (Or.inr (Or.inl rfl))) (by rw [h]; simp [CallPc.stepsLeft])
  · rw [Launch.step_waitFailed runtime s k h, if_pos hf]
    exact key _ (Or.inr (Or.inr (Or.inr rfl))) (by simp [CallPc.stepsLeft])
  · rw [Launch.step_returned runtime s k _ h]
    refine ⟨⟨hi, hd, hf, hall⟩, rfl, rfl, rfl, fun _ _ => rfl, ?_⟩
    rw [h]
    simp [CallPc.stepsLeft]

theorem Launch.poisoned_run (runtime : Option Runtime) (schedule : List Nat) (s : Launch)
    (P : s.Poisoned) :
    (Launch.run runtime s schedule).Poisoned ∧ (Launch.run runtime s schedule).ex = s.ex ∧
    (Launch.run runtime s schedule).workers = s.workers ∧
    (Launch.run runtime s schedule).regfile = s.regfile ∧
    ∀ k, ((Launch.run runtime s schedule).call k).stepsLeft + schedule.count k
      ≤ max (s.call k).stepsLeft (schedule.count k) := by
  induction schedule generalizing s with
  | nil => exact ⟨P, rfl, rfl, rfl, fun k => by simp [Launch.run]⟩
  | cons a l ih =>
      obtain ⟨P1, e1, w1, r1, o1, d1⟩ := Launch.poisoned_step runtime s a P
      obtain ⟨P2, e2, w2, r2, d2⟩ := ih (Launch.step runtime s a) P1
      refine ⟨P2, e2.trans e1, w2.trans w1, r2.trans r1, fun k => ?_⟩
      have h := d2 k
      show ((Launch.run runtime (Launch.step runtime s a) l).call k).stepsLeft + _ ≤ _
      by_cases hk : k = a
      · subst hk
        rw [List.count_cons_self]
        omega
      · rw [List.count_cons_of_ne hk]
        rw [o1 k hk] at h
        exact h


/-- C25: when the first `Init` of the process-wide executor fails it leaves
`initialized_` and `init_failed_` set and `init_done_` clear. In every interleaving of
the callers of a later launch, whatever its runtime, the executor stays exactly as the
failed `Init` left it, no caller enters `Run` (so none reaches `DeInit`), the handshake
cells and the register file are untouched, every caller that returns returns `-1`, and a
caller has returned `-1` once it has taken three steps. -/
theorem failed_Init_is_permanent (e : AicpuExecutor) (first later : Option Runtime)
    (hfirst : e.initialized_ = false) (hd : e.init_done_ = false)
    (hfail : (e.Init first).1 ≠ 0)
    (workers : Nat → Handshake) (regfile : Nat → Nat) (schedule : List Nat) :
    (e.Init first).2.initialized_ = true ∧ (e.Init first).2.init_failed_ = true ∧
    (e.Init first).2.init_done_ = false ∧
    (Launch.run later (Launch.start (e.Init first).2 workers regfile) schedule).ex
      = (e.Init first).2 ∧
    (Launch.run later (Launch.start (e.Init first).2 workers regfile) schedule).workers
      = workers ∧
    (Launch.run later (Launch.start (e.Init first).2 workers regfile) schedule).regfile
      = regfile ∧
    (∀ k, (Launch.run later (Launch.start (e.Init first).2 workers regfile) schedule).call k
        ≠ .run ∧
      (∀ t i, (Launch.run later (Launch.start (e.Init first).2 workers regfile) schedule).call k
        ≠ .hank t i) ∧
      (∀ t, (Launch.run later (Launch.start (e.Init first).2 workers regfile) schedule).call k
        ≠ .dispatching t)) ∧
    (∀ k rc, (Launch.run later (Launch.start (e.Init first).2 workers regfile) schedule).call k
      = .returned rc → rc = -1) ∧
    (∀ k, 3 ≤ schedule.count k →
      (Launch.run later (Launch.start (e.Init first).2 workers regfile) schedule).call k
        = .returned (-1)) := by
  have hI : e.Init first = e.claim.InitBody first := by
    simp [AicpuExecutor.Init, hfirst]
  have hfail2 : (e.claim.InitBody first).1 ≠ 0 := hI ▸ hfail
  obtain ⟨-, f1, f2, f3⟩ := InitBody_failed e.claim first hfail2
  have g1 : (e.Init first).2.initialized_ = true := by rw [hI, f3]; rfl
  have g2 : (e.Init first).2.init_failed_ = true := by rw [hI, f1]
  have g3 : (e.Init first).2.init_done_ = false := by rw [hI, f2]; exact hd
  have P0 : (Launch.start (e.Init first).2 workers regfile).Poisoned :=
    ⟨g1, g3, g2, fun _ => Or.inl rfl⟩
  obtain ⟨P, he, hw, hr, hc⟩ := Launch.poisoned_run later schedule _ P0
  refine ⟨g1, g2, g3, he, hw, hr, fun k => ?_, fun k rc h => ?_, fun k h3 => ?_⟩
  · rcases P.2.2.2 k with h | h | h | h <;> rw [h] <;> simp
  · rcases P.2.2.2 k with h' | h' | h' | h' <;> rw [h'] at h <;> simp at h
    exact h.symm
  · have h := hc k
    have h0 : ((Launch.start (e.Init first).2 workers regfile).call k).stepsLeft = 3 := rfl
    rw [h0] at h
    have hz : ((Launch.run later (Launch.start (e.Init first).2 workers regfile)
        schedule).call k).stepsLeft = 0 := by omega
    rcases P.2.2.2 k with h' | h' | h' | h'
    · rw [h'] at hz; simp [CallPc.stepsLeft] at hz
    · rw [h'] at hz; simp [CallPc.stepsLeft] at hz
    · rw [h'] at hz; simp [CallPc.stepsLeft] at hz
    · exact h'

theorem failed_Init_is_permanent_witness :
    (freshExecutor.Init (some (oneTaskRuntime 5 1))).1 ≠ 0 ∧
    (freshExecutor.Init (some (oneTaskRuntime 1 1))).1 = 0 ∧
    (Launch.run (some (oneTaskRuntime 1 1))
      (Launch.start (freshExecutor.Init (some (oneTaskRuntime 5 1))).2
        (oneTaskRuntime 1 1).workers (fun _ => 0)) [0, 1, 0, 0]).call 0 = .returned (-1) :=
  ⟨by decide, by decide,
    (failed_Init_is_permanent freshExecutor (some (oneTaskRuntime 5 1))
      (some (oneTaskRuntime 1 1)) rfl rfl (by decide) (oneTaskRuntime 1 1).workers
      (fun _ => 0) [0, 1, 0, 0]).2.2.2.2.2.2.2.2 0 (by decide)⟩


theorem queueList_length_toNat (q : Nat → Nat) (c : Int) : (queueList q c).length = c.toNat := by
  simp [queueList]

/-- The ready counts of a state that satisfies the invariant: neither is negative, they
add up to at most `task_count`, and to less than `task_count` while a thread is about to
push. -/
theorem View.Ghost.queue_bound {v : View} {r : Runtime} {ph : Nat → Phase} {prog : Nat → Nat}
    (G : v.Ghost r ph prog) :
    v.ex.ready_count_aic_ + v.ex.ready_count_aiv_ ≤ (r.task_count : Int) ∧
    ∀ (t : Nat) (d : Nat), ph d = .pending t →
      v.ex.ready_count_aic_ + v.ex.ready_count_aiv_ < (r.task_count : Int) := by
  have ha := G.count_aic
  have hv := G.count_aiv
  have hlen : (queueList v.ex.ready_queue_aic_ v.ex.ready_count_aic_ ++
      queueList v.ex.ready_queue_aiv_ v.ex.ready_count_aiv_).length =
      v.ex.ready_count_aic_.toNat + v.ex.ready_count_aiv_.toNat := by
    rw [List.length_append, queueList_length_toNat, queueList_length_toNat]
  have hb : ∀ x ∈ queueList v.ex.ready_queue_aic_ v.ex.ready_count_aic_ ++
      queueList v.ex.ready_queue_aiv_ v.ex.ready_count_aiv_, x < r.task_count := by
    intro x hx
    apply G.valid
    rw [G.queued x hx]
    simp
  constructor
  · have := nodup_length_le _ r.task_count G.queue_nodup hb
    omega
  · intro t d hd
    have hnot : d ∉ queueList v.ex.ready_queue_aic_ v.ex.ready_count_aic_ ++
        queueList v.ex.ready_queue_aiv_ v.ex.ready_count_aiv_ := by
      intro hmem
      have := G.queued d hmem
      rw [hd] at this
      cases this
    have hdv : d < r.task_count := G.valid d (by rw [hd]; simp)
    have := nodup_length_le (d :: (queueList v.ex.ready_queue_aic_ v.ex.ready_count_aic_ ++
        queueList v.ex.ready_queue_aiv_ v.ex.ready_count_aiv_)) r.task_count
      (List.nodup_cons.mpr ⟨hnot, G.queue_nodup⟩)
      (fun x hx => by
        rcases List.mem_cons.mp hx with h | h
        · rw [h]; exact hdv
        · exact hb x h)
    rw [List.length_cons, hlen] at this
    omega

/-- C22: for a well-formed runtime with `task_count ≤ RUNTIME_MAX_TASKS`, in every state
the dispatch loop reaches neither ready count is negative and the two add up to at most
`task_count`. When a thread is about to push, both counts, one of which is the index it
writes, are below `task_count` and so below `RUNTIME_MAX_TASKS`; a pop, which happens
for a positive count only, reads at `count - 1`, which is in `[0, RUNTIME_MAX_TASKS)`;
and `Init` seeds at most `task_count` ids. -/
theorem ready_queue_within_capacity (e : AicpuExecutor) (r : Runtime) (wf : r.WellFormed)
    (hfirst : e.initialized_ = false) (hk : e.blockdim_cores_num_ = 3)
    (hov : -2147483648 ≤ 3 * r.block_dim ∧ 3 * r.block_dim ≤ 2147483647)
    (hok : (e.Init (some r)).1 = 0) (schedule : List Action)
    (RUNTIME_MAX_TASKS : Nat) (hcap : r.task_count ≤ RUNTIME_MAX_TASKS) :
    0 ≤ ((Sys.init e r).run schedule).ex.ready_count_aic_ ∧
    0 ≤ ((Sys.init e r).run schedule).ex.ready_count_aiv_ ∧
    ((Sys.init e r).run schedule).ex.ready_count_aic_ +
      ((Sys.init e r).run schedule).ex.ready_count_aiv_ ≤ (r.task_count : Int) ∧
    (∀ t i T j d : Nat, (t : Int) < ((Sys.init e r).run schedule).ex.thread_num_ →
      (((Sys.init e r).run schedule).thr t).pc = .push i T j d →
      ((Sys.init e r).run schedule).ex.ready_count_aic_.toNat < RUNTIME_MAX_TASKS ∧
      ((Sys.init e r).run schedule).ex.ready_count_aiv_.toNat < RUNTIME_MAX_TASKS ∧
      ((Sys.init e r).run schedule).ex.ready_count_aic_ +
        ((Sys.init e r).run schedule).ex.ready_count_aiv_ < (r.task_count : Int)) ∧
    (0 < ((Sys.init e r).run schedule).ex.ready_count_aic_ →
      0 ≤ ((Sys.init e r).run schedule).ex.ready_count_aic_ - 1 ∧
      (((Sys.init e r).run schedule).ex.ready_count_aic_ - 1).toNat < RUNTIME_MAX_TASKS) ∧
    (0 < ((Sys.init e r).run schedule).ex.ready_count_aiv_ →
      0 ≤ ((Sys.init e r).run schedule).ex.ready_count_aiv_ - 1 ∧
      (((Sys.init e r).run schedule).ex.ready_count_aiv_ - 1).toNat < RUNTIME_MAX_TASKS) ∧
    r.initial_ready.length ≤ r.task_count := by
  obtain ⟨⟨ph, prog, G⟩, -⟩ := Sys.reach e r wf hfirst hk hov hok schedule
  have ha : 0 ≤ ((Sys.init e r).run schedule).ex.ready_count_aic_ := G.count_aic
  have hv : 0 ≤ ((Sys.init e r).run schedule).ex.ready_count_aiv_ := G.count_aiv
  obtain ⟨hsum, hpush⟩ := G.queue_bound
  have hsum' : ((Sys.init e r).run schedule).ex.ready_count_aic_ +
      ((Sys.init e r).run schedule).ex.ready_count_aiv_ ≤ (r.task_count : Int) := hsum
  refine ⟨ha, hv, hsum', fun t i T j d ht hpc => ?_, fun h => ⟨by omega, by omega⟩,
    fun h => ⟨by omega, by omega⟩,
    nodup_length_le r.initial_ready r.task_count wf.ready_nodup
      (fun x hx => (wf.ready_sound x hx).1)⟩
  have hth := G.thread t ht
  have hvpc : (((Sys.init e r).run schedule).view.thr t).pc =
      (((Sys.init e r).run schedule).thr t).pc := rfl
  rw [hvpc, hpc] at hth
  simp only [View.threadOk] at hth
  obtain ⟨-, -, -, -, hd, -, -⟩ := hth
  have hlt : ((Sys.init e r).run schedule).ex.ready_count_aic_ +
      ((Sys.init e r).run schedule).ex.ready_count_aiv_ < (r.task_count : Int) := hpush t d hd
  exact ⟨by omega, by omega, hlt⟩

theorem ready_queue_within_capacity_witness :
    diamondRuntime.task_count ≤ 3 ∧
    ((Sys.init freshExecutor diamondRuntime).run diamondSchedule).ex.ready_count_aic_ +
      ((Sys.init freshExecutor diamondRuntime).run diamondSchedule).ex.ready_count_aiv_
        ≤ (diamondRuntime.task_count : Int) :=
  ⟨by decide,
    (ready_queue_within_capacity freshExecutor diamondRuntime diamondRuntime_wf rfl rfl
      diamond_no_overflow diamond_init_ok diamondSchedule 3 (by decide)).2.2.1⟩


theorem countP_range_bump (p p' : Nat → Bool) (n i0 : Nat) (h0 : i0 < n)
    (hne : ∀ i, i < n → i ≠ i0 → p' i = p i) :
    (((List.range n).countP p' : Nat) : Int) + (if p i0 then 1 else 0) =
      (((List.range n).countP p : Nat) : Int) + (if p' i0 then 1 else 0) := by
  induction n with
  | zero => omega
  | succ n ih =>
      rw [List.range_succ, List.countP_append, List.countP_append]
      by_cases h : i0 = n
      · subst h
        have hc : (List.range i0).countP p' = (List.range i0).countP p := by
          apply List.countP_congr
          intro x hx
          have := List.mem_range.mp hx
          rw [hne x (by omega) (by omega)]
        rw [hc]
        simp only [List.countP_cons, List.countP_nil]
        push_cast
        split_ifs <;> omega
      · have := ih (by omega) (fun i hi hi0 => hne i (by omega) hi0)
        have hn : p' n = p n := hne n (by omega) (fun h' => h h'.symm)
        simp only [List.countP_cons, List.countP_nil, hn]
        push_cast
        omega

theorem occupiedOf_congr (ca : Nat → Nat → Int) (n : Int) (slot slot' : Nat → Nat) (t : Nat)
    (h : ∀ i : Nat, (i : Int) < n → slot' (ca t i).toNat = slot (ca t i).toNat) :
    occupiedOf ca n slot' t = occupiedOf ca n slot t := by
  unfold occupiedOf
  apply List.countP_congr
  intro i hi
  have := List.mem_range.mp hi
  rw [h i (by omega)]

theorem occupiedOf_le (ca : Nat → Nat → Int) (n : Int) (slot : Nat → Nat) (t : Nat) :
    occupiedOf ca n slot t ≤ n.toNat := by
  unfold occupiedOf
  have := List.countP_le_length (fun i => decide (slot (ca t i).toNat ≠ 0))
    (l := List.range n.toNat)
  rwa [List.length_range] at this

theorem occupiedOf_full (ca : Nat → Nat → Int) (n : Int) (slot : Nat → Nat) (t : Nat)
    (h : n.toNat ≤ occupiedOf ca n slot t) :
    ∀ i : Nat, (i : Int) < n → slot (ca t i).toNat ≠ 0 := by
  intro i hi
  have h1 : occupiedOf ca n slot t = (List.range n.toNat).length := by
    have := occupiedOf_le ca n slot t
    rw [List.length_range]
    omega
  unfold occupiedOf at h1
  have h2 := List.countP_eq_length.mp h1 i (List.mem_range.mpr (by omega))
  simpa using h2


theorem Sys.InFlight.step_same {s : Sys} (F : s.InFlight) (t : Nat) (s' : Sys)
    (l' : ThreadLocal)
    (hca : s'.ex.core_assignments_ = s.ex.core_assignments_)
    (hn : s'.ex.thread_cores_num_ = s.ex.thread_cores_num_)
    (htn : s'.ex.thread_num_ = s.ex.thread_num_)
    (hthr : s'.thr = Function.update s.thr t l')
    (hslot : (fun c => (s'.rt.workers c).task) = fun c => (s.rt.workers c).task)
    (hbal : l'.cur_thread_tasks_in_flight + l'.pc.published =
      (s.thr t).cur_thread_tasks_in_flight + (s.thr t).pc.published) : s'.InFlight := by
  intro t' ht'
  rw [htn] at ht'
  have hocc : s'.occupied t' = s.occupied t' := by
    unfold Sys.occupied
    rw [hca, hn, hslot]
  rw [hocc, hthr]
  by_cases h : t' = t
  · subst h
    rw [Function.update_same, hbal]
    exact F t' ht'
  · rw [Function.update_noteq h]
    exact F t' ht'

theorem Sys.InFlight.step_slot {s : Sys} (F : s.InFlight) (t : Nat) (s' : Sys)
    (l' : ThreadLocal)
    (inj : ∀ t i t' i' : Nat, (t : Int) < s.ex.thread_num_ →
      (i : Int) < s.ex.thread_cores_num_ → (t' : Int) < s.ex.thread_num_ →
      (i' : Int) < s.ex.thread_cores_num_ →
      (s.ex.core_assignments_ t i).toNat = (s.ex.core_assignments_ t' i').toNat →
      t = t' ∧ i = i')
    (ht : (t : Int) < s.ex.thread_num_) (i : Nat) (hi : (i : Int) < s.ex.thread_cores_num_)
    (v : Nat)
    (hca : s'.ex.core_assignments_ = s.ex.core_assignments_)
    (hn : s'.ex.thread_cores_num_ = s.ex.thread_cores_num_)
    (htn : s'.ex.thread_num_ = s.ex.thread_num_)
    (hthr : s'.thr = Function.update s.thr t l')
    (hslot : (fun c => (s'.rt.workers c).task) =
      Function.update (fun c => (s.rt.workers c).task) (s.ex.core_assignments_ t i).toNat v)
    (hbal : l'.cur_thread_tasks_in_flight + l'.pc.published +
        (if (s.rt.workers (s.ex.core_assignments_ t i).toNat).task ≠ 0 then 1 else 0) =
      (s.thr t).cur_thread_tasks_in_flight + (s.thr t).pc.published +
        (if v ≠ 0 then 1 else 0)) : s'.InFlight := by
  intro t' ht'
  rw [htn] at ht'
  rw [hthr]
  by_cases h : t' = t
  · subst h
    rw [Function.update_same]
    have hb := countP_range_bump
      (fun i' => decide ((s.rt.workers (s.ex.core_assignments_ t' i').toNat).task ≠ 0))
      (fun i' => decide (Function.update (fun c => (s.rt.workers c).task)
        (s.ex.core_assignments_ t' i).toNat v (s.ex.core_assignments_ t' i').toNat ≠ 0))
      s.ex.thread_cores_num_.toNat i (by omega) (by
        intro i' hi' hne
        have hc : (s.ex.core_assignments_ t' i').toNat ≠ (s.ex.core_assignments_ t' i).toNat :=
          fun heq => hne (inj t' i' t' i ht' (by omega) ht' hi heq).2
        simp only [Function.update_noteq hc])
    simp only [Function.update_same, decide_eq_true_eq] at hb
    have hF := F t' ht'
    have h1 : (s'.occupied t' : Int) = (((List.range s.ex.thread_cores_num_.toNat).countP
        (fun i' => decide (Function.update (fun c => (s.rt.workers c).task)
          (s.ex.core_assignments_ t' i).toNat v (s.ex.core_assignments_ t' i').toNat ≠ 0)) : Nat)
          : Int) := by
      unfold Sys.occupied occupiedOf
      rw [hca, hn, hslot]
    have h2 : (s.occupied t' : Int) = (((List.range s.ex.thread_cores_num_.toNat).countP
        (fun i' => decide ((s.rt.workers (s.ex.core_assignments_ t' i').toNat).task ≠ 0)) : Nat)
          : Int) := rfl
    rw [h1]
    rw [h2] at hF
    omega
  · rw [Function.update_noteq h]
    have hocc : s'.occupied t' = s.occupied t' := by
      unfold Sys.occupied
      rw [hca, hn, hslot]
      apply occupiedOf_congr
      intro i' hi'
      have hc : (s.ex.core_assignments_ t' i').toNat ≠ (s.ex.core_assignments_ t i).toNat :=
        fun heq => h (inj t' i' t i ht' hi' ht hi heq).1
      rw [Function.update_noteq hc]
    rw [hocc]
    exact F t' ht'


theorem taskAddr_ne_zero (T : Nat) : taskAddr T ≠ 0 := by
  simp [taskAddr]

/-- The in-flight counters are kept by every step of a scheduler thread. -/
theorem Sys.inFlight_schedStep (r : Runtime) (s : Sys) (t : Nat)
    (ht : (t : Int) < s.ex.thread_num_) (hI : s.Inv r) (F : s.InFlight) :
    (s.schedStep t).InFlight := by
  obtain ⟨ph, prog, G⟩ := hI
  have hth := G.thread t ht
  have hvpc : (s.view.thr t).pc = (s.thr t).pc := rfl
  rw [hvpc] at hth
  cases hpc : (s.thr t).pc with
  | loopHead =>
      simp only [Sys.schedStep, hpc]
      split_ifs <;>
        exact F.step_same t _ _ rfl rfl rfl rfl rfl (by simp [hpc, Pc.published])
  | phaseA i =>
      simp only [Sys.schedStep, hpc]
      split_ifs <;>
        exact F.step_same t _ _ rfl rfl rfl rfl rfl (by simp [hpc, Pc.published])
  | fanout i T j =>
      simp only [Sys.schedStep, hpc]
      cases hd : (s.rt.tasks T).fanout.get? j with
      | none =>
          simp only []
          exact F.step_same t _ _ rfl rfl rfl rfl rfl (by simp [hpc, Pc.published])
      | some d =>
          simp only []
          split_ifs <;>
            exact F.step_same t _ _ rfl rfl rfl rfl rfl
              (by simp [hpc, Pc.published, Sys.fetchSubFanin])
  | push i T j d =>
      simp only [Sys.schedStep, hpc, Sys.pushReady]
      split_ifs <;>
        exact F.step_same t _ _ rfl rfl rfl rfl rfl (by simp [hpc, Pc.published])
  | clear i T =>
      rw [hpc] at hth
      simp only [View.threadOk] at hth
      obtain ⟨hi, hs, -, -⟩ := hth
      have hs' : (s.rt.workers (s.ex.core_assignments_ t i).toNat).task = taskAddr T := hs
      simp only [Sys.schedStep, hpc]
      refine F.step_slot t _ _ G.cores_inj ht i hi 0 rfl rfl rfl rfl ?_ ?_
      · simp only [Sys.setHank, Sys.coreOf]
        rw [slot_update]
      · have := taskAddr_ne_zero T
        simp [hpc, Pc.published, hs', this]
  | count i T =>
      simp only [Sys.schedStep, hpc]
      exact F.step_same t _ _ rfl rfl rfl rfl rfl (by simp [hpc, Pc.published])
  | backPressure =>
      simp only [Sys.schedStep, hpc]
      split_ifs <;>
        exact F.step_same t _ _ rfl rfl rfl rfl rfl (by simp [hpc, Pc.published])
  | phaseB i =>
      simp only [Sys.schedStep, hpc]
      split_ifs <;>
        exact F.step_same t _ _ rfl rfl rfl rfl rfl (by simp [hpc, Pc.published])
  | pop i =>
      simp only [Sys.schedStep, hpc, Sys.popReady]
      split_ifs <;>
        exact F.step_same t _ _ rfl rfl rfl rfl rfl (by simp [hpc, Pc.published])
  | publish i T =>
      rw [hpc] at hth
      simp only [View.threadOk] at hth
      obtain ⟨hi, -, hs, -⟩ := hth
      have hs' : (s.rt.workers (s.ex.core_assignments_ t i).toNat).task = 0 := hs
      simp only [Sys.schedStep, hpc]
      refine F.step_slot t _ _ G.cores_inj ht i hi (taskAddr T) rfl rfl rfl rfl ?_ ?_
      · simp only [Sys.setHank, Sys.coreOf, Sys.setPc]
        rw [slot_update]
      · have := taskAddr_ne_zero T
        simp [hpc, Pc.published, hs', this, Sys.setHank]
  | busy i =>
      simp only [Sys.schedStep, hpc]
      refine F.step_same t _ _ rfl rfl rfl rfl ?_ ?_
      · simp only [Sys.setHank]
        rw [slot_update_same]
        rfl
      · simp [hpc, Pc.published]
  | done =>
      simp only [Sys.schedStep, hpc]
      exact F


theorem Sys.InFlight.of_same {s : Sys} (F : s.InFlight) (s' : Sys)
    (hca : s'.ex.core_assignments_ = s.ex.core_assignments_)
    (hn : s'.ex.thread_cores_num_ = s.ex.thread_cores_num_)
    (htn : s'.ex.thread_num_ = s.ex.thread_num_)
    (hthr : s'.thr = s.thr)
    (hslot : (fun c => (s'.rt.workers c).task) = fun c => (s.rt.workers c).task) :
    s'.InFlight := by
  intro t' ht'
  rw [htn] at ht'
  have hocc : s'.occupied t' = s.occupied t' := by
    unfold Sys.occupied
    rw [hca, hn, hslot]
  rw [hocc, hthr]
  exact F t' ht'

theorem Sys.inFlight_step (r : Runtime) (s : Sys) (a : Action) (hI : s.Inv r)
    (F : s.InFlight) : (s.step a).InFlight := by
  cases a with
  | sched t =>
      simp only [Sys.step]
      split_ifs with ht
      · exact Sys.inFlight_schedStep r s t ht hI F
      · exact F
  | worker c =>
      simp only [Sys.step]
      split_ifs
      swap
      · exact F
      cases hw : s.wrk c with
      | poll =>
          simp only [Sys.workerStep, hw]
          split_ifs
          · exact F.of_same _ rfl rfl rfl rfl rfl
          · exact F.of_same _ rfl rfl rfl rfl rfl
          · exact F
      | exec task_ptr =>
          simp only [Sys.workerStep, hw, Sys.execute_task]
          split_ifs <;> exact F.of_same _ rfl rfl rfl rfl rfl
      | post =>
          simp only [Sys.workerStep, hw]
          refine F.of_same _ rfl rfl rfl rfl ?_
          simp only [Sys.setHank]
          rw [slot_update_same]
          rfl
      | exited =>
          simp only [Sys.workerStep, hw]
          exact F

theorem Sys.inFlight_run (r : Runtime) (wf : r.WellFormed) (schedule : List Action) (s : Sys)
    (hI : s.Inv r) (F : s.InFlight) : (s.run schedule).InFlight := by
  induction schedule generalizing s with
  | nil => exact F
  | cons a l ih => exact ih (s.step a) (Sys.inv_step r wf s a hI) (Sys.inFlight_step r s a hI F)

theorem Sys.inFlight_init (e : AicpuExecutor) (r : Runtime) (wf : r.WellFormed) :
    (Sys.init e r).InFlight := by
  intro t _
  have h0 : (Sys.init e r).occupied t = 0 := by
    unfold Sys.occupied occupiedOf
    apply List.countP_eq_zero.mpr
    intro i _
    have : ((Sys.init e r).rt.workers ((Sys.init e r).ex.core_assignments_ t i).toNat).task = 0 :=
      wf.slots_empty _
    simp [this]
  rw [h0]
  simp [Sys.init, Pc.published]

theorem Sys.setPc_setPc (s : Sys) (t : Nat) (a b : Pc) :
    (s.setPc t a).setPc t b = s.setPc t b := by
  simp [Sys.setPc]

/-- With every slot of thread `t` occupied, Phase B started at index `k` walks to the end
of the row and back to the head of the loop without any other effect. -/
theorem Sys.phaseB_walk (s : Sys) (t : Nat)
    (hfull : ∀ i : Nat, (i : Int) < s.ex.thread_cores_num_ →
      (s.rt.workers (s.coreOf t i)).task ≠ 0) :
    ∀ m k : Nat, k + m = s.ex.thread_cores_num_.toNat →
      Nat.iterate (fun x => Sys.schedStepNoSkip x t) (m + 1) (s.setPc t (.phaseB k))
        = s.setPc t .loopHead := by
  intro m
  induction m with
  | zero =>
      intro k hk
      have hge : ¬ (k : Int) < s.ex.thread_cores_num_ := by omega
      simp only [Function.iterate_succ, Function.iterate_zero, Function.comp_apply, id_eq]
      have hpc : ((s.setPc t (.phaseB k)).thr t).pc = .phaseB k := by simp [Sys.setPc]
      simp only [Sys.schedStepNoSkip, hpc, Sys.schedStep]
      have hn : (s.setPc t (.phaseB k)).ex.thread_cores_num_ = s.ex.thread_cores_num_ := rfl
      rw [hn, if_neg hge, Sys.setPc_setPc]
  | succ m ih =>
      intro k hk
      have hlt : (k : Int) < s.ex.thread_cores_num_ := by omega
      rw [Function.iterate_succ_apply]
      have hpc : ((s.setPc t (.phaseB k)).thr t).pc = .phaseB k := by simp [Sys.setPc]
      have hstep : Sys.schedStepNoSkip (s.setPc t (.phaseB k)) t = s.setPc t (.phaseB (k + 1)) := by
        simp only [Sys.schedStepNoSkip, hpc, Sys.schedStep]
        have hn : (s.setPc t (.phaseB k)).ex.thread_cores_num_ = s.ex.thread_cores_num_ := rfl
        have hw : (s.setPc t (.phaseB k)).rt.workers ((s.setPc t (.phaseB k)).coreOf t k)
            = s.rt.workers (s.coreOf t k) := rfl
        rw [hn, if_pos hlt, hw, if_neg (fun h => hfull k hlt h.2), Sys.setPc_setPc]
      rw [hstep]
      exact ih (k + 1) (by omega)


/-- C23: in every state the shared-memory dispatch loop reaches, for every scheduler
thread `t`: `cur_thread_tasks_in_flight`, plus `1` while the thread is between the store
`h->task = task` and the increment, is the number of its workers whose `task` slot is
not `0`. At the end of Phase A (the back-pressure test) and of Phase B (the head of the
loop) the counter is that number, is not negative and is at most `core_num` (at most `0`
for a negative `core_num`). When the back-pressure test holds, every worker of the thread
has a `task` slot other than `0`, so none is idle, and the step of the code (the skip)
gives the state that the loop without the test reaches by walking through Phase B;
when the test fails, and at every other position, the two loops take the same step. -/
theorem in_flight_counts_occupied (e : AicpuExecutor) (r : Runtime) (wf : r.WellFormed)
    (hfirst : e.initialized_ = false) (hk : e.blockdim_cores_num_ = 3)
    (hov : -2147483648 ≤ 3 * r.block_dim ∧ 3 * r.block_dim ≤ 2147483647)
    (hok : (e.Init (some r)).1 = 0) (schedule : List Action) (t : Nat)
    (ht : (t : Int) < ((Sys.init e r).run schedule).ex.thread_num_) :
    ((((Sys.init e r).run schedule).thr t).cur_thread_tasks_in_flight +
        (((Sys.init e r).run schedule).thr t).pc.published
      = (((Sys.init e r).run schedule).occupied t : Int)) ∧
    ((((Sys.init e r).run schedule).thr t).pc = .backPressure ∨
        (((Sys.init e r).run schedule).thr t).pc = .loopHead →
      (((Sys.init e r).run schedule).thr t).cur_thread_tasks_in_flight
        = (((Sys.init e r).run schedule).occupied t : Int) ∧
      0 ≤ (((Sys.init e r).run schedule).thr t).cur_thread_tasks_in_flight ∧
      (((Sys.init e r).run schedule).thr t).cur_thread_tasks_in_flight
        ≤ max 0 ((Sys.init e r).run schedule).ex.thread_cores_num_) ∧
    ((((Sys.init e r).run schedule).thr t).pc = .backPressure →
      (((Sys.init e r).run schedule).thr t).cur_thread_tasks_in_flight
        ≥ ((Sys.init e r).run schedule).ex.thread_cores_num_ →
      (∀ i : Nat, (i : Int) < ((Sys.init e r).run schedule).ex.thread_cores_num_ →
        (((Sys.init e r).run schedule).rt.workers
          (((Sys.init e r).run schedule).coreOf t i)).task ≠ 0 ∧
        ¬ ((((Sys.init e r).run schedule).rt.workers
            (((Sys.init e r).run schedule).coreOf t i)).task_status = 0 ∧
          (((Sys.init e r).run schedule).rt.workers
            (((Sys.init e r).run schedule).coreOf t i)).task = 0)) ∧
      ((Sys.init e r).run schedule).schedStep t
        = ((Sys.init e r).run schedule).setPc t .loopHead ∧
      Nat.iterate (fun x => Sys.schedStepNoSkip x t)
          (((Sys.init e r).run schedule).ex.thread_cores_num_.toNat + 2)
          ((Sys.init e r).run schedule)
        = ((Sys.init e r).run schedule).schedStep t) ∧
    ((((Sys.init e r).run schedule).thr t).pc = .backPressure →
      ¬ (((Sys.init e r).run schedule).thr t).cur_thread_tasks_in_flight
        ≥ ((Sys.init e r).run schedule).ex.thread_cores_num_ →
      ((Sys.init e r).run schedule).schedStepNoSkip t
        = ((Sys.init e r).run schedule).schedStep t) ∧
    ((((Sys.init e r).run schedule).thr t).pc ≠ .backPressure →
      ((Sys.init e r).run schedule).schedStepNoSkip t
        = ((Sys.init e r).run schedule).schedStep t) := by
  have hI0 := Sys.inv_init e r wf hfirst hk hov hok
  have F := Sys.inFlight_run r wf schedule _ hI0 (Sys.inFlight_init e r wf)
  generalize (Sys.init e r).run schedule = S at ht F ⊢
  have hF := F t ht
  have hle := occupiedOf_le S.ex.core_assignments_ S.ex.thread_cores_num_
    (fun c => (S.rt.workers c).task) t
  have hle' : S.occupied t ≤ S.ex.thread_cores_num_.toNat := hle
  refine ⟨hF, fun hpc => ?_, fun hpc hge => ?_, fun hpc hlt => ?_, fun hpc => ?_⟩
  · have hp : (S.thr t).pc.published = 0 := by
      rcases hpc with h | h <;> rw [h] <;> rfl
    rw [hp] at hF
    refine ⟨by omega, by omega, ?_⟩
    rw [le_max_iff]
    omega
  · have hp : (S.thr t).pc.published = 0 := by rw [hpc]; rfl
    rw [hp] at hF
    have hfull := occupiedOf_full S.ex.core_assignments_ S.ex.thread_cores_num_
      (fun c => (S.rt.workers c).task) t (by
        have : occupiedOf S.ex.core_assignments_ S.ex.thread_cores_num_
          (fun c => (S.rt.workers c).task) t = S.occupied t := rfl
        omega)
    have hfull' : ∀ i : Nat, (i : Int) < S.ex.thread_cores_num_ →
        (S.rt.workers (S.coreOf t i)).task ≠ 0 := hfull
    have hskip : S.schedStep t = S.setPc t .loopHead := by
      simp only [Sys.schedStep, hpc]
      rw [if_pos hge]
    refine ⟨fun i hi => ⟨hfull' i hi, fun h => hfull' i hi h.2⟩, hskip, ?_⟩
    rw [hskip, Function.iterate_succ_apply]
    have h0 : Sys.schedStepNoSkip S t = S.setPc t (.phaseB 0) := by
      simp only [Sys.schedStepNoSkip, hpc]
    rw [h0]
    exact Sys.phaseB_walk S t hfull' S.ex.thread_cores_num_.toNat 0 (by omega)
  · simp only [Sys.schedStepNoSkip, hpc, Sys.schedStep]
    rw [if_neg hlt]
  · cases h : (S.thr t).pc <;> simp only [Sys.schedStepNoSkip, h]
    exact absurd h hpc


theorem threeTaskRuntime_wf : threeTaskRuntime.WellFormed :=
  { fanout_valid := by decide!, fanin_eq := by decide!, ready_nodup := by decide!,
    ready_sound := by decide!, ready_complete := by decide!, slots_empty := fun _ => rfl }

set_option maxHeartbeats 1000000 in
theorem threeTask_saturated :
    ((Sys.init freshExecutor threeTaskRuntime).run (schedSteps 24)).ex.thread_num_ = 1 ∧
    ((Sys.init freshExecutor threeTaskRuntime).run (schedSteps 24)).ex.thread_cores_num_ = 3 ∧
    (((Sys.init freshExecutor threeTaskRuntime).run (schedSteps 24)).thr 0).pc
      = .backPressure ∧
    (((Sys.init freshExecutor threeTaskRuntime).run (schedSteps 24)).thr 0).cur_thread_tasks_in_flight
      = 3 := by
  decide!

theorem in_flight_counts_occupied_witness :
    (((Sys.init freshExecutor threeTaskRuntime).run (schedSteps 24)).thr 0).pc
      = .backPressure ∧
    (((Sys.init freshExecutor threeTaskRuntime).run (schedSteps 24)).thr 0).cur_thread_tasks_in_flight
      ≥ ((Sys.init freshExecutor threeTaskRuntime).run (schedSteps 24)).ex.thread_cores_num_ ∧
    Nat.iterate (fun x => Sys.schedStepNoSkip x 0)
        (((Sys.init freshExecutor threeTaskRuntime).run (schedSteps 24)).ex.thread_cores_num_.toNat
          + 2)
        ((Sys.init freshExecutor threeTaskRuntime).run (schedSteps 24))
      = ((Sys.init freshExecutor threeTaskRuntime).run (schedSteps 24)).schedStep 0 := by
  obtain ⟨h1, h2, h3, h4⟩ := threeTask_saturated
  have hge : (((Sys.init freshExecutor threeTaskRuntime).run (schedSteps 24)).thr 0).cur_thread_tasks_in_flight
      ≥ ((Sys.init freshExecutor threeTaskRuntime).run (schedSteps 24)).ex.thread_cores_num_ := by
    rw [h2, h4]
  exact ⟨h3, hge,
    ((in_flight_counts_occupied freshExecutor threeTaskRuntime threeTaskRuntime_wf rfl rfl
      (by decide) (by decide) (schedSteps 24) 0 (by rw [h1]; decide)).2.2.1 h3 hge).2.2⟩


theorem shutdownCore_none (e : AicpuExecutor) (regs : Nat → Nat) (d : Device) (t i : Nat)
    (hb : regs (e.physical_core_ids_ t i).toNat = 0) : shutdownCore e regs d t i = none := by
  simp [shutdownCore, hb]

theorem shutdownCore_some (e : AicpuExecutor) (regs : Nat → Nat) (d : Device) (t i : Nat)
    (hb : regs (e.physical_core_ids_ t i).toNat ≠ 0) :
    shutdownCore e regs d t i =
      some { workers := Function.update d.workers (e.core_assignments_ t i).toNat
               { d.workers (e.core_assignments_ t i).toNat with control := 1 },
             regfile := CloseToWritting regs
               (WriteToAicore regs d.regfile (e.physical_core_ids_ t i).toNat AICORE_TASK_STOP)
               (e.physical_core_ids_ t i).toNat } := by
  simp [shutdownCore, hb]

theorem shutdownCore_base (e : AicpuExecutor) (regs : Nat → Nat) (d d1 : Device) (t i : Nat)
    (h : shutdownCore e regs d t i = some d1) : regs (e.physical_core_ids_ t i).toNat ≠ 0 := by
  intro hb
  rw [shutdownCore_none e regs d t i hb] at h
  cases h

theorem shutdownOps_cons_some (e : AicpuExecutor) (regs : Nat → Nat) (d d' : Device)
    (op : Nat × Nat) (ops : List (Nat × Nat)) (h : shutdownOps e regs d (op :: ops) = some d') :
    ∃ d1, shutdownCore e regs d op.1 op.2 = some d1 ∧ shutdownOps e regs d1 ops = some d' := by
  unfold shutdownOps at h
  cases h1 : shutdownCore e regs d op.1 op.2 with
  | none => rw [h1] at h; cases h
  | some d1 => rw [h1] at h; exact ⟨d1, rfl, h⟩

theorem shutdownOps_append_some (e : AicpuExecutor) (regs : Nat → Nat) (d' : Device)
    (ops1 ops2 : List (Nat × Nat)) (d : Device)
    (h : shutdownOps e regs d (ops1 ++ ops2) = some d') :
    ∃ d1, shutdownOps e regs d ops1 = some d1 ∧ shutdownOps e regs d1 ops2 = some d' := by
  induction ops1 generalizing d with
  | nil => exact ⟨d, rfl, h⟩
  | cons op ops ih =>
      obtain ⟨d1, h1, h2⟩ := shutdownOps_cons_some e regs d d' op (ops ++ ops2) h
      obtain ⟨d2, h3, h4⟩ := ih d1 h2
      refine ⟨d2, ?_, h4⟩
      unfold shutdownOps
      rw [h1]
      exact h3

theorem shutdownOps_snoc (e : AicpuExecutor) (regs : Nat → Nat) (ops : List (Nat × Nat))
    (d d0 d1 : Device) (t i : Nat) (h0 : shutdownOps e regs d ops = some d0)
    (h1 : shutdownCore e regs d0 t i = some d1) :
    shutdownOps e regs d (ops ++ [(t, i)]) = some d1 := by
  induction ops generalizing d with
  | nil =>
      simp only [shutdownOps, Option.some.injEq] at h0
      rw [h0]
      show shutdownOps e regs d0 [(t, i)] = some d1
      unfold shutdownOps
      rw [h1]
      rfl
  | cons op ops ih =>
      obtain ⟨dx, hx1, hx2⟩ := shutdownOps_cons_some e regs d d0 op ops h0
      show shutdownOps e regs d (op :: (ops ++ [(t, i)])) = some d1
      unfold shutdownOps
      rw [hx1]
      exact ih dx hx2

/-- The run of the iterations comes back exactly when no core it names has a register
base of `0`. -/
theorem shutdownOps_some_iff (e : AicpuExecutor) (regs : Nat → Nat) (ops : List (Nat × Nat))
    (d : Device) :
    (∀ op ∈ ops, regs (e.physical_core_ids_ op.1 op.2).toNat ≠ 0) ↔
      ∃ d', shutdownOps e regs d ops = some d' := by
  induction ops generalizing d with
  | nil => exact ⟨fun _ => ⟨d, rfl⟩, fun _ op ho => absurd ho (List.not_mem_nil _)⟩
  | cons op ops ih =>
      constructor
      · intro h
        have hb := h op (List.mem_cons_self _ _)
        obtain ⟨d', hd'⟩ := (ih _).mp (fun o ho => h o (List.mem_cons_of_mem _ ho))
        refine ⟨d', ?_⟩
        unfold shutdownOps
        rw [shutdownCore_some e regs d op.1 op.2 hb]
        exact hd'
      · rintro ⟨d', hd'⟩ o ho
        obtain ⟨d1, h1, h2⟩ := shutdownOps_cons_some e regs d d' op ops hd'
        rcases List.mem_cons.mp ho with h | h
        · rw [h]; exact shutdownCore_base e regs d d1 op.1 op.2 h1
        · exact (ih d1).mpr ⟨d', h2⟩ o h

/-- A cell that none of the iterations names is left as it was. -/
theorem shutdownOps_frame (e : AicpuExecutor) (regs : Nat → Nat) (c : Nat)
    (ops : List (Nat × Nat)) (d d' : Device) (hrun : shutdownOps e regs d ops = some d')
    (h : ∀ op ∈ ops, (e.core_assignments_ op.1 op.2).toNat ≠ c) :
    d'.workers c = d.workers c := by
  induction ops generalizing d with
  | nil =>
      simp only [shutdownOps, Option.some.injEq] at hrun
      rw [hrun]
  | cons op ops ih =>
      obtain ⟨d1, h1, h2⟩ := shutdownOps_cons_some e regs d d' op ops hrun
      rw [ih d1 h2 (fun o ho => h o (List.mem_cons_of_mem _ ho))]
      have hb := shutdownCore_base e regs d d1 op.1 op.2 h1
      rw [shutdownCore_some e regs d op.1 op.2 hb, Option.some.injEq] at h1
      rw [← h1]
      exact Function.update_noteq (Ne.symm (h op (List.mem_cons_self _ _))) _ _

/-- Once an iteration has named a cell its `control` is `1`, whatever follows. -/
theorem shutdownOps_control (e : AicpuExecutor) (regs : Nat → Nat) (c : Nat)
    (ops : List (Nat × Nat)) (d d' : Device) (hrun : shutdownOps e regs d ops = some d')
    (h : (d.workers c).control = 1 ∨ ∃ op ∈ ops, (e.core_assignments_ op.1 op.2).toNat = c) :
    (d'.workers c).control = 1 := by
  induction ops generalizing d with
  | nil =>
      simp only [shutdownOps, Option.some.injEq] at hrun
      rcases h with h | ⟨op, ho, -⟩
      · rw [← hrun]; exact h
      · exact absurd ho (List.not_mem_nil _)
  | cons op ops ih =>
      obtain ⟨d1, h1, h2⟩ := shutdownOps_cons_some e regs d d' op ops hrun
      apply ih d1 h2
      have hb := shutdownCore_base e regs d d1 op.1 op.2 h1
      rw [shutdownCore_some e regs d op.1 op.2 hb, Option.some.injEq] at h1
      by_cases hc : (e.core_assignments_ op.1 op.2).toNat = c
      · left
        rw [← h1, ← hc]
        simp
      · rcases h with h | ⟨o, ho, hoc⟩
        · left
          rw [← h1]
          simp only []
          rw [Function.update_noteq (Ne.symm hc)]
          exact h
        · rcases List.mem_cons.mp ho with h3 | h3
          · exact absurd (h3 ▸ hoc) hc
          · exact Or.inr ⟨o, h3, hoc⟩

/-- An iteration that comes back leaves the stop sentinel in the data register of its
core. -/
theorem shutdownCore_sentinel (e : AicpuExecutor) (regs : Nat → Nat) (d d1 : Device) (t i : Nat)
    (h : shutdownCore e regs d t i = some d1) :
    d1.regfile (regs (e.physical_core_ids_ t i).toNat + REG_SPR_DATA_MAIN_BASE)
      = AICORE_TASK_STOP := by
  have hb := shutdownCore_base e regs d d1 t i h
  rw [shutdownCore_some e regs d t i hb, Option.some.injEq] at h
  rw [← h]
  simp only [CloseToWritting, WriteToAicore, hb, ne_eq, not_false_eq_true, if_true]
  rw [Function.update_noteq, Function.update_same]
  simp [REG_SPR_DATA_MAIN_BASE, REG_SPR_FAST_PATH_ENABLE]

/-- A register that holds the stop sentinel keeps it through the iterations whose
fast-path register is another one. -/
theorem shutdownOps_keeps_sentinel (e : AicpuExecutor) (regs : Nat → Nat) (a : Nat)
    (ops : List (Nat × Nat)) (d d' : Device) (hrun : shutdownOps e regs d ops = some d')
    (h : d.regfile a = AICORE_TASK_STOP)
    (hsep : ∀ op ∈ ops,
      regs (e.physical_core_ids_ op.1 op.2).toNat + REG_SPR_FAST_PATH_ENABLE ≠ a) :
    d'.regfile a = AICORE_TASK_STOP := by
  induction ops generalizing d with
  | nil =>
      simp only [shutdownOps, Option.some.injEq] at hrun
      rw [← hrun]; exact h
  | cons op ops ih =>
      obtain ⟨d1, h1, h2⟩ := shutdownOps_cons_some e regs d d' op ops hrun
      apply ih d1 h2 _ (fun o ho => hsep o (List.mem_cons_of_mem _ ho))
      have hs := hsep op (List.mem_cons_self _ _)
      have hb := shutdownCore_base e regs d d1 op.1 op.2 h1
      rw [shutdownCore_some e regs d op.1 op.2 hb, Option.some.injEq] at h1
      rw [← h1]
      simp only [CloseToWritting, WriteToAicore, hb, ne_eq, not_false_eq_true, if_true]
      rw [Function.update_noteq (Ne.symm hs)]
      by_cases ha : a = regs (e.physical_core_ids_ op.1 op.2).toNat + REG_SPR_DATA_MAIN_BASE
      · rw [ha, Function.update_same]
      · rw [Function.update_noteq ha]; exact h

theorem ShutdownAiCore_some (e : AicpuExecutor) (regs : Nat → Nat) (t : Nat) (d : Device)
    (rc : Int) (d' : Device) :
    e.ShutdownAiCore regs t d = some (rc, d') ↔
      rc = 0 ∧ shutdownOps e regs d
        ((List.range e.thread_cores_num_.toNat).map (fun i => (t, i))) = some d' := by
  unfold AicpuExecutor.ShutdownAiCore
  cases h : shutdownOps e regs d ((List.range e.thread_cores_num_.toNat).map (fun i => (t, i))) with
  | none => simp
  | some d1 =>
      simp only [Option.some.injEq, Prod.mk.injEq]
      constructor
      · rintro ⟨h1, h2⟩; exact ⟨h1.symm, h2⟩
      · rintro ⟨h1, h2⟩; exact ⟨h1.symm, h2⟩


/-- C20: after a successful `Init`, with `pc` the physical core ids that `HankAiCore`
recorded, let the iterations of the `ShutdownAiCore` loops of the threads run interleaved
in any order `ops` that holds every thread `t < thread_num_` with every index
`i < thread_cores_num_`. The run comes back exactly when no core it names has a register
base of `0` (for such a base the store of `CloseToWritting` faults). When it has come
back, every one of the `3 * block_dim` handshake cells has `control = 1`, and for every
recorded physical core the register base is not `0`, the iteration for that core has
left the stop sentinel in its data register, and the register still holds it at the end
when it is the fast-path register of no core of `ops`. `ShutdownAiCore` of one thread
comes back exactly when none of its cores has a register base of `0`; it then returns
`0`, is the run of its own iterations in order, and has changed no cell of another
thread. -/
theorem ShutdownAiCore_stops_cores (e : AicpuExecutor) (r : Runtime) (pc : Nat → Nat → Int)
    (hfirst : e.initialized_ = false) (hk : e.blockdim_cores_num_ = 3)
    (hov : -2147483648 ≤ 3 * r.block_dim ∧ 3 * r.block_dim ≤ 2147483647)
    (hok : (e.Init (some r)).1 = 0) (d : Device) (ops : List (Nat × Nat))
    (hall : ∀ t i : Nat, (t : Int) < (e.Init (some r)).2.thread_num_ →
      (i : Int) < (e.Init (some r)).2.thread_cores_num_ → (t, i) ∈ ops) :
    ((∀ op ∈ ops, r.regs (pc op.1 op.2).toNat ≠ 0) ↔
      ∃ d', shutdownOps ((e.Init (some r)).2.recorded pc) r.regs d ops = some d') ∧
    (∀ d', shutdownOps ((e.Init (some r)).2.recorded pc) r.regs d ops = some d' →
      (∀ c : Nat, (c : Int) < 3 * r.block_dim → (d'.workers c).control = 1) ∧
      (∀ t i : Nat, (t : Int) < (e.Init (some r)).2.thread_num_ →
        (i : Int) < (e.Init (some r)).2.thread_cores_num_ →
        r.regs (pc t i).toNat ≠ 0 ∧
        (∃ ops1 ops2 d1, ops = ops1 ++ (t, i) :: ops2 ∧
          shutdownOps ((e.Init (some r)).2.recorded pc) r.regs d (ops1 ++ [(t, i)]) = some d1 ∧
          d1.regfile (r.regs (pc t i).toNat + REG_SPR_DATA_MAIN_BASE) = AICORE_TASK_STOP) ∧
        ((∀ op ∈ ops, r.regs (pc op.1 op.2).toNat + REG_SPR_FAST_PATH_ENABLE ≠
            r.regs (pc t i).toNat + REG_SPR_DATA_MAIN_BASE) →
          d'.regfile (r.regs (pc t i).toNat + REG_SPR_DATA_MAIN_BASE) = AICORE_TASK_STOP))) ∧
    (∀ t : Nat,
      ((∀ i : Nat, (i : Int) < (e.Init (some r)).2.thread_cores_num_ →
          r.regs (pc t i).toNat ≠ 0) ↔
        ∃ d', ((e.Init (some r)).2.recorded pc).ShutdownAiCore r.regs t d = some (0, d')) ∧
      ∀ rc d', ((e.Init (some r)).2.recorded pc).ShutdownAiCore r.regs t d = some (rc, d') →
        rc = 0 ∧
        shutdownOps ((e.Init (some r)).2.recorded pc) r.regs d
          ((List.range (e.Init (some r)).2.thread_cores_num_.toNat).map (fun i => (t, i)))
            = some d' ∧
        ∀ t' i' : Nat, (t : Int) < (e.Init (some r)).2.thread_num_ →
          (t' : Int) < (e.Init (some r)).2.thread_num_ →
          (i' : Int) < (e.Init (some r)).2.thread_cores_num_ → t' ≠ t →
          d'.workers ((e.Init (some r)).2.core_assignments_ t' i').toNat
            = d.workers ((e.Init (some r)).2.core_assignments_ t' i').toNat) := by
  obtain ⟨-, hrange, hinj, hsurj⟩ := Init_partition e r hfirst hk hov hok
  have hiff := shutdownOps_some_iff ((e.Init (some r)).2.recorded pc) r.regs ops d
  refine ⟨hiff, fun d' hrun => ⟨fun c hc => ?_, fun t i ht hi => ?_⟩, fun t => ⟨?_, ?_⟩⟩
  · obtain ⟨t, i, ht, hi, hw⟩ := hsurj (c : Int) (Int.natCast_nonneg c) hc
    apply shutdownOps_control _ _ c ops d d' hrun
    right
    refine ⟨(t, i), hall t i ht hi, ?_⟩
    show ((e.Init (some r)).2.core_assignments_ t i).toNat = c
    rw [hw]
    exact Int.toNat_natCast c
  · have hmem := hall t i ht hi
    have hb : r.regs (pc t i).toNat ≠ 0 := hiff.mpr ⟨d', hrun⟩ (t, i) hmem
    obtain ⟨ops1, ops2, hsplit⟩ := List.append_of_mem hmem
    have hrun2 := hrun
    rw [hsplit] at hrun2
    obtain ⟨d0, h0, h1⟩ := shutdownOps_append_some _ _ d' ops1 ((t, i) :: ops2) d hrun2
    obtain ⟨d1, h2, h3⟩ := shutdownOps_cons_some _ _ d0 d' (t, i) ops2 h1
    have hs := shutdownCore_sentinel ((e.Init (some r)).2.recorded pc) r.regs d0 d1 t i h2
    have hs' : d1.regfile (r.regs (pc t i).toNat + REG_SPR_DATA_MAIN_BASE) = AICORE_TASK_STOP :=
      hs
    have hpre : shutdownOps ((e.Init (some r)).2.recorded pc) r.regs d (ops1 ++ [(t, i)])
        = some d1 := shutdownOps_snoc _ _ ops1 d d0 d1 t i h0 h2
    refine ⟨hb, ⟨ops1, ops2, d1, hsplit, hpre, hs'⟩, fun hsep => ?_⟩
    apply shutdownOps_keeps_sentinel _ _ _ ops2 d1 d' h3 hs'
    intro op ho
    apply hsep op
    rw [hsplit]
    exact List.mem_append_right _ (List.mem_cons_of_mem _ ho)
  · have h1 := shutdownOps_some_iff ((e.Init (some r)).2.recorded pc) r.regs
      ((List.range (e.Init (some r)).2.thread_cores_num_.toNat).map (fun i => (t, i))) d
    constructor
    · intro hb
      obtain ⟨d', hd'⟩ := h1.mp (by
        intro op ho
        obtain ⟨i, hi, rfl⟩ := List.mem_map.mp ho
        have := List.mem_range.mp hi
        exact hb i (by omega))
      exact ⟨d', (ShutdownAiCore_some _ _ _ _ _ _).mpr ⟨rfl, hd'⟩⟩
    · rintro ⟨d', hd'⟩ i hi
      have h2 := ((ShutdownAiCore_some _ _ _ _ _ _).mp hd').2
      exact h1.mpr ⟨d', h2⟩ (t, i) (List.mem_map.mpr ⟨i, List.mem_range.mpr (by omega), rfl⟩)
  · intro rc d' hS
    obtain ⟨hrc, hrow⟩ := (ShutdownAiCore_some _ _ _ _ _ _).mp hS
    refine ⟨hrc, hrow, fun t' i' ht ht' hi' hne => ?_⟩
    apply shutdownOps_frame _ _ _ _ d d' hrow
    intro op ho heq
    obtain ⟨i, hi, rfl⟩ := List.mem_map.mp ho
    have hi2 : (i : Int) < (e.Init (some r)).2.thread_cores_num_ := by
      have := List.mem_range.mp hi
      have h2 : ((e.Init (some r)).2.recorded pc).thread_cores_num_ =
          (e.Init (some r)).2.thread_cores_num_ := rfl
      omega
    have h1 := (hrange t i ht hi2).1
    have h2 := (hrange t' i' ht' hi').1
    have heq2 : ((e.Init (some r)).2.core_assignments_ t i).toNat =
        ((e.Init (some r)).2.core_assignments_ t' i').toNat := heq
    have h3 : (e.Init (some r)).2.core_assignments_ t i =
        (e.Init (some r)).2.core_assignments_ t' i' := by omega
    exact hne (hinj t i t' i' ht hi2 ht' hi' h3).1.symm


theorem ShutdownAiCore_stops_cores_witness :
    (freshExecutor.Init (some oneTaskRegRuntime)).1 = 0 ∧
    (∃ d', shutdownOps ((freshExecutor.Init (some oneTaskRegRuntime)).2.recorded (fun _ i => i))
        oneTaskRegRuntime.regs (Device.mk oneTaskRegRuntime.workers (fun _ => 0))
        [(0, 0), (0, 1), (0, 2)] = some d' ∧
      (d'.workers 0).control = 1 ∧ (d'.workers 1).control = 1 ∧ (d'.workers 2).control = 1) ∧
    shutdownOps ((freshExecutor.Init (some (oneTaskRuntime 1 1))).2.recorded (fun _ i => i))
        (oneTaskRuntime 1 1).regs (Device.mk (oneTaskRuntime 1 1).workers (fun _ => 0))
        [(0, 0), (0, 1), (0, 2)] = none := by
  have hall : ∀ t i : Nat, (t : Int) < (freshExecutor.Init (some oneTaskRegRuntime)).2.thread_num_ →
      (i : Int) < (freshExecutor.Init (some oneTaskRegRuntime)).2.thread_cores_num_ →
      (t, i) ∈ [(0, 0), (0, 1), (0, 2)] := by
    intro t i ht hi
    have h1 : (freshExecutor.Init (some oneTaskRegRuntime)).2.thread_num_ = 1 := by decide
    have h2 : (freshExecutor.Init (some oneTaskRegRuntime)).2.thread_cores_num_ = 3 := by decide
    rw [h1] at ht
    rw [h2] at hi
    have ht0 : t = 0 := by omega
    have hi3 : i < 3 := by omega
    subst ht0
    interval_cases i <;> simp
  have T := ShutdownAiCore_stops_cores freshExecutor oneTaskRegRuntime (fun _ i => i) rfl rfl
    (by decide) (by decide) (Device.mk oneTaskRegRuntime.workers (fun _ => 0))
    [(0, 0), (0, 1), (0, 2)] hall
  obtain ⟨d', hd'⟩ := T.1.mp (fun op _ => by
    show 4096 * ((op.2 : Int).toNat + 1) ≠ 0
    omega)
  have hc := (T.2.1 d' hd').1
  exact ⟨by decide, ⟨d', hd', hc 0 (by decide), hc 1 (by decide), hc 2 (by decide)⟩, rfl⟩


end SimplerWc
